import Mathlib

/-!
# rotor: a typed data-access layer over DynamoDB

A shallow embedding of the Go package `rotor` (files `service.go`, `error.go`,
`codec.go`, `op_get.go`, `op_put.go`, `op_update.go`, `op_delete.go`,
`op_transact.go`, `op_query.go`).

Conventions of the embedding

* A Go pointer or a Go map that may be `nil` is an `Option`; a Go slice is a `List`;
  a Go map is an association list.
* A Go `error` result is an `Option Error` (`none` is the nil error).
* The collaborators the package calls but does not define (the DynamoDB client, the
  attribute encoder and decoder, the expression compiler `Builder.Build`) are fields of
  the service handle: every theorem holds for all of them.
* Every entry point returns a `Result`: the returned error, the destination value after
  the call, and the trace of collaborator invocations the call performed, in order.
* The `context.Context` argument is not modelled: cancellation shows up as an error
  returned by the backend.
-/

namespace Rotor

/-! ## error.go -/

/-- Go `error` values. The five sentinels of `error.go`, any value implementing
`awserr.Error` (with its `Code()` and message), and any other error value. -/
inductive Error where
  | ErrInput
  | ErrBatchGetPage
  | ErrItemNotFound
  | ErrConditionalCheck
  | ErrReturnValue
  | awserr (code : String) (message : String)
  | other (message : String)
  deriving DecidableEq, Repr

/-! ## Types of the AWS SDK used by the package -/

/-- The SDK type `dynamodb.AttributeValue`: a struct of which at most one field is set.
`zero` is the struct with no field set. -/
inductive AttributeValue where
  | zero
  | S (s : String)
  | N (n : String)
  | BOOL (b : Bool)
  | NULL
  | L (l : List AttributeValue)
  | M (m : List (String × AttributeValue))

/-- A non-nil `map[string]*dynamodb.AttributeValue`. -/
abbrev AttributeMap := List (String × AttributeValue)

/-- The constant `dynamodb.ErrCodeConditionalCheckFailedException`. -/
def ErrCodeConditionalCheckFailedException : String := "ConditionalCheckFailedException"

/-- The constant `dynamodb.ReturnValueNone`. -/
def ReturnValueNone : String := "NONE"
/-- The constant `dynamodb.ReturnValueAllOld`. -/
def ReturnValueAllOld : String := "ALL_OLD"
/-- The constant `dynamodb.ReturnValueUpdatedOld`. -/
def ReturnValueUpdatedOld : String := "UPDATED_OLD"
/-- The constant `dynamodb.ReturnValueAllNew`. -/
def ReturnValueAllNew : String := "ALL_NEW"
/-- The constant `dynamodb.ReturnValueUpdatedNew`. -/
def ReturnValueUpdatedNew : String := "UPDATED_NEW"
/-- The constant `dynamodb.SelectCount`. -/
def SelectCount : String := "COUNT"

/-- The helper `aws.StringValue`: the pointed-to string, or the empty string for nil. -/
def StringValue (p : Option String) : String :=
  match p with
  | some s => s
  | none => ""

/-! ### Package `expression` of the SDK -/

/-- The SDK type `expression.ConditionBuilder`, restricted to the constructors the package and
its tests use (`AttributeExists`, `AttributeNotExists`, `Equal`) and the conjunction
`And`. -/
inductive ConditionBuilder where
  | AttributeExists (name : String)
  | AttributeNotExists (name : String)
  | Equal (name : String) (value : String)
  | And (left : ConditionBuilder) (right : ConditionBuilder)
  deriving DecidableEq, Repr

/-- The SDK type `expression.KeyConditionBuilder`. -/
inductive KeyConditionBuilder where
  | KeyEqual (name : String) (value : String)
  | KeyAnd (left : KeyConditionBuilder) (right : KeyConditionBuilder)
  deriving DecidableEq, Repr

/-- The SDK type `expression.ProjectionBuilder` (`NamesList`). -/
structure ProjectionBuilder where
  names : List String
  deriving DecidableEq, Repr

/-- The SDK type `expression.UpdateBuilder` (a list of `Set` operations). -/
structure UpdateBuilder where
  sets : List (String × String)
  deriving DecidableEq, Repr

/-- The SDK type `expression.Builder`: a map from the kind of clause to the clause. The SDK
keeps one slot per kind (`expressionMap[kind]`). -/
structure Builder where
  keyCondition : Option KeyConditionBuilder := none
  filter : Option ConditionBuilder := none
  projection : Option ProjectionBuilder := none
  update : Option UpdateBuilder := none
  condition : Option ConditionBuilder := none
  deriving DecidableEq, Repr

/-- The SDK function `expression.NewBuilder`: a builder with no clause. -/
def NewBuilder : Builder := {}

/-- The SDK method `Builder.WithCondition`: `b.expressionMap[condition] = conditionBuilder`. -/
def Builder.WithCondition (b : Builder) (c : ConditionBuilder) : Builder :=
  { b with condition := some c }

/-- The SDK method `Builder.WithFilter`: `b.expressionMap[filter] = filterBuilder`. -/
def Builder.WithFilter (b : Builder) (c : ConditionBuilder) : Builder :=
  { b with filter := some c }

/-- The SDK method `Builder.WithProjection`:
`b.expressionMap[projection] = projectionBuilder`. -/
def Builder.WithProjection (b : Builder) (p : ProjectionBuilder) : Builder :=
  { b with projection := some p }

/-- The SDK method `Builder.WithUpdate`: `b.expressionMap[update] = updateBuilder`. -/
def Builder.WithUpdate (b : Builder) (u : UpdateBuilder) : Builder :=
  { b with update := some u }

/-- The SDK method `Builder.WithKeyCondition`:
`b.expressionMap[keyCondition] = keyConditionBuilder`. -/
def Builder.WithKeyCondition (b : Builder) (k : KeyConditionBuilder) : Builder :=
  { b with keyCondition := some k }

/-- The SDK type `expression.Expression`, seen through its accessors `KeyCondition()`,
`Filter()`, `Projection()`, `Update()`, `Condition()`, `Names()` and `Values()`. The zero
value (`var expr expression.Expression`) answers nil to each of them. -/
structure Expression where
  KeyCondition : Option String := none
  Filter : Option String := none
  Projection : Option String := none
  Update : Option String := none
  Condition : Option String := none
  Names : Option (List (String × String)) := none
  Values : Option AttributeMap := none

/-! ### Requests and responses of the DynamoDB client -/

/-- The SDK type `dynamodb.GetItemInput` (the fields the package sets). -/
structure GetItemInput where
  TableName : Option String
  Key : AttributeMap
  ConsistentRead : Option Bool
  ProjectionExpression : Option String
  ExpressionAttributeNames : Option (List (String × String))

/-- The SDK type `dynamodb.GetItemOutput`. -/
structure GetItemOutput where
  Item : Option AttributeMap

/-- The SDK type `dynamodb.PutItemInput`. -/
structure PutItemInput where
  TableName : Option String
  Item : AttributeMap
  ConditionExpression : Option String
  ExpressionAttributeNames : Option (List (String × String))
  ExpressionAttributeValues : Option AttributeMap
  ReturnValues : Option String

/-- The SDK type `dynamodb.PutItemOutput`. -/
structure PutItemOutput where
  Attributes : Option AttributeMap

/-- The SDK type `dynamodb.UpdateItemInput`. -/
structure UpdateItemInput where
  TableName : Option String
  Key : AttributeMap
  UpdateExpression : Option String
  ConditionExpression : Option String
  ExpressionAttributeNames : Option (List (String × String))
  ExpressionAttributeValues : Option AttributeMap
  ReturnValues : Option String

/-- The SDK type `dynamodb.UpdateItemOutput`. -/
structure UpdateItemOutput where
  Attributes : Option AttributeMap

/-- The SDK type `dynamodb.DeleteItemInput`. -/
structure DeleteItemInput where
  TableName : Option String
  Key : AttributeMap
  ConditionExpression : Option String
  ExpressionAttributeNames : Option (List (String × String))
  ExpressionAttributeValues : Option AttributeMap
  ReturnValues : Option String

/-- The SDK type `dynamodb.DeleteItemOutput`. -/
structure DeleteItemOutput where
  Attributes : Option AttributeMap

/-- The SDK type `dynamodb.Update`, one update of a write group. -/
structure Update where
  TableName : Option String
  Key : AttributeMap
  UpdateExpression : Option String
  ConditionExpression : Option String
  ExpressionAttributeNames : Option (List (String × String))
  ExpressionAttributeValues : Option AttributeMap

/-- The SDK type `dynamodb.Put`, one put of a write group. -/
structure Put where
  TableName : Option String
  Item : AttributeMap
  ConditionExpression : Option String
  ExpressionAttributeNames : Option (List (String × String))
  ExpressionAttributeValues : Option AttributeMap

/-- The SDK type `dynamodb.Delete`, one delete of a write group. -/
structure Delete where
  TableName : Option String
  Key : AttributeMap
  ConditionExpression : Option String
  ExpressionAttributeNames : Option (List (String × String))
  ExpressionAttributeValues : Option AttributeMap

/-- The SDK type `dynamodb.TransactWriteItem`: a struct of pointers of which the package
sets exactly one. -/
structure TransactWriteItem where
  Update : Option Update := none
  Put : Option Put := none
  Delete : Option Delete := none

/-- The SDK type `dynamodb.TransactWriteItemsInput`. `TransactItems` is a slice of
pointers: an entry that was never assigned is nil. -/
structure TransactWriteItemsInput where
  TransactItems : List (Option TransactWriteItem)

/-- The SDK type `dynamodb.KeysAndAttributes`. -/
structure KeysAndAttributes where
  Keys : List AttributeMap
  ProjectionExpression : Option String
  ExpressionAttributeNames : Option (List (String × String))
  ConsistentRead : Option Bool

/-- The SDK type `dynamodb.BatchGetItemInput`. -/
structure BatchGetItemInput where
  RequestItems : List (String × KeysAndAttributes)

/-- The SDK type `dynamodb.BatchGetItemOutput`, one page of a batch read. -/
structure BatchGetItemOutput where
  Responses : List (String × List AttributeMap)
  UnprocessedKeys : List (String × KeysAndAttributes)

/-- The SDK type `dynamodb.QueryInput`. -/
structure QueryInput where
  TableName : Option String
  IndexName : Option String
  KeyConditionExpression : Option String
  ExpressionAttributeNames : Option (List (String × String))
  ExpressionAttributeValues : Option AttributeMap
  FilterExpression : Option String
  ProjectionExpression : Option String
  ConsistentRead : Option Bool
  ScanIndexForward : Option Bool := none
  Select : Option String := none

/-- The SDK type `dynamodb.QueryOutput`, one page of a query. -/
structure QueryOutput where
  Items : List AttributeMap
  Count : Option Int

/-- The DynamoDB client `*dynamodb.DynamoDB`, by what it answers to each request. A paged
operation answers with the pages the backend can deliver, in order, and the error (if
any) that ends the paging after them. -/
structure DynamoDB where
  GetItemWithContext : GetItemInput → Except Error GetItemOutput
  PutItemWithContext : PutItemInput → Except Error PutItemOutput
  UpdateItemWithContext : UpdateItemInput → Except Error UpdateItemOutput
  DeleteItemWithContext : DeleteItemInput → Except Error DeleteItemOutput
  TransactWriteItemsWithContext : TransactWriteItemsInput → Option Error
  BatchGetItemPages : BatchGetItemInput → List BatchGetItemOutput × Option Error
  QueryPages : QueryInput → List QueryOutput × Option Error
  QueryWithContext : QueryInput → Except Error QueryOutput

/-- The SDK's page iteration (`XxxPagesWithContext`): `fn` is called on each page in turn,
with the flag "this is the last page", until it answers false or the pages are used up.
The call returns the error that ended the paging, nil when `fn` stopped it. The state
`s` stands for the variables the callback closes over. -/
def eachPage {P σ : Type} (fn : σ → P → Bool → σ × Bool) :
    List P → Option Error → σ → σ × Option Error
  | [], final, s => (s, final)
  | p :: rest, final, s =>
    match fn s p (rest.isEmpty && final.isNone) with
    | (s1, true) => eachPage fn rest final s1
    | (s1, false) => (s1, none)

/-! ## codec.go -/

/-- The type `Codec` of `codec.go`: the SDK encoder and decoder it wraps. `Encode`
returns `(*AttributeValue, error)`; `Decode` returns the destination after decoding and
the error. -/
structure Codec (R : Type) where
  Encode : R → Option AttributeValue × Option Error
  Decode : AttributeValue → R → R × Option Error

/-- The method `Codec.MarshalMap`. -/
def Codec.MarshalMap {R : Type} (codec : Codec R) (v : R) : AttributeMap × Option Error :=
  match codec.Encode v with
  | (_, some err) => ([], some err)
  | (none, none) => ([], none)
  | (some (AttributeValue.M m), none) => (m, none)
  | (some _, none) => ([], none)

/-- The method `Codec.Unmarshal`. -/
def Codec.Unmarshal {R : Type} (codec : Codec R) (av : AttributeValue) (out : R) :
    R × Option Error :=
  codec.Decode av out

/-- The method `Codec.UnmarshalMap`, on a map that may be nil. -/
def Codec.UnmarshalMap {R : Type} (codec : Codec R) (m : Option AttributeMap) (out : R) :
    R × Option Error :=
  match m with
  | some m => codec.Decode (AttributeValue.M m) out
  | none => codec.Decode AttributeValue.zero out

/-- The method `Codec.UnmarshalList`. -/
def Codec.UnmarshalList {R : Type} (codec : Codec R) (l : List AttributeValue) (out : R) :
    R × Option Error :=
  codec.Decode (AttributeValue.L l) out

/-- The method `Codec.UnmarshalListOfMaps`. -/
def Codec.UnmarshalListOfMaps {R : Type} (codec : Codec R) (l : List AttributeMap) (out : R) :
    R × Option Error :=
  codec.UnmarshalList (l.map (fun m => AttributeValue.M m)) out

/-! ## service.go -/

/-- The constant `maxReadNum`. -/
def maxReadNum : Nat := 500

/-- The constant `maxWriteNum`. -/
def maxWriteNum : Nat := 25

/-- The variable `tablePK`. -/
def tablePK : String := "PK"

/-- The variable `tableSK`. -/
def tableSK : String := "SK"

/-- The type `PrimaryKeyType`. -/
abbrev PrimaryKeyType := AttributeMap

/-- The function `PrimaryKey`. -/
def PrimaryKey (pk sk : String) : PrimaryKeyType :=
  [(tablePK, AttributeValue.S pk), (tableSK, AttributeValue.S sk)]

/-- The function `ConditionItemNotExist`. -/
def ConditionItemNotExist : ConditionBuilder := ConditionBuilder.AttributeNotExists tablePK

/-- The function `ConditionItemExist`. -/
def ConditionItemExist : ConditionBuilder := ConditionBuilder.AttributeExists tableSK

/-- An instant of time (`time.Time`), as a count of nanoseconds on the time line. -/
abbrev Time := Int

/-- A length of time (`time.Duration`), in nanoseconds. -/
abbrev Duration := Int

/-- The SDK method `Time.After`: whether `t` is after `u`. -/
def Time.After (t u : Time) : Bool := decide (u < t)

/-- The largest `time.Duration`, `1<<63 - 1` nanoseconds. -/
def maxDuration : Duration := 9223372036854775807

/-- The smallest `time.Duration`, `-1 << 63` nanoseconds. -/
def minDuration : Duration := -9223372036854775808

/-- The SDK method `Time.Sub`: the duration `t - u`, or the largest (smallest) duration
when `t - u` lies above (below) what a `Duration` can hold. -/
def Time.Sub (t u : Time) : Duration :=
  if maxDuration < t - u then maxDuration
  else if t - u < minDuration then minDuration
  else t - u

/-- The SDK method `Time.Add`: the instant `t + d`. -/
def Time.Add (t : Time) (d : Duration) : Time := t + d

/-- The type `BaseSchema`. -/
structure BaseSchema where
  PK : String
  SK : String
  Version : String := ""
  CreateTime : Int := 0
  UpdateTime : Int := 0
  ExpireTime : Option Time := none

/-- The method `BaseSchema.Expired`. The reading `time.Now()` of the clock is the
argument `now`. -/
def BaseSchema.Expired (bs : BaseSchema) (now : Time) : Bool :=
  match bs.ExpireTime with
  | none => false
  | some expireTime => expireTime.After now

/-- The method `BaseSchema.TTL`. -/
def BaseSchema.TTL (bs : BaseSchema) (now : Time) : Option Duration :=
  match bs.ExpireTime with
  | none => none
  | some expireTime => some (expireTime.Sub now)

/-- The method `BaseSchema.SetTTL`. -/
def BaseSchema.SetTTL (bs : BaseSchema) (now : Time) (d : Duration) : BaseSchema :=
  { bs with ExpireTime := some (now.Add d) }

/-- The type `Service`: the backend client, the codec and the table name. `Build` is the
SDK method `Builder.Build`, which every entry point calls; it is carried with the handle
so that the theorems hold for whatever it compiles. -/
structure Service (R : Type) where
  dynamo : DynamoDB
  codec : Codec R
  tableName : Option String
  Build : Builder → Except Error Expression

/-- The method `Service.TableName`. -/
def Service.TableName {R : Type} (rs : Service R) : String := StringValue rs.tableName

/-! ## Traces -/

/-- One invocation of a collaborator during a call: an expression compilation, a codec
call, or a request to the backend. -/
inductive Event (R : Type) where
  | Build (b : Builder)
  | MarshalMap (v : R)
  | UnmarshalMap (m : Option AttributeMap)
  | UnmarshalListOfMaps (l : List AttributeMap)
  | GetItem (input : GetItemInput)
  | PutItem (input : PutItemInput)
  | UpdateItem (input : UpdateItemInput)
  | DeleteItem (input : DeleteItemInput)
  | TransactWriteItems (input : TransactWriteItemsInput)
  | BatchGetItemPages (input : BatchGetItemInput)
  | QueryPages (input : QueryInput)
  | Query (input : QueryInput)

/-- Whether the event is a request to the backend. -/
def Event.isBackend {R : Type} : Event R → Bool
  | Event.Build _ => false
  | Event.MarshalMap _ => false
  | Event.UnmarshalMap _ => false
  | Event.UnmarshalListOfMaps _ => false
  | _ => true

/-- Whether the event is a call of the codec. -/
def Event.isCodec {R : Type} : Event R → Bool
  | Event.MarshalMap _ => true
  | Event.UnmarshalMap _ => true
  | Event.UnmarshalListOfMaps _ => true
  | _ => false

/-- What a call of an entry point leaves behind: the error it returns (`none` is nil), the
destination `out` after the call (`Unit` for an entry point without one), and the
collaborator invocations it made, in order. -/
structure Result (R : Type) (O : Type) where
  err : Option Error
  out : O
  trace : List (Event R)

/-- The statement pattern `if builder != nil { expr, err = builder.Build() }` that the
entry points share: the zero expression for a nil builder, else the compilation. -/
def Service.buildIfSet {R : Type} (rs : Service R) (builder : Option Builder) :
    Except Error Expression × List (Event R) :=
  match builder with
  | none => (Except.ok {}, [])
  | some b => (rs.Build b, [Event.Build b])

/-- The block that follows the backend call in every write entry point, the same text in
each of them: `if aerr, ok := err.(awserr.Error); ok { switch aerr.Code() { case
dynamodb.ErrCodeConditionalCheckFailedException: return ErrConditionalCheck; default:
return err } }; return err`. The value is the error the entry point returns. -/
def returnedForBackendError (err : Error) : Error :=
  match err with
  | Error.awserr code message =>
    if code = ErrCodeConditionalCheckFailedException then Error.ErrConditionalCheck
    else Error.awserr code message
  | e => e

/-! ## op_put.go -/

/-- The type `PutOptions`. -/
structure PutOptions where
  builder : Option Builder := none

/-- The function `defaultPutOptions`. -/
def defaultPutOptions : PutOptions := {}

/-- The type `PutOption`: a function that updates the options in place. -/
abbrev PutOption := PutOptions → PutOptions

/-- The function `PutCondition`. -/
def PutCondition (condition : ConditionBuilder) : PutOption := fun options =>
  let builder := match options.builder with
    | none => NewBuilder
    | some b => b
  { options with builder := some (builder.WithCondition condition) }

/-- The method `Service.PutOut`. -/
def Service.PutOut {R : Type} (rs : Service R) (v : R) (out : R) (opts : List PutOption) :
    Result R R :=
  let options := opts.foldl (fun options opt => opt options) defaultPutOptions
  match rs.buildIfSet options.builder with
  | (Except.error err, ev) => ⟨some err, out, ev⟩
  | (Except.ok expr, ev) =>
    match rs.codec.MarshalMap v with
    | (_, some err) => ⟨some err, out, ev ++ [Event.MarshalMap v]⟩
    | (item, none) =>
      let input : PutItemInput :=
        { TableName := rs.tableName
          Item := item
          ConditionExpression := expr.Condition
          ExpressionAttributeNames := expr.Names
          ExpressionAttributeValues := expr.Values
          ReturnValues := some ReturnValueAllOld }
      match rs.dynamo.PutItemWithContext input with
      | Except.error err =>
        ⟨some (returnedForBackendError err), out,
          ev ++ [Event.MarshalMap v, Event.PutItem input]⟩
      | Except.ok ret =>
        ⟨(rs.codec.UnmarshalMap ret.Attributes out).2,
          (rs.codec.UnmarshalMap ret.Attributes out).1,
          ev ++ [Event.MarshalMap v, Event.PutItem input, Event.UnmarshalMap ret.Attributes]⟩

/-- The method `Service.Put`. -/
def Service.Put {R : Type} (rs : Service R) (v : R) (opts : List PutOption) :
    Result R Unit :=
  let options := opts.foldl (fun options opt => opt options) defaultPutOptions
  match rs.buildIfSet options.builder with
  | (Except.error err, ev) => ⟨some err, (), ev⟩
  | (Except.ok expr, ev) =>
    match rs.codec.MarshalMap v with
    | (_, some err) => ⟨some err, (), ev ++ [Event.MarshalMap v]⟩
    | (item, none) =>
      let input : PutItemInput :=
        { TableName := rs.tableName
          Item := item
          ConditionExpression := expr.Condition
          ExpressionAttributeNames := expr.Names
          ExpressionAttributeValues := expr.Values
          ReturnValues := some ReturnValueNone }
      match rs.dynamo.PutItemWithContext input with
      | Except.error err =>
        ⟨some (returnedForBackendError err), (),
          ev ++ [Event.MarshalMap v, Event.PutItem input]⟩
      | Except.ok _ => ⟨none, (), ev ++ [Event.MarshalMap v, Event.PutItem input]⟩

/-- The method `Service.PutIfNotExist`. -/
def Service.PutIfNotExist {R : Type} (rs : Service R) (v : R) : Result R Unit :=
  rs.Put v [PutCondition ConditionItemNotExist]

/-- The loop `for i, in := range ins` of `PutBatch`, from index `i` on. -/
def Service.putBatchLoop {R : Type} (rs : Service R) (expr : Expression) :
    Nat → List R → List (Option TransactWriteItem) →
    Except Error (List (Option TransactWriteItem)) × List (Event R)
  | _, [], inItems => (Except.ok inItems, [])
  | i, v :: rest, inItems =>
    match rs.codec.MarshalMap v with
    | (_, some err) => (Except.error err, [Event.MarshalMap v])
    | (item, none) =>
      match rs.putBatchLoop expr (i + 1) rest
          (inItems.set i (some
            { Put := some
                { TableName := rs.tableName
                  Item := item
                  ConditionExpression := expr.Condition
                  ExpressionAttributeNames := expr.Names
                  ExpressionAttributeValues := expr.Values } })) with
      | (r, ev) => (r, Event.MarshalMap v :: ev)

/-- The method `Service.PutBatch`. -/
def Service.PutBatch {R : Type} (rs : Service R) (ins : List R) (opts : List PutOption) :
    Result R Unit :=
  if ins.length = 0 ∨ ins.length > maxWriteNum then ⟨some Error.ErrInput, (), []⟩
  else
    let options := opts.foldl (fun options opt => opt options) defaultPutOptions
    match rs.buildIfSet options.builder with
    | (Except.error err, ev) => ⟨some err, (), ev⟩
    | (Except.ok expr, ev) =>
      match rs.putBatchLoop expr 0 ins (List.replicate ins.length none) with
      | (Except.error err, ev1) => ⟨some err, (), ev ++ ev1⟩
      | (Except.ok inItems, ev1) =>
        let input : TransactWriteItemsInput := { TransactItems := inItems }
        match rs.dynamo.TransactWriteItemsWithContext input with
        | some err =>
          ⟨some (returnedForBackendError err), (),
            ev ++ ev1 ++ [Event.TransactWriteItems input]⟩
        | none => ⟨none, (), ev ++ ev1 ++ [Event.TransactWriteItems input]⟩

/-! ## op_update.go -/

/-- The constant `UpdateReturnValueNone`. -/
def UpdateReturnValueNone : String := ReturnValueNone
/-- The constant `UpdateReturnValueAllNew`. -/
def UpdateReturnValueAllNew : String := ReturnValueAllNew
/-- The constant `UpdateReturnValueAllOld`. -/
def UpdateReturnValueAllOld : String := ReturnValueAllOld
/-- The constant `UpdateReturnValueUpdatedNew`. -/
def UpdateReturnValueUpdatedNew : String := ReturnValueUpdatedNew
/-- The constant `UpdateReturnValueUpdatedOld`. -/
def UpdateReturnValueUpdatedOld : String := ReturnValueUpdatedOld

/-- The type `UpdateOptions`. -/
structure UpdateOptions where
  builder : Option Builder := none
  returnValue : Option String := none

/-- The function `defaultUpdateOptions`. -/
def defaultUpdateOptions : UpdateOptions := {}

/-- The type `UpdateOption`. -/
abbrev UpdateOption := UpdateOptions → UpdateOptions

/-- The function `UpdateCondition`. -/
def UpdateCondition (condition : ConditionBuilder) : UpdateOption := fun options =>
  let builder := match options.builder with
    | none => NewBuilder
    | some b => b
  { options with builder := some (builder.WithCondition condition) }

/-- The function `UpdateReturnValue`. -/
def UpdateReturnValue (v : String) : UpdateOption := fun options =>
  { options with returnValue := some v }

/-- The method `Service.UpdateOut`. -/
def Service.UpdateOut {R : Type} (rs : Service R) (key : PrimaryKeyType)
    (update : UpdateBuilder) (out : R) (opts : List UpdateOption) : Result R R :=
  let options := opts.foldl (fun options opt => opt options)
    { defaultUpdateOptions with returnValue := some UpdateReturnValueUpdatedNew }
  if StringValue options.returnValue = UpdateReturnValueNone then
    ⟨some Error.ErrReturnValue, out, []⟩
  else
    let builder := match options.builder with
      | none => NewBuilder
      | some b => b
    match rs.Build (builder.WithUpdate update) with
    | Except.error err => ⟨some err, out, [Event.Build (builder.WithUpdate update)]⟩
    | Except.ok expr =>
      let input : UpdateItemInput :=
        { TableName := rs.tableName
          Key := key
          UpdateExpression := expr.Update
          ConditionExpression := expr.Condition
          ExpressionAttributeNames := expr.Names
          ExpressionAttributeValues := expr.Values
          ReturnValues := options.returnValue }
      match rs.dynamo.UpdateItemWithContext input with
      | Except.error err =>
        ⟨some (returnedForBackendError err), out,
          [Event.Build (builder.WithUpdate update), Event.UpdateItem input]⟩
      | Except.ok ret =>
        ⟨(rs.codec.UnmarshalMap ret.Attributes out).2,
          (rs.codec.UnmarshalMap ret.Attributes out).1,
          [Event.Build (builder.WithUpdate update), Event.UpdateItem input,
            Event.UnmarshalMap ret.Attributes]⟩

/-- The method `Service.Update`. -/
def Service.Update {R : Type} (rs : Service R) (key : PrimaryKeyType)
    (update : UpdateBuilder) (opts : List UpdateOption) : Result R Unit :=
  let options := opts.foldl (fun options opt => opt options)
    { defaultUpdateOptions with returnValue := some UpdateReturnValueNone }
  if StringValue options.returnValue ≠ UpdateReturnValueNone then
    ⟨some Error.ErrReturnValue, (), []⟩
  else
    let builder := match options.builder with
      | none => NewBuilder
      | some b => b
    match rs.Build (builder.WithUpdate update) with
    | Except.error err => ⟨some err, (), [Event.Build (builder.WithUpdate update)]⟩
    | Except.ok expr =>
      let input : UpdateItemInput :=
        { TableName := rs.tableName
          Key := key
          UpdateExpression := expr.Update
          ConditionExpression := expr.Condition
          ExpressionAttributeNames := expr.Names
          ExpressionAttributeValues := expr.Values
          ReturnValues := options.returnValue }
      match rs.dynamo.UpdateItemWithContext input with
      | Except.error err =>
        ⟨some (returnedForBackendError err), (),
          [Event.Build (builder.WithUpdate update), Event.UpdateItem input]⟩
      | Except.ok _ =>
        ⟨none, (), [Event.Build (builder.WithUpdate update), Event.UpdateItem input]⟩

/-- The loop `for i, key := range keys` of `UpdateBatch`, from index `i` on. -/
def Service.updateBatchLoop {R : Type} (rs : Service R) (expr : Expression) :
    Nat → List PrimaryKeyType → List (Option TransactWriteItem) →
    List (Option TransactWriteItem)
  | _, [], inItems => inItems
  | i, key :: rest, inItems =>
    rs.updateBatchLoop expr (i + 1) rest
      (inItems.set i (some
        { Update := some
            { TableName := rs.tableName
              Key := key
              UpdateExpression := expr.Update
              ConditionExpression := expr.Condition
              ExpressionAttributeNames := expr.Names
              ExpressionAttributeValues := expr.Values } }))

/-- The method `Service.UpdateBatch`. -/
def Service.UpdateBatch {R : Type} (rs : Service R) (keys : List PrimaryKeyType)
    (update : UpdateBuilder) (opts : List UpdateOption) : Result R Unit :=
  if keys.length = 0 ∨ keys.length > maxWriteNum then ⟨some Error.ErrInput, (), []⟩
  else
    let options := opts.foldl (fun options opt => opt options) defaultUpdateOptions
    let builder := match options.builder with
      | none => NewBuilder
      | some b => b
    match rs.Build (builder.WithUpdate update) with
    | Except.error err => ⟨some err, (), [Event.Build (builder.WithUpdate update)]⟩
    | Except.ok expr =>
      let input : TransactWriteItemsInput :=
        { TransactItems :=
            rs.updateBatchLoop expr 0 keys (List.replicate keys.length none) }
      match rs.dynamo.TransactWriteItemsWithContext input with
      | some err =>
        ⟨some (returnedForBackendError err), (),
          [Event.Build (builder.WithUpdate update), Event.TransactWriteItems input]⟩
      | none =>
        ⟨none, (), [Event.Build (builder.WithUpdate update), Event.TransactWriteItems input]⟩

/-! ## op_delete.go -/

/-- The type `DeleteOptions`. -/
structure DeleteOptions where
  builder : Option Builder := none

/-- The function `defaultDeleteOptions`. -/
def defaultDeleteOptions : DeleteOptions := {}

/-- The type `DeleteOption`. -/
abbrev DeleteOption := DeleteOptions → DeleteOptions

/-- The function `DeleteCondition`. -/
def DeleteCondition (condition : ConditionBuilder) : DeleteOption := fun options =>
  let builder := match options.builder with
    | none => NewBuilder
    | some b => b
  { options with builder := some (builder.WithCondition condition) }

/-- The method `Service.DeleteOut`. -/
def Service.DeleteOut {R : Type} (rs : Service R) (key : PrimaryKeyType) (out : R)
    (opts : List DeleteOption) : Result R R :=
  let options := opts.foldl (fun options opt => opt options) defaultDeleteOptions
  match rs.buildIfSet options.builder with
  | (Except.error err, ev) => ⟨some err, out, ev⟩
  | (Except.ok expr, ev) =>
    let input : DeleteItemInput :=
      { TableName := rs.tableName
        Key := key
        ConditionExpression := expr.Condition
        ExpressionAttributeNames := expr.Names
        ExpressionAttributeValues := expr.Values
        ReturnValues := some ReturnValueAllOld }
    match rs.dynamo.DeleteItemWithContext input with
    | Except.error err =>
      ⟨some (returnedForBackendError err), out, ev ++ [Event.DeleteItem input]⟩
    | Except.ok ret =>
      ⟨(rs.codec.UnmarshalMap ret.Attributes out).2,
        (rs.codec.UnmarshalMap ret.Attributes out).1,
        ev ++ [Event.DeleteItem input, Event.UnmarshalMap ret.Attributes]⟩

/-- The method `Service.Delete`. -/
def Service.Delete {R : Type} (rs : Service R) (key : PrimaryKeyType)
    (opts : List DeleteOption) : Result R Unit :=
  let options := opts.foldl (fun options opt => opt options) defaultDeleteOptions
  match rs.buildIfSet options.builder with
  | (Except.error err, ev) => ⟨some err, (), ev⟩
  | (Except.ok expr, ev) =>
    let input : DeleteItemInput :=
      { TableName := rs.tableName
        Key := key
        ConditionExpression := expr.Condition
        ExpressionAttributeNames := expr.Names
        ExpressionAttributeValues := expr.Values
        ReturnValues := some ReturnValueNone }
    match rs.dynamo.DeleteItemWithContext input with
    | Except.error err =>
      ⟨some (returnedForBackendError err), (), ev ++ [Event.DeleteItem input]⟩
    | Except.ok _ => ⟨none, (), ev ++ [Event.DeleteItem input]⟩

/-- The loop `for i, key := range keys` of `DeleteBatch`, from index `i` on. -/
def Service.deleteBatchLoop {R : Type} (rs : Service R) (expr : Expression) :
    Nat → List PrimaryKeyType → List (Option TransactWriteItem) →
    List (Option TransactWriteItem)
  | _, [], inItems => inItems
  | i, key :: rest, inItems =>
    rs.deleteBatchLoop expr (i + 1) rest
      (inItems.set i (some
        { Delete := some
            { TableName := rs.tableName
              Key := key
              ConditionExpression := expr.Condition
              ExpressionAttributeNames := expr.Names
              ExpressionAttributeValues := expr.Values } }))

/-- The method `Service.DeleteBatch`. -/
def Service.DeleteBatch {R : Type} (rs : Service R) (keys : List PrimaryKeyType)
    (opts : List DeleteOption) : Result R Unit :=
  if keys.length = 0 ∨ keys.length > maxWriteNum then ⟨some Error.ErrInput, (), []⟩
  else
    let options := opts.foldl (fun options opt => opt options) defaultDeleteOptions
    match rs.buildIfSet options.builder with
    | (Except.error err, ev) => ⟨some err, (), ev⟩
    | (Except.ok expr, ev) =>
      let input : TransactWriteItemsInput :=
        { TransactItems :=
            rs.deleteBatchLoop expr 0 keys (List.replicate keys.length none) }
      match rs.dynamo.TransactWriteItemsWithContext input with
      | some err =>
        ⟨some (returnedForBackendError err), (), ev ++ [Event.TransactWriteItems input]⟩
      | none => ⟨none, (), ev ++ [Event.TransactWriteItems input]⟩

/-! ## op_transact.go -/

/-- The type `TransactUpdateItem`. -/
structure TransactUpdateItem where
  Key : PrimaryKeyType
  Builder : Option Builder := none
  checkKey : PrimaryKeyType := []
  checkBuilder : Option Rotor.Builder := none

/-- The type `TransactDeleteItem`. -/
structure TransactDeleteItem where
  Key : PrimaryKeyType
  Builder : Option Builder := none

/-- The type `TransactPutItem`. -/
structure TransactPutItem (R : Type) where
  Item : R
  Builder : Option Builder := none

/-- The type `TransactOptions`. -/
structure TransactOptions (R : Type) where
  UpdateItems : List TransactUpdateItem
  PutItems : List (TransactPutItem R)
  DeleteItems : List TransactDeleteItem

/-- The function `defaultTransactOptions`. -/
def defaultTransactOptions {R : Type} : TransactOptions R :=
  { UpdateItems := [], PutItems := [], DeleteItems := [] }

/-- The type `TransactOption`. -/
abbrev TransactOption (R : Type) := TransactOptions R → TransactOptions R

/-- The loop `for i, update := range options.UpdateItems` of `Transact`, from index `i`
on: each update is written to `inItems[i]`. -/
def Service.transactUpdateLoop {R : Type} (rs : Service R) :
    Nat → List TransactUpdateItem → List (Option TransactWriteItem) →
    Except Error (List (Option TransactWriteItem)) × List (Event R)
  | _, [], inItems => (Except.ok inItems, [])
  | i, update :: rest, inItems =>
    match rs.buildIfSet update.Builder with
    | (Except.error err, ev) => (Except.error err, ev)
    | (Except.ok expr, ev) =>
      match rs.transactUpdateLoop (i + 1) rest
          (inItems.set i (some
            { Update := some
                { TableName := rs.tableName
                  Key := update.Key
                  UpdateExpression := expr.Update
                  ConditionExpression := expr.Condition
                  ExpressionAttributeNames := expr.Names
                  ExpressionAttributeValues := expr.Values } })) with
      | (r, ev1) => (r, ev ++ ev1)

/-- The loop `for i, put := range options.PutItems` of `Transact`, from index `i` on:
each put is written to `inItems[i]`. -/
def Service.transactPutLoop {R : Type} (rs : Service R) :
    Nat → List (TransactPutItem R) → List (Option TransactWriteItem) →
    Except Error (List (Option TransactWriteItem)) × List (Event R)
  | _, [], inItems => (Except.ok inItems, [])
  | i, put :: rest, inItems =>
    match rs.buildIfSet put.Builder with
    | (Except.error err, ev) => (Except.error err, ev)
    | (Except.ok expr, ev) =>
      match rs.codec.MarshalMap put.Item with
      | (_, some err) => (Except.error err, ev ++ [Event.MarshalMap put.Item])
      | (item, none) =>
        match rs.transactPutLoop (i + 1) rest
            (inItems.set i (some
              { Put := some
                  { TableName := rs.tableName
                    Item := item
                    ConditionExpression := expr.Condition
                    ExpressionAttributeNames := expr.Names
                    ExpressionAttributeValues := expr.Values } })) with
        | (r, ev1) => (r, ev ++ Event.MarshalMap put.Item :: ev1)

/-- The loop `for i, delete := range options.DeleteItems` of `Transact`, from index `i`
on: each delete is written to `inItems[i]`. -/
def Service.transactDeleteLoop {R : Type} (rs : Service R) :
    Nat → List TransactDeleteItem → List (Option TransactWriteItem) →
    Except Error (List (Option TransactWriteItem)) × List (Event R)
  | _, [], inItems => (Except.ok inItems, [])
  | i, delete :: rest, inItems =>
    match rs.buildIfSet delete.Builder with
    | (Except.error err, ev) => (Except.error err, ev)
    | (Except.ok expr, ev) =>
      match rs.transactDeleteLoop (i + 1) rest
          (inItems.set i (some
            { Delete := some
                { TableName := rs.tableName
                  Key := delete.Key
                  ConditionExpression := expr.Condition
                  ExpressionAttributeNames := expr.Names
                  ExpressionAttributeValues := expr.Values } })) with
      | (r, ev1) => (r, ev ++ ev1)

/-- The method `Service.Transact`. The three loops run one after the other on the same
slice `inItems`, each counting its index from zero, as in the source. -/
def Service.Transact {R : Type} (rs : Service R) (opts : List (TransactOption R)) :
    Result R Unit :=
  let options := opts.foldl (fun options opt => opt options) defaultTransactOptions
  let writeLen :=
    options.UpdateItems.length + options.PutItems.length + options.DeleteItems.length
  if writeLen = 0 then ⟨some Error.ErrInput, (), []⟩
  else if writeLen > maxWriteNum then ⟨some Error.ErrInput, (), []⟩
  else
    match rs.transactUpdateLoop 0 options.UpdateItems (List.replicate writeLen none) with
    | (Except.error err, ev1) => ⟨some err, (), ev1⟩
    | (Except.ok inItems1, ev1) =>
      match rs.transactPutLoop 0 options.PutItems inItems1 with
      | (Except.error err, ev2) => ⟨some err, (), ev1 ++ ev2⟩
      | (Except.ok inItems2, ev2) =>
        match rs.transactDeleteLoop 0 options.DeleteItems inItems2 with
        | (Except.error err, ev3) => ⟨some err, (), ev1 ++ ev2 ++ ev3⟩
        | (Except.ok inItems, ev3) =>
          let input : TransactWriteItemsInput := { TransactItems := inItems }
          match rs.dynamo.TransactWriteItemsWithContext input with
          | some err =>
            ⟨some (returnedForBackendError err), (),
              ev1 ++ ev2 ++ ev3 ++ [Event.TransactWriteItems input]⟩
          | none => ⟨none, (), ev1 ++ ev2 ++ ev3 ++ [Event.TransactWriteItems input]⟩

/-! ## op_get.go -/

/-- The type `GetOptions`. -/
structure GetOptions where
  builder : Option Builder := none
  consistentRead : Option Bool := none

/-- The function `defaultGetOptions`. -/
def defaultGetOptions : GetOptions := {}

/-- The type `GetOption`. -/
abbrev GetOption := GetOptions → GetOptions

/-- The function `GetProjection`. -/
def GetProjection (projection : ProjectionBuilder) : GetOption := fun options =>
  let builder := match options.builder with
    | none => NewBuilder
    | some b => b
  { options with builder := some (builder.WithProjection projection) }

/-- The function `GetConsistent`. -/
def GetConsistent (strong : Bool) : GetOption := fun options =>
  { options with consistentRead := some strong }

/-- The method `Service.Get`. -/
def Service.Get {R : Type} (rs : Service R) (key : PrimaryKeyType) (out : R)
    (opts : List GetOption) : Result R R :=
  let options := opts.foldl (fun options opt => opt options) defaultGetOptions
  match rs.buildIfSet options.builder with
  | (Except.error err, ev) => ⟨some err, out, ev⟩
  | (Except.ok expr, ev) =>
    let input : GetItemInput :=
      { TableName := rs.tableName
        Key := key
        ConsistentRead := options.consistentRead
        ProjectionExpression := expr.Projection
        ExpressionAttributeNames := expr.Names }
    match rs.dynamo.GetItemWithContext input with
    | Except.error err => ⟨some err, out, ev ++ [Event.GetItem input]⟩
    | Except.ok ret =>
      match ret.Item with
      | none => ⟨some Error.ErrItemNotFound, out, ev ++ [Event.GetItem input]⟩
      | some item =>
        ⟨(rs.codec.UnmarshalMap (some item) out).2,
          (rs.codec.UnmarshalMap (some item) out).1,
          ev ++ [Event.GetItem input, Event.UnmarshalMap (some item)]⟩

/-- The callback that `GetBatch` passes to `BatchGetItemPagesWithContext`. Its state is
the pair of captured variables `(pageErr, allItems)`. -/
def Service.getBatchPage {R : Type} (rs : Service R) :
    Option Error × List AttributeMap → BatchGetItemOutput → Bool →
    (Option Error × List AttributeMap) × Bool :=
  fun (pageErr, allItems) output _ =>
    if output.UnprocessedKeys.length > 0 then ((some Error.ErrBatchGetPage, allItems), false)
    else
      match output.Responses.lookup rs.TableName with
      | some items => ((pageErr, allItems ++ items), true)
      | none => ((pageErr, allItems), true)

/-- The method `Service.GetBatch`. -/
def Service.GetBatch {R : Type} (rs : Service R) (keys : List PrimaryKeyType) (out : R)
    (opts : List GetOption) : Result R R :=
  if keys.length = 0 ∨ keys.length > maxReadNum then ⟨some Error.ErrInput, out, []⟩
  else
    let options := opts.foldl (fun options opt => opt options) defaultGetOptions
    match rs.buildIfSet options.builder with
    | (Except.error err, ev) => ⟨some err, out, ev⟩
    | (Except.ok expr, ev) =>
      let input : BatchGetItemInput :=
        { RequestItems :=
            [(rs.TableName,
              { Keys := keys
                ProjectionExpression := expr.Projection
                ExpressionAttributeNames := expr.Names
                ConsistentRead := options.consistentRead })] }
      match eachPage rs.getBatchPage (rs.dynamo.BatchGetItemPages input).1
          (rs.dynamo.BatchGetItemPages input).2 (none, []) with
      | (_, some err) => ⟨some err, out, ev ++ [Event.BatchGetItemPages input]⟩
      | ((some pageErr, _), none) =>
        ⟨some pageErr, out, ev ++ [Event.BatchGetItemPages input]⟩
      | ((none, allItems), none) =>
        ⟨(rs.codec.UnmarshalListOfMaps allItems out).2,
          (rs.codec.UnmarshalListOfMaps allItems out).1,
          ev ++ [Event.BatchGetItemPages input, Event.UnmarshalListOfMaps allItems]⟩

/-! ## op_query.go -/

/-- The constant `QuerySelectCount`. -/
def QuerySelectCount : String := "QuerySelectCount"
/-- The constant `QuerySelectASC`. -/
def QuerySelectASC : String := "QuerySelectASC"
/-- The constant `QuerySelectDESC`. -/
def QuerySelectDESC : String := "QuerySelectDESC"

/-- The type `QueryOptions`. -/
structure QueryOptions where
  builder : Option Builder := none
  consistentRead : Option Bool := none
  selectType : Option String := none
  indexName : Option String := none

/-- The function `defaultQueryOptions`. -/
def defaultQueryOptions (keyCond : KeyConditionBuilder) : QueryOptions :=
  { builder := some (NewBuilder.WithKeyCondition keyCond) }

/-- The type `QueryOption`. -/
abbrev QueryOption := QueryOptions → QueryOptions

/-- The function `QueryProjection`. -/
def QueryProjection (projection : ProjectionBuilder) : QueryOption := fun options =>
  let builder := match options.builder with
    | none => NewBuilder
    | some b => b
  { options with builder := some (builder.WithProjection projection) }

/-- The function `QueryFilter`. -/
def QueryFilter (filter : ConditionBuilder) : QueryOption := fun options =>
  let builder := match options.builder with
    | none => NewBuilder
    | some b => b
  { options with builder := some (builder.WithFilter filter) }

/-- The function `QueryConsistent`. -/
def QueryConsistent (strong : Bool) : QueryOption := fun options =>
  { options with consistentRead := some strong }

/-- The function `QuerySelectType`. -/
def QuerySelectType (v : String) : QueryOption := fun options =>
  { options with selectType := some v }

/-- The function `QueryIndex`. -/
def QueryIndex (indexName : String) : QueryOption := fun options =>
  { options with indexName := some indexName }

/-- The callback that `queryData` passes to `QueryPagesWithContext`. Its state is the
captured variable `allItems`. -/
def queryDataPage : List AttributeMap → QueryOutput → Bool → List AttributeMap × Bool :=
  fun allItems qo _ =>
    if (allItems ++ qo.Items).length > maxReadNum then (allItems ++ qo.Items, false)
    else (allItems ++ qo.Items, true)

/-- The method `Service.queryData`. -/
def Service.queryData {R : Type} (rs : Service R) (input : QueryInput) (out : R) :
    Result R R :=
  match eachPage queryDataPage (rs.dynamo.QueryPages input).1
      (rs.dynamo.QueryPages input).2 [] with
  | (_, some err) => ⟨some err, out, [Event.QueryPages input]⟩
  | (allItems, none) =>
    ⟨(rs.codec.UnmarshalListOfMaps allItems out).2,
      (rs.codec.UnmarshalListOfMaps allItems out).1,
      [Event.QueryPages input, Event.UnmarshalListOfMaps allItems]⟩

/-- The method `Service.queryCount`. -/
def Service.queryCount {R : Type} (rs : Service R) (input : QueryInput) :
    Option Int × Option Error :=
  match rs.dynamo.QueryWithContext input with
  | Except.error err => (none, some err)
  | Except.ok ret => (ret.Count, none)

/-- The method `Service.Query`. In the `QuerySelectCount` case the source assigns the count
to its parameter `out` (`out = c`), a local variable: the caller's destination is the
value it was before the call. -/
def Service.Query {R : Type} (rs : Service R) (keyCond : KeyConditionBuilder) (out : R)
    (opts : List QueryOption) : Result R R :=
  let options := opts.foldl (fun options opt => opt options) (defaultQueryOptions keyCond)
  let builder := match options.builder with
    | none => NewBuilder
    | some b => b
  match rs.Build (builder.WithKeyCondition keyCond) with
  | Except.error err => ⟨some err, out, [Event.Build (builder.WithKeyCondition keyCond)]⟩
  | Except.ok expr =>
    let input : QueryInput :=
      { TableName := rs.tableName
        IndexName := options.indexName
        KeyConditionExpression := expr.KeyCondition
        ExpressionAttributeNames := expr.Names
        ExpressionAttributeValues := expr.Values
        FilterExpression := expr.Filter
        ProjectionExpression := expr.Condition
        ConsistentRead := options.consistentRead }
    let ev : List (Event R) := [Event.Build (builder.WithKeyCondition keyCond)]
    match options.selectType with
    | some selectType =>
      if selectType = QuerySelectASC then
        let r := rs.queryData { input with ScanIndexForward := some true } out
        ⟨r.err, r.out, ev ++ r.trace⟩
      else if selectType = QuerySelectDESC then
        let r := rs.queryData { input with ScanIndexForward := some false } out
        ⟨r.err, r.out, ev ++ r.trace⟩
      else if selectType = QuerySelectCount then
        match rs.queryCount { input with Select := some SelectCount } with
        | (_, some err) =>
          ⟨some err, out, ev ++ [Event.Query { input with Select := some SelectCount }]⟩
        | (_, none) =>
          ⟨none, out, ev ++ [Event.Query { input with Select := some SelectCount }]⟩
      else ⟨some Error.ErrInput, out, ev⟩
    | none =>
      let r := rs.queryData input out
      ⟨r.err, r.out, ev ++ r.trace⟩

/-! ## Reading a result -/

/-- The entry lists of the write groups that a call submitted to the backend, in order. -/
def submittedEntries {R : Type} : List (Event R) → List (List (Option TransactWriteItem))
  | [] => []
  | Event.TransactWriteItems input :: rest => input.TransactItems :: submittedEntries rest
  | _ :: rest => submittedEntries rest

/-! ## A concrete service, for evaluating the entry points

Records are attribute maps. The encoder wraps a record in an `M` value; the decoder reads
one back. The compiler renders each clause to a string and rejects an empty builder. The
backend accepts every write, finds no item, and delivers no page. -/

/-- Rendering of a condition by the sample compiler. -/
def sampleRender : ConditionBuilder → String
  | ConditionBuilder.AttributeExists name => "attribute_exists(" ++ name ++ ")"
  | ConditionBuilder.AttributeNotExists name => "attribute_not_exists(" ++ name ++ ")"
  | ConditionBuilder.Equal name value => name ++ " = " ++ value
  | ConditionBuilder.And left right =>
    "(" ++ sampleRender left ++ ") AND (" ++ sampleRender right ++ ")"

/-- Rendering of a key condition by the sample compiler. -/
def sampleRenderKey : KeyConditionBuilder → String
  | KeyConditionBuilder.KeyEqual name value => name ++ " = " ++ value
  | KeyConditionBuilder.KeyAnd left right =>
    "(" ++ sampleRenderKey left ++ ") AND (" ++ sampleRenderKey right ++ ")"

/-- The sample compiler: fails on a builder without clause. -/
def sampleBuild (b : Builder) : Except Error Expression :=
  if b = NewBuilder then Except.error (Error.other "unset parameter: Builder")
  else Except.ok
    { KeyCondition := b.keyCondition.map sampleRenderKey
      Filter := b.filter.map sampleRender
      Projection := b.projection.map (fun p => ", ".intercalate p.names)
      Update := b.update.map (fun u => ", ".intercalate (u.sets.map (fun s => s.1 ++ " = " ++ s.2)))
      Condition := b.condition.map sampleRender }

/-- The sample codec. -/
def sampleCodec : Codec AttributeMap where
  Encode := fun m => (some (AttributeValue.M m), none)
  Decode := fun av out =>
    match av with
    | AttributeValue.M m => (m, none)
    | _ => (out, some (Error.other "cannot decode"))

/-- The sample backend. -/
def sampleDynamo : DynamoDB where
  GetItemWithContext := fun _ => Except.ok { Item := none }
  PutItemWithContext := fun _ => Except.ok { Attributes := none }
  UpdateItemWithContext := fun _ => Except.ok { Attributes := none }
  DeleteItemWithContext := fun _ => Except.ok { Attributes := none }
  TransactWriteItemsWithContext := fun _ => none
  BatchGetItemPages := fun _ => ([], none)
  QueryPages := fun _ => ([], none)
  QueryWithContext := fun _ => Except.ok { Items := [], Count := some 0 }

/-- The sample service, on table `T`. -/
def sampleService : Service AttributeMap where
  dynamo := sampleDynamo
  codec := sampleCodec
  tableName := some "T"
  Build := sampleBuild

/-- A transact option that adds one update of key `(a, x)` and one put of the record with
key `(b, y)`. -/
def sampleUpdateAndPut : TransactOption AttributeMap := fun options =>
  { options with
    UpdateItems := options.UpdateItems ++ [{ Key := PrimaryKey "a" "x" }]
    PutItems := options.PutItems ++ [{ Item := PrimaryKey "b" "y" }] }

/-! ## Properties asked by the specification -/

/-- The translation of a backend error that the specification asks of every write entry
point: `ret` is `ErrConditionalCheck` when `e` is a backend-coded error with the
conditional-check-failed code, and `e` itself otherwise. -/
def TranslatedFrom (e : Error) (ret : Option Error) : Prop :=
  ((∃ message, e = Error.awserr "ConditionalCheckFailedException" message) →
    ret = some Error.ErrConditionalCheck) ∧
  ((∀ message, e ≠ Error.awserr "ConditionalCheckFailedException" message) →
    ret = some e)

/-- A backend on which every write request fails with `e`. -/
def failingDynamo (e : Error) : DynamoDB :=
  { sampleDynamo with
    PutItemWithContext := fun _ => Except.error e
    UpdateItemWithContext := fun _ => Except.error e
    DeleteItemWithContext := fun _ => Except.error e
    TransactWriteItemsWithContext := fun _ => some e }

/-- The sample service on the failing backend. -/
def failingService (e : Error) : Service AttributeMap :=
  { sampleService with dynamo := failingDynamo e }

/-- A backend that finds, for every key, the item made of that key alone. -/
def findingDynamo : DynamoDB :=
  { sampleDynamo with GetItemWithContext := fun input => Except.ok { Item := some input.Key } }

/-- The sample service on the finding backend. -/
def findingService : Service AttributeMap :=
  { sampleService with dynamo := findingDynamo }

/-- The options an `Update`, `UpdateOut` or `UpdateBatch` call works with: the loop
`for _, opt := range opts { opt(options) }` run from `init`. -/
def applyUpdateOptions (init : UpdateOptions) (opts : List UpdateOption) : UpdateOptions :=
  opts.foldl (fun options opt => opt options) init

/-- The call `r` went past its return-value check and dispatched its update with the
return-value policy `rv`: it invoked a collaborator, every update request in its trace
carries `ReturnValues = rv`, and there is such a request unless the expression failed to
compile, in which case the call returned the compiler's error. -/
def DispatchedUpdateWith {R O : Type} (rs : Service R) (r : Result R O)
    (rv : Option String) : Prop :=
  r.trace ≠ [] ∧
  (∀ input, Event.UpdateItem input ∈ r.trace → input.ReturnValues = rv) ∧
  ((∃ input, Event.UpdateItem input ∈ r.trace) ∨
    (∃ b e, rs.Build b = Except.error e ∧ r.err = some e ∧ r.trace = [Event.Build b]))

/-- The items of a list of query pages, in page order. -/
def concatItems : List QueryOutput → List AttributeMap
  | [] => []
  | p :: ps => p.Items ++ concatItems ps

/-- Following the specification's words: the pages the reader takes are the shortest prefix
of the delivered pages whose total item count exceeds `maxReadNum`, or all the pages when
no prefix does. (`List.inits` lists the prefixes from the shortest to the longest.) -/
def consumedPages (pages : List QueryOutput) : List QueryOutput :=
  match pages.inits.find? (fun p => decide (maxReadNum < (concatItems p).length)) with
  | some p => p
  | none => pages

/-- The pages the loop of `queryData` goes through when it already holds `n` items: it
stops after the first page that brings the total above `maxReadNum`. -/
def consumedFrom (n : Nat) : List QueryOutput → List QueryOutput
  | [] => []
  | p :: ps =>
    if maxReadNum < n + p.Items.length then [p]
    else p :: consumedFrom (n + p.Items.length) ps

/-- The lists that a call handed to the codec's `UnmarshalListOfMaps`, in order. -/
def decodedLists {R : Type} : List (Event R) → List (List AttributeMap)
  | [] => []
  | Event.UnmarshalListOfMaps l :: rest => l :: decodedLists rest
  | _ :: rest => decodedLists rest

/-- A backend that delivers the given query pages, without error. -/
def pagedDynamo (pages : List QueryOutput) : DynamoDB :=
  { sampleDynamo with QueryPages := fun _ => (pages, none) }

/-- The sample service on the paged backend. -/
def pagedService (pages : List QueryOutput) : Service AttributeMap :=
  { sampleService with dynamo := pagedDynamo pages }

/-- A query request, for evaluating `queryData`. -/
def sampleQueryInput : QueryInput :=
  { TableName := some "T"
    IndexName := none
    KeyConditionExpression := some "PK = a"
    ExpressionAttributeNames := none
    ExpressionAttributeValues := none
    FilterExpression := none
    ProjectionExpression := none
    ConsistentRead := none }

/-- A list of 500 empty items. -/
def fiveHundredItems : List AttributeMap := List.replicate 500 []

/-- Three query pages: one of 500 items, then two of one item each. -/
def boundaryPages : List QueryOutput :=
  [{ Items := fiveHundredItems, Count := none },
   { Items := [PrimaryKey "a" "x"], Count := none },
   { Items := [PrimaryKey "b" "y"], Count := none }]

/-- A transact option that adds `n` deletes of the key `(a, x)`. -/
def sampleDeletes (n : Nat) : TransactOption AttributeMap := fun options =>
  { options with
    DeleteItems := options.DeleteItems ++ List.replicate n { Key := PrimaryKey "a" "x" } }

/-- A list of `n` keys. -/
def sampleKeys (n : Nat) : List PrimaryKeyType := List.replicate n (PrimaryKey "a" "x")

/-- The options a `Query` call works with: the loop
`for _, opt := range opts { opt(options) }` run from `defaultQueryOptions(keyCond)`. -/
def applyQueryOptions (keyCond : KeyConditionBuilder) (opts : List QueryOption) :
    QueryOptions :=
  opts.foldl (fun options opt => opt options) (defaultQueryOptions keyCond)

/-- The builder that a `Query` call compiles:
`options.builder.WithKeyCondition(keyCond)`, on a new builder when `options.builder` is
nil. -/
def queryBuilder (keyCond : KeyConditionBuilder) (opts : List QueryOption) : Builder :=
  (match (applyQueryOptions keyCond opts).builder with
    | none => NewBuilder
    | some b => b).WithKeyCondition keyCond

/-- The request that a `Query` call assembles from the compiled expression `expr`, before
it looks at the select mode. -/
def Service.queryInput {R : Type} (rs : Service R) (keyCond : KeyConditionBuilder)
    (opts : List QueryOption) (expr : Expression) : QueryInput :=
  { TableName := rs.tableName
    IndexName := (applyQueryOptions keyCond opts).indexName
    KeyConditionExpression := expr.KeyCondition
    ExpressionAttributeNames := expr.Names
    ExpressionAttributeValues := expr.Values
    FilterExpression := expr.Filter
    ProjectionExpression := expr.Condition
    ConsistentRead := (applyQueryOptions keyCond opts).consistentRead }

/-- A backend whose `Query` answers with the count `n`. -/
def countingDynamo (n : Int) : DynamoDB :=
  { sampleDynamo with QueryWithContext := fun _ => Except.ok { Items := [], Count := some n } }

/-- The sample service on the counting backend. -/
def countingService (n : Int) : Service AttributeMap :=
  { sampleService with dynamo := countingDynamo n }

/-- The items that one page of a batch read holds for the table `tableName`
(`output.Responses[tableName]`, nothing when the table has no entry). -/
def tableItems (tableName : String) (output : BatchGetItemOutput) : List AttributeMap :=
  match output.Responses.lookup tableName with
  | some items => items
  | none => []

/-- The items that a list of batch-read pages holds for the table `tableName`, in page
order. -/
def concatTableItems (tableName : String) : List BatchGetItemOutput → List AttributeMap
  | [] => []
  | p :: ps => tableItems tableName p ++ concatTableItems tableName ps

/-- A backend that delivers the given batch-read pages, without error. -/
def batchPagedDynamo (pages : List BatchGetItemOutput) : DynamoDB :=
  { sampleDynamo with BatchGetItemPages := fun _ => (pages, none) }

/-- The sample service on the batch-paged backend. -/
def batchPagedService (pages : List BatchGetItemOutput) : Service AttributeMap :=
  { sampleService with dynamo := batchPagedDynamo pages }

/-- A page of a batch read with one item for table `T`, all keys processed. -/
def processedPage (pk : String) : BatchGetItemOutput :=
  { Responses := [("T", [PrimaryKey pk "x"])], UnprocessedKeys := [] }

/-- A page of a batch read with one item for table `T` that reports an unprocessed key. -/
def unprocessedPage (pk : String) : BatchGetItemOutput :=
  { Responses := [("T", [PrimaryKey pk "x"])]
    UnprocessedKeys :=
      [("T", { Keys := [PrimaryKey "z" "x"], ProjectionExpression := none,
               ExpressionAttributeNames := none, ConsistentRead := none })] }

/-- The options a `Transact` call works with: the loop
`for _, opt := range opts { opt(options) }` run from `defaultTransactOptions()`. -/
def applyTransactOptions {R : Type} (opts : List (TransactOption R)) : TransactOptions R :=
  opts.foldl (fun options opt => opt options) defaultTransactOptions

/-- The compilation of the expression of a sub-operation fails with `e`: the sub-operation
has a builder and `Build` rejects it with `e`. -/
def CompileFails {R : Type} (rs : Service R) (builder : Option Builder) (e : Error) : Prop :=
  ∃ b, builder = some b ∧ rs.Build b = Except.error e

/-- A step of the assembly of a transact write group fails with `e`: the compilation of
the expression of an update, of a put or of a delete, or the encoding of the record of a
put. -/
def StepFails {R : Type} (rs : Service R) (options : TransactOptions R) (e : Error) : Prop :=
  (∃ u ∈ options.UpdateItems, CompileFails rs u.Builder e) ∨
  (∃ p ∈ options.PutItems,
    CompileFails rs p.Builder e ∨ (rs.codec.MarshalMap p.Item).2 = some e) ∨
  (∃ d ∈ options.DeleteItems, CompileFails rs d.Builder e)

/-- A codec that cannot encode: `Encode` fails with `e` on every record. -/
def failingCodec (e : Error) : Codec AttributeMap :=
  { sampleCodec with Encode := fun _ => (none, some e) }

/-- The sample service with the codec that cannot encode. -/
def unencodableService (e : Error) : Service AttributeMap :=
  { sampleService with codec := failingCodec e }

/-- A transact option that adds one delete of key `(c, z)` whose builder is empty, which
the sample compiler rejects. -/
def sampleDeleteEmptyBuilder : TransactOption AttributeMap := fun options =>
  { options with
    DeleteItems := options.DeleteItems ++ [{ Key := PrimaryKey "c" "z", Builder := some {} }] }

/-- The slots `xs` after the entries `ys` were written to them from slot 0 on, one entry a
slot, as a loop `for i, y := range ys { xs[i] = &y }` does. -/
def overlay {α : Type} : List (Option α) → List α → List (Option α)
  | xs, [] => xs
  | [], _ :: _ => []
  | _ :: xs, y :: ys => some y :: overlay xs ys

/-- The entry that `DeleteBatch` writes for `key`, with the compiled expression `expr`. -/
def Service.deleteBatchEntry {R : Type} (rs : Service R) (expr : Expression)
    (key : PrimaryKeyType) : TransactWriteItem :=
  { Delete := some
      { TableName := rs.tableName
        Key := key
        ConditionExpression := expr.Condition
        ExpressionAttributeNames := expr.Names
        ExpressionAttributeValues := expr.Values } }

/-- The entry that `UpdateBatch` writes for `key`, with the compiled expression `expr`. -/
def Service.updateBatchEntry {R : Type} (rs : Service R) (expr : Expression)
    (key : PrimaryKeyType) : TransactWriteItem :=
  { Update := some
      { TableName := rs.tableName
        Key := key
        UpdateExpression := expr.Update
        ConditionExpression := expr.Condition
        ExpressionAttributeNames := expr.Names
        ExpressionAttributeValues := expr.Values } }

/-- The entry that `PutBatch` writes for the record `v`, encoded by the codec, with the
compiled expression `expr`. -/
def Service.putBatchEntry {R : Type} (rs : Service R) (expr : Expression) (v : R) :
    TransactWriteItem :=
  { Put := some
      { TableName := rs.tableName
        Item := (rs.codec.MarshalMap v).1
        ConditionExpression := expr.Condition
        ExpressionAttributeNames := expr.Names
        ExpressionAttributeValues := expr.Values } }

/-- The options a `Put`, `PutOut` or `PutBatch` call works with. -/
def applyPutOptions (opts : List PutOption) : PutOptions :=
  opts.foldl (fun options opt => opt options) defaultPutOptions

/-- The options a `Delete`, `DeleteOut` or `DeleteBatch` call works with. -/
def applyDeleteOptions (opts : List DeleteOption) : DeleteOptions :=
  opts.foldl (fun options opt => opt options) defaultDeleteOptions

/-- The builder that an `UpdateBatch` call compiles: `options.builder.WithUpdate(update)`,
on a new builder when `options.builder` is nil. -/
def updateBatchBuilder (update : UpdateBuilder) (opts : List UpdateOption) : Builder :=
  (match (applyUpdateOptions defaultUpdateOptions opts).builder with
    | none => NewBuilder
    | some b => b).WithUpdate update

/-- A compiler that, as the SDK does, replaces the attribute names and the values of an
update clause by placeholders and returns the maps from placeholders to names and to
values. -/
def aliasingBuild (b : Builder) : Except Error Expression :=
  if b = NewBuilder then Except.error (Error.other "unset parameter: Builder")
  else Except.ok
    { KeyCondition := b.keyCondition.map sampleRenderKey
      Filter := b.filter.map sampleRender
      Projection := b.projection.map (fun p => ", ".intercalate p.names)
      Update := b.update.map (fun u =>
        "SET " ++ ", ".intercalate (u.sets.map (fun s => "#" ++ s.1 ++ " = :" ++ s.1)))
      Condition := b.condition.map sampleRender
      Names := b.update.map (fun u => u.sets.map (fun s => ("#" ++ s.1, s.1)))
      Values := b.update.map (fun u =>
        u.sets.map (fun s => (":" ++ s.1, AttributeValue.S s.2))) }

/-- The sample service with the aliasing compiler. -/
def aliasingService : Service AttributeMap :=
  { sampleService with Build := aliasingBuild }

/-- The expression a sub-operation of `Transact` is assembled with: the compilation of its
builder, the zero expression when it has none (or when the compilation fails, in which
case nothing is assembled). -/
def Service.exprOf {R : Type} (rs : Service R) (builder : Option Builder) : Expression :=
  match rs.buildIfSet builder with
  | (Except.ok expr, _) => expr
  | (Except.error _, _) => {}

/-- The entry that `Transact` writes for the update `update`. -/
def Service.transactUpdateEntry {R : Type} (rs : Service R) (update : TransactUpdateItem) :
    TransactWriteItem :=
  { Update := some
      { TableName := rs.tableName
        Key := update.Key
        UpdateExpression := (rs.exprOf update.Builder).Update
        ConditionExpression := (rs.exprOf update.Builder).Condition
        ExpressionAttributeNames := (rs.exprOf update.Builder).Names
        ExpressionAttributeValues := (rs.exprOf update.Builder).Values } }

/-- The entry that `Transact` writes for the put `put`. -/
def Service.transactPutEntry {R : Type} (rs : Service R) (put : TransactPutItem R) :
    TransactWriteItem :=
  { Put := some
      { TableName := rs.tableName
        Item := (rs.codec.MarshalMap put.Item).1
        ConditionExpression := (rs.exprOf put.Builder).Condition
        ExpressionAttributeNames := (rs.exprOf put.Builder).Names
        ExpressionAttributeValues := (rs.exprOf put.Builder).Values } }

/-- The entry that `Transact` writes for the delete `delete`. -/
def Service.transactDeleteEntry {R : Type} (rs : Service R) (delete : TransactDeleteItem) :
    TransactWriteItem :=
  { Delete := some
      { TableName := rs.tableName
        Key := delete.Key
        ConditionExpression := (rs.exprOf delete.Builder).Condition
        ExpressionAttributeNames := (rs.exprOf delete.Builder).Names
        ExpressionAttributeValues := (rs.exprOf delete.Builder).Values } }

/-- The slot layout of a transact write group, slot by slot: slot `i` of the
`u + p + d` slots holds the i-th delete if `i < d`, otherwise the i-th put if `i < p`,
otherwise the i-th update if `i < u`, otherwise nil. -/
def Service.transactLayout {R : Type} (rs : Service R) (options : TransactOptions R) :
    List (Option TransactWriteItem) :=
  (List.range (options.UpdateItems.length + options.PutItems.length
      + options.DeleteItems.length)).map (fun i =>
    if i < options.DeleteItems.length then
      (options.DeleteItems[i]?).map rs.transactDeleteEntry
    else if i < options.PutItems.length then
      (options.PutItems[i]?).map rs.transactPutEntry
    else if i < options.UpdateItems.length then
      (options.UpdateItems[i]?).map rs.transactUpdateEntry
    else none)

/-- A transact option that adds two updates, of the keys `(u1, x)` and `(u2, x)`. -/
def sampleTwoUpdates : TransactOption AttributeMap := fun options =>
  { options with
    UpdateItems := options.UpdateItems ++
      [{ Key := PrimaryKey "u1" "x" }, { Key := PrimaryKey "u2" "x" }] }

/-- The builder that an `Update` or `UpdateOut` call compiles, its options starting from
`init`: `options.builder.WithUpdate(update)`, on a new builder when `options.builder` is
nil. -/
def updateBuilder (init : UpdateOptions) (update : UpdateBuilder) (opts : List UpdateOption) :
    Builder :=
  (match (applyUpdateOptions init opts).builder with
    | none => NewBuilder
    | some b => b).WithUpdate update

/-- The request that `Put` and `PutOut` assemble for the record `v` from the compiled
expression `expr`, with the given `ReturnValues`. -/
def Service.putInput {R : Type} (rs : Service R) (expr : Expression) (v : R)
    (returnValues : String) : PutItemInput :=
  { TableName := rs.tableName
    Item := (rs.codec.MarshalMap v).1
    ConditionExpression := expr.Condition
    ExpressionAttributeNames := expr.Names
    ExpressionAttributeValues := expr.Values
    ReturnValues := some returnValues }

/-- The request that `Delete` and `DeleteOut` assemble for `key` from the compiled
expression `expr`, with the given `ReturnValues`. -/
def Service.deleteInput {R : Type} (rs : Service R) (expr : Expression)
    (key : PrimaryKeyType) (returnValues : String) : DeleteItemInput :=
  { TableName := rs.tableName
    Key := key
    ConditionExpression := expr.Condition
    ExpressionAttributeNames := expr.Names
    ExpressionAttributeValues := expr.Values
    ReturnValues := some returnValues }

/-- The request that `Update` and `UpdateOut` assemble for `key` from the compiled
expression `expr`, with the given `ReturnValues`. -/
def Service.updateInput {R : Type} (rs : Service R) (expr : Expression)
    (key : PrimaryKeyType) (returnValues : Option String) : UpdateItemInput :=
  { TableName := rs.tableName
    Key := key
    UpdateExpression := expr.Update
    ConditionExpression := expr.Condition
    ExpressionAttributeNames := expr.Names
    ExpressionAttributeValues := expr.Values
    ReturnValues := returnValues }

/-! ## Theorems -/

/-! ### Transact: assembly of the write group -/

/-- C1 (evaluation at the failing input). A `Transact` call whose options yield one update
and one put, both compiling and encoding without error, submits one write group of two
slots of which only the first is filled, with the put: the update, written to slot 0 by
the first loop, was overwritten by the put, which the second loop also wrote to slot 0,
and slot 1 stays nil. The group holds one entry, not two. -/
theorem Transact_update_and_put_submits_one_entry :
    (sampleService.Transact [sampleUpdateAndPut]).err = none ∧
    submittedEntries (sampleService.Transact [sampleUpdateAndPut]).trace =
      [[some { Put := some
                { TableName := some "T"
                  Item := PrimaryKey "b" "y"
                  ConditionExpression := none
                  ExpressionAttributeNames := none
                  ExpressionAttributeValues := none } },
        none]] := by
  constructor <;> rfl


theorem buildIfSet_error_trace {R : Type} (rs : Service R) (b : Option Builder)
    (err : Error) (ev : List (Event R))
    (h : rs.buildIfSet b = (Except.error err, ev)) : ev ≠ [] := by
  cases b with
  | none => simp [Service.buildIfSet] at h
  | some b =>
    simp only [Service.buildIfSet, Prod.mk.injEq] at h
    rw [← h.2]; simp

theorem transactUpdateLoop_error_trace {R : Type} (rs : Service R)
    (l : List TransactUpdateItem) :
    ∀ (i : Nat) (inItems : List (Option TransactWriteItem)) (err : Error)
      (ev : List (Event R)),
      rs.transactUpdateLoop i l inItems = (Except.error err, ev) → ev ≠ [] := by
  induction l with
  | nil => intro i inItems err ev h; simp [Service.transactUpdateLoop] at h
  | cons update rest ih =>
    intro i inItems err ev h
    unfold Service.transactUpdateLoop at h
    split at h
    · rename_i e1 ev1 hb
      simp only [Prod.mk.injEq, Except.error.injEq] at h
      rw [← h.2]
      exact buildIfSet_error_trace rs _ _ _ hb
    · rename_i expr ev1 hb
      split at h
      rename_i r ev2 hr
      simp only [Prod.mk.injEq] at h
      rw [← h.2]
      rw [h.1] at hr
      have := ih _ _ _ _ hr
      simp [this]

theorem transactPutLoop_error_trace {R : Type} (rs : Service R)
    (l : List (TransactPutItem R)) :
    ∀ (i : Nat) (inItems : List (Option TransactWriteItem)) (err : Error)
      (ev : List (Event R)),
      rs.transactPutLoop i l inItems = (Except.error err, ev) → ev ≠ [] := by
  induction l with
  | nil => intro i inItems err ev h; simp [Service.transactPutLoop] at h
  | cons put rest ih =>
    intro i inItems err ev h
    unfold Service.transactPutLoop at h
    split at h
    · rename_i e1 ev1 hb
      simp only [Prod.mk.injEq, Except.error.injEq] at h
      rw [← h.2]
      exact buildIfSet_error_trace rs _ _ _ hb
    · split at h
      · simp only [Prod.mk.injEq] at h
        rw [← h.2]; simp
      · split at h
        simp only [Prod.mk.injEq] at h
        rw [← h.2]; simp

theorem transactDeleteLoop_error_trace {R : Type} (rs : Service R)
    (l : List TransactDeleteItem) :
    ∀ (i : Nat) (inItems : List (Option TransactWriteItem)) (err : Error)
      (ev : List (Event R)),
      rs.transactDeleteLoop i l inItems = (Except.error err, ev) → ev ≠ [] := by
  induction l with
  | nil => intro i inItems err ev h; simp [Service.transactDeleteLoop] at h
  | cons delete rest ih =>
    intro i inItems err ev h
    unfold Service.transactDeleteLoop at h
    split at h
    · rename_i e1 ev1 hb
      simp only [Prod.mk.injEq, Except.error.injEq] at h
      rw [← h.2]
      exact buildIfSet_error_trace rs _ _ _ hb
    · rename_i expr ev1 hb
      split at h
      rename_i r ev2 hr
      simp only [Prod.mk.injEq] at h
      rw [← h.2]
      rw [h.1] at hr
      have := ih _ _ _ _ hr
      simp [this]

/-- C2. `Transact` returns `ErrInput` having invoked no collaborator (no expression
compile, no encode, no backend call) exactly when the total number of sub-operations
after applying all options is 0 or greater than 25; hence with a total between 1 and 25
the size check does not reject the call, which goes on to compile, encode or dispatch. -/
theorem Transact_size_check {R : Type} (rs : Service R) (opts : List (TransactOption R)) :
    maxWriteNum = 25 ∧
    (((rs.Transact opts).err = some Error.ErrInput ∧ (rs.Transact opts).trace = []) ↔
      (((opts.foldl (fun options opt => opt options) defaultTransactOptions).UpdateItems.length
        + (opts.foldl (fun options opt => opt options) defaultTransactOptions).PutItems.length
        + (opts.foldl (fun options opt => opt options) defaultTransactOptions).DeleteItems.length
          = 0) ∨
       (25 < (opts.foldl (fun options opt => opt options) defaultTransactOptions).UpdateItems.length
        + (opts.foldl (fun options opt => opt options) defaultTransactOptions).PutItems.length
        + (opts.foldl (fun options opt => opt options) defaultTransactOptions).DeleteItems.length))) := by
  refine ⟨rfl, ?_⟩
  unfold Service.Transact
  simp only []
  generalize (opts.foldl (fun options opt => opt options) defaultTransactOptions) = options
  by_cases h0 : options.UpdateItems.length + options.PutItems.length
      + options.DeleteItems.length = 0
  · simp [h0]
  · by_cases h1 : options.UpdateItems.length + options.PutItems.length
        + options.DeleteItems.length > maxWriteNum
    · simp only [h0, h1, if_true, if_false]
      simp only [maxWriteNum] at h1
      simp [h1]
    · simp only [h0, h1, if_false]
      have h1' : ¬ 25 < options.UpdateItems.length + options.PutItems.length
          + options.DeleteItems.length := by simpa [maxWriteNum] using h1
      simp only [h1', or_self, iff_false, not_and]
      intro _
      split
      · rename_i e ev he
        exact transactUpdateLoop_error_trace rs _ _ _ _ _ he
      · split
        · rename_i e ev he
          have := transactPutLoop_error_trace rs _ _ _ _ _ he
          simp [this]
        · split
          · rename_i e ev he
            have := transactDeleteLoop_error_trace rs _ _ _ _ _ he
            simp [this]
          · split <;> simp

/-- C2 at concrete inputs, on the sample service: `Transact` without sub-operation and
with 26 deletes is rejected with `ErrInput`, nothing being invoked; with 25 deletes and
with one update and one put it is not. -/
theorem Transact_size_check_witness :
    ((sampleService.Transact []).err = some Error.ErrInput ∧
      (sampleService.Transact []).trace = []) ∧
    ((sampleService.Transact [sampleDeletes 26]).err = some Error.ErrInput ∧
      (sampleService.Transact [sampleDeletes 26]).trace = []) ∧
    ¬ ((sampleService.Transact [sampleDeletes 25]).err = some Error.ErrInput ∧
      (sampleService.Transact [sampleDeletes 25]).trace = []) ∧
    ¬ ((sampleService.Transact [sampleUpdateAndPut]).err = some Error.ErrInput ∧
      (sampleService.Transact [sampleUpdateAndPut]).trace = []) :=
  ⟨(Transact_size_check sampleService []).2.2 (Or.inl rfl),
   (Transact_size_check sampleService [sampleDeletes 26]).2.2 (Or.inr (by decide)),
   fun h => absurd ((Transact_size_check sampleService [sampleDeletes 25]).2.1 h)
    (by decide),
   fun h => absurd ((Transact_size_check sampleService [sampleUpdateAndPut]).2.1 h)
    (by decide)⟩

/-- C3. `GetBatch` returns `ErrInput` having invoked no collaborator (in particular without
issuing a backend read), leaving the destination as it was, exactly when the key list is
empty or has more than 500 keys. With 1 to 500 keys the call passes the size check: it
issues the backend read, unless the compilation of the projection fails, in which case it
returns the compiler's error. -/
theorem GetBatch_size_check {R : Type} (rs : Service R) (keys : List PrimaryKeyType)
    (out : R) (opts : List GetOption) :
    maxReadNum = 500 ∧
    (((rs.GetBatch keys out opts).err = some Error.ErrInput ∧
        (rs.GetBatch keys out opts).trace = []) ↔
      (keys.length = 0 ∨ 500 < keys.length)) ∧
    ((keys.length = 0 ∨ 500 < keys.length) → (rs.GetBatch keys out opts).out = out) ∧
    ((1 ≤ keys.length ∧ keys.length ≤ 500) →
      ((∃ input, Event.BatchGetItemPages input ∈ (rs.GetBatch keys out opts).trace) ∨
       (∃ b e, rs.Build b = Except.error e ∧ (rs.GetBatch keys out opts).err = some e ∧
          (rs.GetBatch keys out opts).trace = [Event.Build b]))) := by
  refine ⟨rfl, ?_⟩
  unfold Service.GetBatch
  by_cases h : keys.length = 0 ∨ keys.length > maxReadNum
  · have h' : keys.length = 0 ∨ 500 < keys.length := by simpa [maxReadNum] using h
    rw [if_pos h]
    refine ⟨⟨fun _ => h', fun _ => ⟨rfl, rfl⟩⟩, fun _ => rfl, ?_⟩
    intro hv
    rcases h' with h' | h' <;> omega
  · have h' : ¬ (keys.length = 0 ∨ 500 < keys.length) := by simpa [maxReadNum] using h
    rw [if_neg h]
    simp only []
    generalize (opts.foldl (fun options opt => opt options) defaultGetOptions) = options
    refine ⟨?_, fun hc => absurd hc h', fun _ => ?_⟩
    · simp only [h', iff_false, not_and]
      intro _
      split
      · rename_i e ev he
        exact buildIfSet_error_trace rs _ _ _ he
      · split <;> simp
    · cases hb : options.builder with
      | none =>
        left
        simp only [Service.buildIfSet]
        split <;> simp
      | some b =>
        simp only [Service.buildIfSet]
        cases hB : rs.Build b with
        | error e => right; exact ⟨b, e, hB, rfl, rfl⟩
        | ok expr =>
          left
          simp only []
          split <;> simp

/-- C3 at concrete inputs, on the sample service: `GetBatch` with 0 keys and with 501 keys
is rejected with `ErrInput`, nothing being invoked; with 1 key and with 500 keys it is
not. -/
theorem GetBatch_size_check_witness :
    ((sampleService.GetBatch (sampleKeys 0) [] []).err = some Error.ErrInput ∧
      (sampleService.GetBatch (sampleKeys 0) [] []).trace = []) ∧
    ((sampleService.GetBatch (sampleKeys 501) [] []).err = some Error.ErrInput ∧
      (sampleService.GetBatch (sampleKeys 501) [] []).trace = []) ∧
    ¬ ((sampleService.GetBatch (sampleKeys 1) [] []).err = some Error.ErrInput ∧
      (sampleService.GetBatch (sampleKeys 1) [] []).trace = []) ∧
    ¬ ((sampleService.GetBatch (sampleKeys 500) [] []).err = some Error.ErrInput ∧
      (sampleService.GetBatch (sampleKeys 500) [] []).trace = []) :=
  ⟨(GetBatch_size_check sampleService (sampleKeys 0) [] []).2.1.2 (Or.inl rfl),
   (GetBatch_size_check sampleService (sampleKeys 501) [] []).2.1.2
    (Or.inr (by rw [sampleKeys, List.length_replicate]; decide)),
   fun h => absurd ((GetBatch_size_check sampleService (sampleKeys 1) [] []).2.1.1 h)
    (by rw [sampleKeys, List.length_replicate]; decide),
   fun h => absurd ((GetBatch_size_check sampleService (sampleKeys 500) [] []).2.1.1 h)
    (by rw [sampleKeys, List.length_replicate]; decide)⟩

theorem putBatchLoop_error_trace {R : Type} (rs : Service R) (expr : Expression)
    (l : List R) :
    ∀ (i : Nat) (inItems : List (Option TransactWriteItem)) (err : Error)
      (ev : List (Event R)),
      rs.putBatchLoop expr i l inItems = (Except.error err, ev) → ev ≠ [] := by
  induction l with
  | nil => intro i inItems err ev h; simp [Service.putBatchLoop] at h
  | cons v rest ih =>
    intro i inItems err ev h
    unfold Service.putBatchLoop at h
    split at h
    · simp only [Prod.mk.injEq] at h
      rw [← h.2]; simp
    · split at h
      simp only [Prod.mk.injEq] at h
      rw [← h.2]; simp

/-- C4. `PutBatch`, `DeleteBatch` and `UpdateBatch` each return `ErrInput` having invoked no
collaborator (no expression compile, no encode, no backend call), whatever the options,
exactly when the input list is empty or longer than 25 entries. -/
theorem batch_write_size_check {R : Type} (rs : Service R) (ins : List R)
    (keys : List PrimaryKeyType) (update : UpdateBuilder) (putOpts : List PutOption)
    (deleteOpts : List DeleteOption) (updateOpts : List UpdateOption) :
    maxWriteNum = 25 ∧
    (((rs.PutBatch ins putOpts).err = some Error.ErrInput ∧
        (rs.PutBatch ins putOpts).trace = []) ↔
      (ins.length = 0 ∨ 25 < ins.length)) ∧
    (((rs.DeleteBatch keys deleteOpts).err = some Error.ErrInput ∧
        (rs.DeleteBatch keys deleteOpts).trace = []) ↔
      (keys.length = 0 ∨ 25 < keys.length)) ∧
    (((rs.UpdateBatch keys update updateOpts).err = some Error.ErrInput ∧
        (rs.UpdateBatch keys update updateOpts).trace = []) ↔
      (keys.length = 0 ∨ 25 < keys.length)) := by
  refine ⟨rfl, ?_, ?_, ?_⟩
  · unfold Service.PutBatch
    by_cases h : ins.length = 0 ∨ ins.length > maxWriteNum
    · have h' : ins.length = 0 ∨ 25 < ins.length := by simpa [maxWriteNum] using h
      rw [if_pos h]
      exact ⟨fun _ => h', fun _ => ⟨rfl, rfl⟩⟩
    · have h' : ¬ (ins.length = 0 ∨ 25 < ins.length) := by simpa [maxWriteNum] using h
      rw [if_neg h]
      simp only [h', iff_false, not_and]
      intro _
      split
      · rename_i e ev he
        exact buildIfSet_error_trace rs _ _ _ he
      · split
        · rename_i e ev he
          have := putBatchLoop_error_trace rs _ _ _ _ _ _ he
          simp [this]
        · split <;> simp
  · unfold Service.DeleteBatch
    by_cases h : keys.length = 0 ∨ keys.length > maxWriteNum
    · have h' : keys.length = 0 ∨ 25 < keys.length := by simpa [maxWriteNum] using h
      rw [if_pos h]
      exact ⟨fun _ => h', fun _ => ⟨rfl, rfl⟩⟩
    · have h' : ¬ (keys.length = 0 ∨ 25 < keys.length) := by simpa [maxWriteNum] using h
      rw [if_neg h]
      simp only [h', iff_false, not_and]
      intro _
      split
      · rename_i e ev he
        exact buildIfSet_error_trace rs _ _ _ he
      · split <;> simp
  · unfold Service.UpdateBatch
    by_cases h : keys.length = 0 ∨ keys.length > maxWriteNum
    · have h' : keys.length = 0 ∨ 25 < keys.length := by simpa [maxWriteNum] using h
      rw [if_pos h]
      exact ⟨fun _ => h', fun _ => ⟨rfl, rfl⟩⟩
    · have h' : ¬ (keys.length = 0 ∨ 25 < keys.length) := by simpa [maxWriteNum] using h
      rw [if_neg h]
      simp only [h', iff_false, not_and]
      intro _
      split
      · simp
      · split <;> simp

/-- C4 at concrete inputs, on the sample service: `PutBatch` of no record, `DeleteBatch` of
26 keys and `UpdateBatch` of 26 keys are rejected with `ErrInput`, nothing being invoked;
`DeleteBatch` of 25 keys is not. -/
theorem batch_write_size_check_witness :
    ((sampleService.PutBatch [] []).err = some Error.ErrInput ∧
      (sampleService.PutBatch [] []).trace = []) ∧
    ((sampleService.DeleteBatch (sampleKeys 26) []).err = some Error.ErrInput ∧
      (sampleService.DeleteBatch (sampleKeys 26) []).trace = []) ∧
    ((sampleService.UpdateBatch (sampleKeys 26) ⟨[("TestV", "v3")]⟩ []).err
        = some Error.ErrInput ∧
      (sampleService.UpdateBatch (sampleKeys 26) ⟨[("TestV", "v3")]⟩ []).trace = []) ∧
    ¬ ((sampleService.DeleteBatch (sampleKeys 25) []).err = some Error.ErrInput ∧
      (sampleService.DeleteBatch (sampleKeys 25) []).trace = []) :=
  ⟨(batch_write_size_check sampleService [] [] ⟨[]⟩ [] [] []).2.1.2 (Or.inl rfl),
   (batch_write_size_check sampleService [] (sampleKeys 26) ⟨[]⟩ [] [] []).2.2.1.2
    (Or.inr (by decide)),
   (batch_write_size_check sampleService [] (sampleKeys 26) ⟨[("TestV", "v3")]⟩
    [] [] []).2.2.2.2 (Or.inr (by decide)),
   fun h => absurd ((batch_write_size_check sampleService [] (sampleKeys 25) ⟨[]⟩
    [] [] []).2.2.1.1 h) (by decide)⟩

theorem returnedForBackendError_translated (e : Error) :
    TranslatedFrom e (some (returnedForBackendError e)) := by
  constructor
  · rintro ⟨message, rfl⟩
    simp [returnedForBackendError, ErrCodeConditionalCheckFailedException]
  · intro h
    cases e with
    | awserr code message =>
      have hc : code ≠ "ConditionalCheckFailedException" := by
        intro hc; exact h message (by rw [hc])
      simp [returnedForBackendError, ErrCodeConditionalCheckFailedException, hc]
    | _ => rfl

theorem Put_backend_error {R : Type} (rs : Service R) (v : R) (opts : List PutOption)
    (input : PutItemInput) (e : Error) :
    Event.PutItem input ∈ (rs.Put v opts).trace →
    rs.dynamo.PutItemWithContext input = Except.error e →
    TranslatedFrom e (rs.Put v opts).err := by
  unfold Service.Put Service.buildIfSet
  simp only []
  generalize (List.foldl (fun options opt => opt options) defaultPutOptions opts).builder = ob
  intro hmem hback
  revert hmem
  cases ob <;> simp only []
  all_goals repeat' split
  all_goals intro hmem
  all_goals try simp only [Prod.mk.injEq] at *
  all_goals try casesm* _ ∧ _
  all_goals subst_vars
  all_goals simp_all [returnedForBackendError_translated]

theorem PutOut_backend_error {R : Type} (rs : Service R) (v out : R)
    (opts : List PutOption) (input : PutItemInput) (e : Error) :
    Event.PutItem input ∈ (rs.PutOut v out opts).trace →
    rs.dynamo.PutItemWithContext input = Except.error e →
    TranslatedFrom e (rs.PutOut v out opts).err := by
  unfold Service.PutOut Service.buildIfSet
  simp only []
  generalize (List.foldl (fun options opt => opt options) defaultPutOptions opts).builder = ob
  intro hmem hback
  revert hmem
  cases ob <;> simp only []
  all_goals repeat' split
  all_goals intro hmem
  all_goals try simp only [Prod.mk.injEq] at *
  all_goals try casesm* _ ∧ _
  all_goals subst_vars
  all_goals simp_all [returnedForBackendError_translated]

theorem Delete_backend_error {R : Type} (rs : Service R) (key : PrimaryKeyType)
    (opts : List DeleteOption) (input : DeleteItemInput) (e : Error) :
    Event.DeleteItem input ∈ (rs.Delete key opts).trace →
    rs.dynamo.DeleteItemWithContext input = Except.error e →
    TranslatedFrom e (rs.Delete key opts).err := by
  unfold Service.Delete Service.buildIfSet
  simp only []
  generalize (List.foldl (fun options opt => opt options) defaultDeleteOptions opts).builder = ob
  intro hmem hback
  revert hmem
  cases ob <;> simp only []
  all_goals repeat' split
  all_goals intro hmem
  all_goals try simp only [Prod.mk.injEq] at *
  all_goals try casesm* _ ∧ _
  all_goals subst_vars
  all_goals simp_all [returnedForBackendError_translated]

theorem DeleteOut_backend_error {R : Type} (rs : Service R) (key : PrimaryKeyType) (out : R)
    (opts : List DeleteOption) (input : DeleteItemInput) (e : Error) :
    Event.DeleteItem input ∈ (rs.DeleteOut key out opts).trace →
    rs.dynamo.DeleteItemWithContext input = Except.error e →
    TranslatedFrom e (rs.DeleteOut key out opts).err := by
  unfold Service.DeleteOut Service.buildIfSet
  simp only []
  generalize (List.foldl (fun options opt => opt options) defaultDeleteOptions opts).builder = ob
  intro hmem hback
  revert hmem
  cases ob <;> simp only []
  all_goals repeat' split
  all_goals intro hmem
  all_goals try simp only [Prod.mk.injEq] at *
  all_goals try casesm* _ ∧ _
  all_goals subst_vars
  all_goals simp_all [returnedForBackendError_translated]

theorem DeleteBatch_backend_error {R : Type} (rs : Service R) (keys : List PrimaryKeyType)
    (opts : List DeleteOption) (input : TransactWriteItemsInput) (e : Error) :
    Event.TransactWriteItems input ∈ (rs.DeleteBatch keys opts).trace →
    rs.dynamo.TransactWriteItemsWithContext input = some e →
    TranslatedFrom e (rs.DeleteBatch keys opts).err := by
  unfold Service.DeleteBatch Service.buildIfSet
  simp only []
  generalize (List.foldl (fun options opt => opt options) defaultDeleteOptions opts).builder = ob
  intro hmem hback
  revert hmem
  cases ob <;> simp only []
  all_goals repeat' split
  all_goals intro hmem
  all_goals try simp only [Prod.mk.injEq] at *
  all_goals try casesm* _ ∧ _
  all_goals subst_vars
  all_goals simp_all [returnedForBackendError_translated]

theorem Update_backend_error {R : Type} (rs : Service R) (key : PrimaryKeyType) (update : UpdateBuilder)
    (opts : List UpdateOption) (input : UpdateItemInput) (e : Error) :
    Event.UpdateItem input ∈ (rs.Update key update opts).trace →
    rs.dynamo.UpdateItemWithContext input = Except.error e →
    TranslatedFrom e (rs.Update key update opts).err := by
  unfold Service.Update
  simp only []
  intro hmem hback
  revert hmem
  all_goals repeat' split
  all_goals intro hmem
  all_goals try simp only [Prod.mk.injEq] at *
  all_goals simp_all [returnedForBackendError_translated]

theorem UpdateOut_backend_error {R : Type} (rs : Service R) (key : PrimaryKeyType) (update : UpdateBuilder) (out : R)
    (opts : List UpdateOption) (input : UpdateItemInput) (e : Error) :
    Event.UpdateItem input ∈ (rs.UpdateOut key update out opts).trace →
    rs.dynamo.UpdateItemWithContext input = Except.error e →
    TranslatedFrom e (rs.UpdateOut key update out opts).err := by
  unfold Service.UpdateOut
  simp only []
  intro hmem hback
  revert hmem
  all_goals repeat' split
  all_goals intro hmem
  all_goals try simp only [Prod.mk.injEq] at *
  all_goals simp_all [returnedForBackendError_translated]

theorem UpdateBatch_backend_error {R : Type} (rs : Service R) (keys : List PrimaryKeyType) (update : UpdateBuilder)
    (opts : List UpdateOption) (input : TransactWriteItemsInput) (e : Error) :
    Event.TransactWriteItems input ∈ (rs.UpdateBatch keys update opts).trace →
    rs.dynamo.TransactWriteItemsWithContext input = some e →
    TranslatedFrom e (rs.UpdateBatch keys update opts).err := by
  unfold Service.UpdateBatch
  simp only []
  intro hmem hback
  revert hmem
  all_goals repeat' split
  all_goals intro hmem
  all_goals try simp only [Prod.mk.injEq] at *
  all_goals simp_all [returnedForBackendError_translated]

theorem buildIfSet_not_backend {R : Type} (rs : Service R) (b : Option Builder)
    (r : Except Error Expression) (ev : List (Event R))
    (h : rs.buildIfSet b = (r, ev)) : ∀ x ∈ ev, x.isBackend = false := by
  cases b with
  | none =>
    simp only [Service.buildIfSet, Prod.mk.injEq] at h
    rw [← h.2]; simp
  | some b =>
    simp only [Service.buildIfSet, Prod.mk.injEq] at h
    rw [← h.2]; simp [Event.isBackend]

theorem putBatchLoop_not_backend {R : Type} (rs : Service R) (expr : Expression)
    (l : List R) :
    ∀ (i : Nat) (inItems : List (Option TransactWriteItem))
      (r : Except Error (List (Option TransactWriteItem))) (ev : List (Event R)),
      rs.putBatchLoop expr i l inItems = (r, ev) → ∀ x ∈ ev, x.isBackend = false := by
  induction l with
  | nil =>
    intro i inItems r ev h
    simp only [Service.putBatchLoop, Prod.mk.injEq] at h
    rw [← h.2]; simp
  | cons v rest ih =>
    intro i inItems r ev h
    unfold Service.putBatchLoop at h
    split at h
    · simp only [Prod.mk.injEq] at h
      rw [← h.2]; simp [Event.isBackend]
    · split at h
      rename_i r1 ev1 h1
      simp only [Prod.mk.injEq] at h
      rw [← h.2]
      intro x hx
      simp only [List.mem_cons] at hx
      rcases hx with hx | hx
      · rw [hx]; rfl
      · exact ih _ _ _ _ h1 x hx

theorem transactUpdateLoop_not_backend {R : Type} (rs : Service R)
    (l : List TransactUpdateItem) :
    ∀ (i : Nat) (inItems : List (Option TransactWriteItem))
      (r : Except Error (List (Option TransactWriteItem))) (ev : List (Event R)),
      rs.transactUpdateLoop i l inItems = (r, ev) → ∀ x ∈ ev, x.isBackend = false := by
  induction l with
  | nil =>
    intro i inItems r ev h
    simp only [Service.transactUpdateLoop, Prod.mk.injEq] at h
    rw [← h.2]; simp
  | cons update rest ih =>
    intro i inItems r ev h
    unfold Service.transactUpdateLoop at h
    split at h
    · rename_i e1 ev1 hb
      simp only [Prod.mk.injEq] at h
      rw [← h.2]
      exact buildIfSet_not_backend rs _ _ _ hb
    · rename_i expr ev1 hb
      split at h
      rename_i r1 ev2 h1
      simp only [Prod.mk.injEq] at h
      rw [← h.2]
      intro x hx
      simp only [List.mem_append] at hx
      rcases hx with hx | hx
      · exact buildIfSet_not_backend rs _ _ _ hb x hx
      · exact ih _ _ _ _ h1 x hx

theorem transactPutLoop_not_backend {R : Type} (rs : Service R)
    (l : List (TransactPutItem R)) :
    ∀ (i : Nat) (inItems : List (Option TransactWriteItem))
      (r : Except Error (List (Option TransactWriteItem))) (ev : List (Event R)),
      rs.transactPutLoop i l inItems = (r, ev) → ∀ x ∈ ev, x.isBackend = false := by
  induction l with
  | nil =>
    intro i inItems r ev h
    simp only [Service.transactPutLoop, Prod.mk.injEq] at h
    rw [← h.2]; simp
  | cons put rest ih =>
    intro i inItems r ev h
    unfold Service.transactPutLoop at h
    split at h
    · rename_i e1 ev1 hb
      simp only [Prod.mk.injEq] at h
      rw [← h.2]
      exact buildIfSet_not_backend rs _ _ _ hb
    · rename_i expr ev1 hb
      split at h
      · simp only [Prod.mk.injEq] at h
        rw [← h.2]
        intro x hx
        simp only [List.mem_append, List.mem_singleton] at hx
        rcases hx with hx | hx
        · exact buildIfSet_not_backend rs _ _ _ hb x hx
        · rw [hx]; rfl
      · split at h
        rename_i r1 ev2 h1
        simp only [Prod.mk.injEq] at h
        rw [← h.2]
        intro x hx
        simp only [List.mem_append, List.mem_cons] at hx
        rcases hx with hx | hx | hx
        · exact buildIfSet_not_backend rs _ _ _ hb x hx
        · rw [hx]; rfl
        · exact ih _ _ _ _ h1 x hx

theorem transactDeleteLoop_not_backend {R : Type} (rs : Service R)
    (l : List TransactDeleteItem) :
    ∀ (i : Nat) (inItems : List (Option TransactWriteItem))
      (r : Except Error (List (Option TransactWriteItem))) (ev : List (Event R)),
      rs.transactDeleteLoop i l inItems = (r, ev) → ∀ x ∈ ev, x.isBackend = false := by
  induction l with
  | nil =>
    intro i inItems r ev h
    simp only [Service.transactDeleteLoop, Prod.mk.injEq] at h
    rw [← h.2]; simp
  | cons delete rest ih =>
    intro i inItems r ev h
    unfold Service.transactDeleteLoop at h
    split at h
    · rename_i e1 ev1 hb
      simp only [Prod.mk.injEq] at h
      rw [← h.2]
      exact buildIfSet_not_backend rs _ _ _ hb
    · rename_i expr ev1 hb
      split at h
      rename_i r1 ev2 h1
      simp only [Prod.mk.injEq] at h
      rw [← h.2]
      intro x hx
      simp only [List.mem_append] at hx
      rcases hx with hx | hx
      · exact buildIfSet_not_backend rs _ _ _ hb x hx
      · exact ih _ _ _ _ h1 x hx

theorem not_backend_transactWriteItems {R : Type} (ev : List (Event R))
    (h : ∀ x ∈ ev, x.isBackend = false) (input : TransactWriteItemsInput) :
    Event.TransactWriteItems input ∉ ev := by
  intro hmem
  have := h _ hmem
  simp [Event.isBackend] at this

theorem PutBatch_backend_error {R : Type} (rs : Service R) (ins : List R)
    (opts : List PutOption) (input : TransactWriteItemsInput) (e : Error) :
    Event.TransactWriteItems input ∈ (rs.PutBatch ins opts).trace →
    rs.dynamo.TransactWriteItemsWithContext input = some e →
    TranslatedFrom e (rs.PutBatch ins opts).err := by
  unfold Service.PutBatch
  intro hmem hback
  revert hmem
  split
  · simp
  · simp only []
    split
    · rename_i e1 ev hb
      intro hmem
      exact absurd hmem (not_backend_transactWriteItems _ (buildIfSet_not_backend rs _ _ _ hb) _)
    · rename_i expr ev hb
      have hev := not_backend_transactWriteItems _ (buildIfSet_not_backend rs _ _ _ hb) input
      split
      · rename_i e1 ev1 hl
        have hev1 := not_backend_transactWriteItems _
          (putBatchLoop_not_backend rs _ _ _ _ _ _ hl) input
        intro hmem
        simp only [List.mem_append] at hmem
        rcases hmem with hmem | hmem
        · exact absurd hmem hev
        · exact absurd hmem hev1
      · rename_i inItems ev1 hl
        have hev1 := not_backend_transactWriteItems _
          (putBatchLoop_not_backend rs _ _ _ _ _ _ hl) input
        split
        all_goals intro hmem
        all_goals simp only [List.mem_append, List.mem_singleton, hev, hev1, false_or,
          Event.TransactWriteItems.injEq] at hmem
        all_goals subst hmem
        all_goals simp_all [returnedForBackendError_translated]

theorem Transact_backend_error {R : Type} (rs : Service R) (opts : List (TransactOption R))
    (input : TransactWriteItemsInput) (e : Error) :
    Event.TransactWriteItems input ∈ (rs.Transact opts).trace →
    rs.dynamo.TransactWriteItemsWithContext input = some e →
    TranslatedFrom e (rs.Transact opts).err := by
  unfold Service.Transact
  simp only []
  intro hmem hback
  revert hmem
  split
  · simp
  · split
    · simp
    · split
      · rename_i e1 ev1 h1
        intro hmem
        exact absurd hmem
          (not_backend_transactWriteItems _ (transactUpdateLoop_not_backend rs _ _ _ _ _ h1) _)
      · rename_i items1 ev1 h1
        have hev1 := not_backend_transactWriteItems _
          (transactUpdateLoop_not_backend rs _ _ _ _ _ h1) input
        split
        · rename_i e2 ev2 h2
          have hev2 := not_backend_transactWriteItems _
            (transactPutLoop_not_backend rs _ _ _ _ _ h2) input
          intro hmem
          simp only [List.mem_append] at hmem
          rcases hmem with hmem | hmem
          · exact absurd hmem hev1
          · exact absurd hmem hev2
        · rename_i items2 ev2 h2
          have hev2 := not_backend_transactWriteItems _
            (transactPutLoop_not_backend rs _ _ _ _ _ h2) input
          split
          · rename_i e3 ev3 h3
            have hev3 := not_backend_transactWriteItems _
              (transactDeleteLoop_not_backend rs _ _ _ _ _ h3) input
            intro hmem
            simp only [List.mem_append] at hmem
            rcases hmem with (hmem | hmem) | hmem
            · exact absurd hmem hev1
            · exact absurd hmem hev2
            · exact absurd hmem hev3
          · rename_i items3 ev3 h3
            have hev3 := not_backend_transactWriteItems _
              (transactDeleteLoop_not_backend rs _ _ _ _ _ h3) input
            split
            all_goals intro hmem
            all_goals simp only [List.mem_append, List.mem_singleton, hev1, hev2, hev3,
              false_or, Event.TransactWriteItems.injEq] at hmem
            all_goals subst hmem
            all_goals simp_all [returnedForBackendError_translated]

/-! ### Get -/

/-- C6. When the read that `Get` dispatched succeeds, then: if the backend returned no item,
`Get` returns `ErrItemNotFound`, the destination is unchanged and the trace holds no codec
call; if the backend returned an item, the error and the destination of `Get` are exactly
what the codec's `UnmarshalMap` yields for that item. -/
theorem Get_not_found_or_decoded {R : Type} (rs : Service R) (key : PrimaryKeyType) (out : R)
    (opts : List GetOption) (input : GetItemInput) (ret : GetItemOutput)
    (hmem : Event.GetItem input ∈ (rs.Get key out opts).trace)
    (hback : rs.dynamo.GetItemWithContext input = Except.ok ret) :
    (ret.Item = none →
      (rs.Get key out opts).err = some Error.ErrItemNotFound ∧
      (rs.Get key out opts).out = out ∧
      ∀ x ∈ (rs.Get key out opts).trace, x.isCodec = false) ∧
    (∀ item, ret.Item = some item →
      (rs.Get key out opts).err = (rs.codec.UnmarshalMap (some item) out).2 ∧
      (rs.Get key out opts).out = (rs.codec.UnmarshalMap (some item) out).1) := by
  revert hmem
  unfold Service.Get Service.buildIfSet
  simp only []
  generalize (List.foldl (fun options opt => opt options) defaultGetOptions opts) = options
  cases options.builder <;> simp only []
  all_goals repeat' split
  all_goals intro hmem
  all_goals try simp only [Prod.mk.injEq] at *
  all_goals try casesm* _ ∧ _
  all_goals subst_vars
  all_goals simp_all [Event.isCodec]

/-- C6 at concrete inputs: on the sample backend, which finds nothing, `Get` returns
`ErrItemNotFound` and leaves the destination; on the finding backend it returns the
decoded item. -/
theorem Get_not_found_or_decoded_witness :
    ((sampleService.Get (PrimaryKey "a" "x") [] []).err = some Error.ErrItemNotFound ∧
      (sampleService.Get (PrimaryKey "a" "x") [] []).out = []) ∧
    ((findingService.Get (PrimaryKey "a" "x") [] []).err = none ∧
      (findingService.Get (PrimaryKey "a" "x") [] []).out = PrimaryKey "a" "x") :=
  ⟨⟨((Get_not_found_or_decoded sampleService (PrimaryKey "a" "x") [] [] _ _
        (List.Mem.head _) rfl).1 rfl).1,
    ((Get_not_found_or_decoded sampleService (PrimaryKey "a" "x") [] [] _ _
        (List.Mem.head _) rfl).1 rfl).2.1⟩,
   (Get_not_found_or_decoded findingService (PrimaryKey "a" "x") [] [] _ _
        (List.Mem.head _) rfl).2 _ rfl⟩

/-! ### Update and UpdateOut: the return-value policy -/

theorem applyUpdateOptions_conditions (post : List UpdateOption)
    (h : ∀ o ∈ post, ∃ c, o = UpdateCondition c) :
    ∀ init : UpdateOptions, (applyUpdateOptions init post).returnValue = init.returnValue := by
  induction post with
  | nil => intro init; rfl
  | cons o rest ih =>
    intro init
    obtain ⟨c, hc⟩ := h o (List.mem_cons_self _ _)
    have hrest : ∀ o ∈ rest, ∃ c, o = UpdateCondition c :=
      fun o ho => h o (List.mem_cons_of_mem _ ho)
    show (applyUpdateOptions (o init) rest).returnValue = init.returnValue
    rw [ih hrest (o init), hc]
    rfl

theorem applyUpdateOptions_last_return_value (pre post : List UpdateOption) (v : String)
    (h : ∀ o ∈ post, ∃ c, o = UpdateCondition c) (init : UpdateOptions) :
    (applyUpdateOptions init (pre ++ UpdateReturnValue v :: post)).returnValue = some v := by
  unfold applyUpdateOptions
  rw [List.foldl_append, List.foldl_cons]
  exact applyUpdateOptions_conditions post h _

theorem Update_policy_rejected {R : Type} (rs : Service R) (key : PrimaryKeyType)
    (update : UpdateBuilder) (opts : List UpdateOption)
    (h : StringValue (applyUpdateOptions { returnValue := some UpdateReturnValueNone }
      opts).returnValue ≠ "NONE") :
    (rs.Update key update opts).err = some Error.ErrReturnValue ∧
    (rs.Update key update opts).trace = [] := by
  have h' : StringValue (List.foldl (fun (options : UpdateOptions) (opt : UpdateOption) =>
      opt options) { defaultUpdateOptions with returnValue := some UpdateReturnValueNone }
      opts).returnValue ≠ UpdateReturnValueNone := h
  unfold Service.Update
  simp only []
  rw [if_pos h']
  exact ⟨rfl, rfl⟩

theorem Update_policy_dispatched {R : Type} (rs : Service R) (key : PrimaryKeyType)
    (update : UpdateBuilder) (opts : List UpdateOption)
    (h : (applyUpdateOptions { returnValue := some UpdateReturnValueNone }
      opts).returnValue = some "NONE") :
    DispatchedUpdateWith rs (rs.Update key update opts) (some "NONE") := by
  have h' : (List.foldl (fun (options : UpdateOptions) (opt : UpdateOption) =>
      opt options) { defaultUpdateOptions with returnValue := some UpdateReturnValueNone }
      opts).returnValue = some "NONE" := h
  unfold Service.Update DispatchedUpdateWith
  simp only []
  rw [h']
  rw [if_neg (by simp [StringValue, UpdateReturnValueNone, ReturnValueNone])]
  cases hB : rs.Build _ with
  | error e =>
    simp only []
    exact ⟨by simp, by simp, Or.inr ⟨_, e, hB, rfl, rfl⟩⟩
  | ok expr =>
    simp only []
    split <;> simp

theorem UpdateOut_policy_rejected {R : Type} (rs : Service R) (key : PrimaryKeyType)
    (update : UpdateBuilder) (out : R) (opts : List UpdateOption)
    (h : (applyUpdateOptions { returnValue := some UpdateReturnValueUpdatedNew }
      opts).returnValue = some "NONE") :
    (rs.UpdateOut key update out opts).err = some Error.ErrReturnValue ∧
    (rs.UpdateOut key update out opts).out = out ∧
    (rs.UpdateOut key update out opts).trace = [] := by
  have h' : (List.foldl (fun (options : UpdateOptions) (opt : UpdateOption) =>
      opt options) { defaultUpdateOptions with returnValue := some UpdateReturnValueUpdatedNew }
      opts).returnValue = some "NONE" := h
  unfold Service.UpdateOut
  simp only []
  rw [h']
  rw [if_pos (by simp [StringValue, UpdateReturnValueNone, ReturnValueNone])]
  exact ⟨rfl, rfl, rfl⟩

theorem UpdateOut_policy_dispatched {R : Type} (rs : Service R) (key : PrimaryKeyType)
    (update : UpdateBuilder) (out : R) (opts : List UpdateOption)
    (h : StringValue (applyUpdateOptions { returnValue := some UpdateReturnValueUpdatedNew }
      opts).returnValue ≠ "NONE") :
    DispatchedUpdateWith rs (rs.UpdateOut key update out opts)
      (applyUpdateOptions { returnValue := some UpdateReturnValueUpdatedNew }
        opts).returnValue := by
  have h' : ¬ StringValue (List.foldl (fun (options : UpdateOptions) (opt : UpdateOption) =>
      opt options) { defaultUpdateOptions with returnValue := some UpdateReturnValueUpdatedNew }
      opts).returnValue = UpdateReturnValueNone := h
  unfold Service.UpdateOut DispatchedUpdateWith
  simp only []
  rw [if_neg h']
  cases hB : rs.Build _ with
  | error e =>
    simp only []
    exact ⟨by simp, by simp, Or.inr ⟨_, e, hB, rfl, rfl⟩⟩
  | ok expr =>
    simp only []
    split <;> simp [applyUpdateOptions, defaultUpdateOptions]

/-- C7 (as amended). After all options are applied in order, the last return-value option
decides. `Update` returns `ErrReturnValue`, having invoked no collaborator (no compile, no
backend call), whenever the effective return-value policy is other than `NONE`, which is
the case when the last `UpdateReturnValue` option requests one; with no return-value
option, or when the last one requests `NONE`, the call is not rejected and dispatches
with `ReturnValues = NONE`. -/
theorem Update_rejects_effective_return_value {R : Type} (rs : Service R)
    (key : PrimaryKeyType) (update : UpdateBuilder) :
    (∀ opts : List UpdateOption,
      StringValue (applyUpdateOptions { returnValue := some UpdateReturnValueNone }
        opts).returnValue ≠ "NONE" →
      (rs.Update key update opts).err = some Error.ErrReturnValue ∧
      (rs.Update key update opts).trace = []) ∧
    (∀ opts : List UpdateOption,
      (applyUpdateOptions { returnValue := some UpdateReturnValueNone }
        opts).returnValue = some "NONE" →
      DispatchedUpdateWith rs (rs.Update key update opts) (some "NONE")) ∧
    (∀ (pre post : List UpdateOption) (v : String),
      (∀ o ∈ post, ∃ c, o = UpdateCondition c) → v ≠ "NONE" →
      (rs.Update key update (pre ++ UpdateReturnValue v :: post)).err
        = some Error.ErrReturnValue ∧
      (rs.Update key update (pre ++ UpdateReturnValue v :: post)).trace = []) ∧
    (∀ pre post : List UpdateOption,
      (∀ o ∈ post, ∃ c, o = UpdateCondition c) →
      DispatchedUpdateWith rs
        (rs.Update key update (pre ++ UpdateReturnValue "NONE" :: post)) (some "NONE")) ∧
    (∀ opts : List UpdateOption,
      (∀ o ∈ opts, ∃ c, o = UpdateCondition c) →
      DispatchedUpdateWith rs (rs.Update key update opts) (some "NONE")) := by
  refine ⟨fun opts h => Update_policy_rejected rs key update opts h,
    fun opts h => Update_policy_dispatched rs key update opts h, ?_, ?_, ?_⟩
  · intro pre post v hpost hv
    apply Update_policy_rejected
    rw [applyUpdateOptions_last_return_value pre post v hpost]
    simpa [StringValue] using hv
  · intro pre post hpost
    apply Update_policy_dispatched
    exact applyUpdateOptions_last_return_value pre post "NONE" hpost _
  · intro opts hopts
    apply Update_policy_dispatched
    rw [applyUpdateOptions_conditions opts hopts]
    rfl

/-- C7 as amended, at concrete inputs: with the single option `UpdateReturnValue(ALL_NEW)`
the sample service rejects the call with `ErrReturnValue`; with a condition option only
it dispatches the update. -/
theorem Update_rejects_effective_return_value_witness :
    (sampleService.Update (PrimaryKey "a" "x") ⟨[("TestV", "v2")]⟩
        [UpdateReturnValue UpdateReturnValueAllNew]).err = some Error.ErrReturnValue ∧
    DispatchedUpdateWith sampleService
      (sampleService.Update (PrimaryKey "a" "x") ⟨[("TestV", "v2")]⟩
        [UpdateCondition ConditionItemExist]) (some "NONE") :=
  ⟨((Update_rejects_effective_return_value sampleService (PrimaryKey "a" "x")
      ⟨[("TestV", "v2")]⟩).2.2.1 [] [] "ALL_NEW" (fun _ h => nomatch h) (by decide)).1,
   (Update_rejects_effective_return_value sampleService (PrimaryKey "a" "x")
      ⟨[("TestV", "v2")]⟩).2.2.2.2 [UpdateCondition ConditionItemExist]
      (fun o h => ⟨ConditionItemExist, List.eq_of_mem_singleton h⟩)⟩

/-- C7 (counterexample to the claim as stated). `Update` is called with two options: the
first requests the return-value policy `ALL_NEW`, which is other than `NONE`, the second
requests `NONE`. The call does not return `ErrReturnValue`: it compiles the expression and
dispatches the update with `ReturnValues = NONE`, and returns nil. -/
theorem Update_earlier_return_value_not_rejected :
    UpdateReturnValueAllNew ≠ UpdateReturnValueNone ∧
    (sampleService.Update (PrimaryKey "a" "x") ⟨[("TestV", "v2")]⟩
      [UpdateReturnValue UpdateReturnValueAllNew,
        UpdateReturnValue UpdateReturnValueNone]).err = none ∧
    (sampleService.Update (PrimaryKey "a" "x") ⟨[("TestV", "v2")]⟩
      [UpdateReturnValue UpdateReturnValueAllNew,
        UpdateReturnValue UpdateReturnValueNone]).trace =
      [Event.Build { update := some ⟨[("TestV", "v2")]⟩ },
       Event.UpdateItem
        { TableName := some "T"
          Key := PrimaryKey "a" "x"
          UpdateExpression := some "TestV = v2"
          ConditionExpression := none
          ExpressionAttributeNames := none
          ExpressionAttributeValues := none
          ReturnValues := some "NONE" }] := by
  refine ⟨by decide, ?_, ?_⟩ <;> rfl

/-- C8. `UpdateOut`, by the effective return-value policy after all options are applied in
order: with no return-value option the dispatched request carries
`ReturnValues = UPDATED_NEW`; when the effective policy is an explicit `NONE` (the last
`UpdateReturnValue` option requests `NONE`) the call returns `ErrReturnValue`, leaves the
destination and invokes no collaborator, so the backend is not called; for any other
effective policy the dispatched `ReturnValues` is that policy. -/
theorem UpdateOut_return_value_policy {R : Type} (rs : Service R) (key : PrimaryKeyType)
    (update : UpdateBuilder) (out : R) :
    (∀ opts : List UpdateOption,
      (∀ o ∈ opts, ∃ c, o = UpdateCondition c) →
      DispatchedUpdateWith rs (rs.UpdateOut key update out opts) (some "UPDATED_NEW")) ∧
    (∀ opts : List UpdateOption,
      (applyUpdateOptions { returnValue := some UpdateReturnValueUpdatedNew }
        opts).returnValue = some "NONE" →
      (rs.UpdateOut key update out opts).err = some Error.ErrReturnValue ∧
      (rs.UpdateOut key update out opts).out = out ∧
      (rs.UpdateOut key update out opts).trace = []) ∧
    (∀ pre post : List UpdateOption,
      (∀ o ∈ post, ∃ c, o = UpdateCondition c) →
      (rs.UpdateOut key update out (pre ++ UpdateReturnValue "NONE" :: post)).err
        = some Error.ErrReturnValue ∧
      (rs.UpdateOut key update out (pre ++ UpdateReturnValue "NONE" :: post)).out = out ∧
      (rs.UpdateOut key update out (pre ++ UpdateReturnValue "NONE" :: post)).trace = []) ∧
    (∀ opts : List UpdateOption,
      StringValue (applyUpdateOptions { returnValue := some UpdateReturnValueUpdatedNew }
        opts).returnValue ≠ "NONE" →
      DispatchedUpdateWith rs (rs.UpdateOut key update out opts)
        (applyUpdateOptions { returnValue := some UpdateReturnValueUpdatedNew }
          opts).returnValue) ∧
    (∀ (pre post : List UpdateOption) (v : String),
      (∀ o ∈ post, ∃ c, o = UpdateCondition c) → v ≠ "NONE" →
      DispatchedUpdateWith rs
        (rs.UpdateOut key update out (pre ++ UpdateReturnValue v :: post)) (some v)) := by
  refine ⟨?_, fun opts h => UpdateOut_policy_rejected rs key update out opts h, ?_,
    fun opts h => UpdateOut_policy_dispatched rs key update out opts h, ?_⟩
  · intro opts hopts
    have h := UpdateOut_policy_dispatched rs key update out opts
    rw [applyUpdateOptions_conditions opts hopts] at h
    exact h (by decide)
  · intro pre post hpost
    apply UpdateOut_policy_rejected
    exact applyUpdateOptions_last_return_value pre post "NONE" hpost _
  · intro pre post v hpost hv
    have h := UpdateOut_policy_dispatched rs key update out (pre ++ UpdateReturnValue v :: post)
    rw [applyUpdateOptions_last_return_value pre post v hpost] at h
    exact h (by simpa [StringValue] using hv)

/-- C8 at concrete inputs, on the sample service: without option the update is dispatched
with `UPDATED_NEW`; with `UpdateReturnValue(NONE)` the call is rejected; with
`UpdateReturnValue(ALL_OLD)` the update is dispatched with `ALL_OLD`. -/
theorem UpdateOut_return_value_policy_witness :
    DispatchedUpdateWith sampleService
      (sampleService.UpdateOut (PrimaryKey "a" "x") ⟨[("TestV", "v2")]⟩ [] [])
      (some "UPDATED_NEW") ∧
    (sampleService.UpdateOut (PrimaryKey "a" "x") ⟨[("TestV", "v2")]⟩ []
      [UpdateReturnValue "NONE"]).err = some Error.ErrReturnValue ∧
    DispatchedUpdateWith sampleService
      (sampleService.UpdateOut (PrimaryKey "a" "x") ⟨[("TestV", "v2")]⟩ []
        [UpdateReturnValue "ALL_OLD"]) (some "ALL_OLD") :=
  ⟨(UpdateOut_return_value_policy sampleService (PrimaryKey "a" "x")
      ⟨[("TestV", "v2")]⟩ []).1 [] (fun _ h => nomatch h),
   ((UpdateOut_return_value_policy sampleService (PrimaryKey "a" "x")
      ⟨[("TestV", "v2")]⟩ []).2.2.1 [] [] (fun _ h => nomatch h)).1,
   (UpdateOut_return_value_policy sampleService (PrimaryKey "a" "x")
      ⟨[("TestV", "v2")]⟩ []).2.2.2.2 [] [] "ALL_OLD" (fun _ h => nomatch h) (by decide)⟩

/-! ### Condition options -/

/-- C9 (counterexample to the claim as stated). Applying `PutCondition` with the condition
"the item exists" and then with the condition `TestV = v1` leaves the builder holding
`TestV = v1` alone, which is not the conjunction of the two; and a `Put` with these two
options compiles a builder whose condition is `TestV = v1` alone. -/
theorem PutCondition_twice_replaces :
    ((PutCondition (ConditionBuilder.Equal "TestV" "v1")
        (PutCondition ConditionItemExist defaultPutOptions)).builder.bind
          (fun b => b.condition)) = some (ConditionBuilder.Equal "TestV" "v1") ∧
    ConditionBuilder.Equal "TestV" "v1" ≠
      ConditionBuilder.And ConditionItemExist (ConditionBuilder.Equal "TestV" "v1") ∧
    (sampleService.Put (PrimaryKey "a" "x")
        [PutCondition ConditionItemExist,
          PutCondition (ConditionBuilder.Equal "TestV" "v1")]).trace =
      [Event.Build { condition := some (ConditionBuilder.Equal "TestV" "v1") },
       Event.MarshalMap (PrimaryKey "a" "x"),
       Event.PutItem
        { TableName := some "T"
          Item := PrimaryKey "a" "x"
          ConditionExpression := some "TestV = v1"
          ExpressionAttributeNames := none
          ExpressionAttributeValues := none
          ReturnValues := some "NONE" }] := by
  refine ⟨by decide, by decide, rfl⟩

theorem ConditionBuilder_ne_And (c1 c2 : ConditionBuilder) :
    c2 ≠ ConditionBuilder.And c1 c2 := by
  intro h
  have hs := congrArg sizeOf h
  simp only [ConditionBuilder.And.sizeOf_spec] at hs
  omega

/-- C9 (as amended). For all conditions `c1`, `c2` and every options value, applying two
successive condition options (`PutCondition`, `DeleteCondition`, `UpdateCondition`,
`QueryFilter`) with `c1` then `c2` leaves the builder holding `c2` alone as its condition
(filter) clause: the second condition replaces the first, the pair has the effect of the
second option alone, and the clause held is never the conjunction of the two. -/
theorem successive_conditions_keep_last (c1 c2 : ConditionBuilder) :
    (∀ o : PutOptions,
      PutCondition c2 (PutCondition c1 o) = PutCondition c2 o ∧
      (PutCondition c2 (PutCondition c1 o)).builder.bind (fun b => b.condition) = some c2) ∧
    (∀ o : DeleteOptions,
      DeleteCondition c2 (DeleteCondition c1 o) = DeleteCondition c2 o ∧
      (DeleteCondition c2 (DeleteCondition c1 o)).builder.bind (fun b => b.condition)
        = some c2) ∧
    (∀ o : UpdateOptions,
      UpdateCondition c2 (UpdateCondition c1 o) = UpdateCondition c2 o ∧
      (UpdateCondition c2 (UpdateCondition c1 o)).builder.bind (fun b => b.condition)
        = some c2) ∧
    (∀ o : QueryOptions,
      QueryFilter c2 (QueryFilter c1 o) = QueryFilter c2 o ∧
      (QueryFilter c2 (QueryFilter c1 o)).builder.bind (fun b => b.filter) = some c2) ∧
    some c2 ≠ some (ConditionBuilder.And c1 c2) := by
  refine ⟨?_, ?_, ?_, ?_, ?_⟩
  · rintro ⟨_ | b⟩ <;> exact ⟨rfl, rfl⟩
  · rintro ⟨_ | b⟩ <;> exact ⟨rfl, rfl⟩
  · rintro ⟨_ | b, rv⟩ <;> exact ⟨rfl, rfl⟩
  · rintro ⟨_ | b, cr, st, ix⟩ <;> exact ⟨rfl, rfl⟩
  · intro h
    exact ConditionBuilder_ne_And c1 c2 (Option.some.inj h)

/-! ### queryData: accumulation of pages -/

theorem concatItems_append (q r : List QueryOutput) :
    concatItems (q ++ r) = concatItems q ++ concatItems r := by
  induction q with
  | nil => rfl
  | cons p ps ih => simp [concatItems, ih]

theorem eachPage_queryDataPage (pages : List QueryOutput) :
    ∀ acc : List AttributeMap, acc.length ≤ maxReadNum →
      eachPage queryDataPage pages none acc =
        (acc ++ concatItems (consumedFrom acc.length pages), none) := by
  induction pages with
  | nil => intro acc _; simp [eachPage, consumedFrom, concatItems]
  | cons p ps ih =>
    intro acc hacc
    rw [eachPage, consumedFrom]
    by_cases h : (acc ++ p.Items).length > maxReadNum
    · have h' : maxReadNum < acc.length + p.Items.length := by
        simpa [List.length_append] using h
      have hq : ∀ flag, queryDataPage acc p flag = (acc ++ p.Items, false) := by
        intro flag; simp only [queryDataPage, h, if_true]
      rw [hq, if_pos h']
      simp [concatItems]
    · have h' : ¬ maxReadNum < acc.length + p.Items.length := by
        simpa [List.length_append] using h
      have hq : ∀ flag, queryDataPage acc p flag = (acc ++ p.Items, true) := by
        intro flag; simp only [queryDataPage, h, if_false]
      have hle : (acc ++ p.Items).length ≤ maxReadNum := by omega
      rw [hq, if_neg h']
      simp only []
      rw [ih (acc ++ p.Items) hle]
      simp [concatItems, List.length_append]

theorem find_inits_eq_consumedFrom (pages : List QueryOutput) :
    ∀ n : Nat, n ≤ maxReadNum →
      (match pages.inits.find? (fun p => decide (maxReadNum < n + (concatItems p).length)) with
        | some p => p
        | none => pages) = consumedFrom n pages := by
  induction pages with
  | nil =>
    intro n hn
    have : ¬ maxReadNum < n := by omega
    simp [consumedFrom, concatItems, this]
  | cons p ps ih =>
    intro n hn
    have h0 : ¬ maxReadNum < n := by omega
    rw [List.inits_cons, List.find?_cons]
    simp only [concatItems, List.length_nil, Nat.add_zero, h0, decide_False, List.find?_map]
    unfold consumedFrom
    by_cases h : maxReadNum < n + p.Items.length
    · rw [if_pos h]
      cases ps with
      | nil => simp [List.inits, Function.comp, concatItems, h]
      | cons p2 ps2 =>
        rw [List.inits_cons, List.find?_cons]
        simp [Function.comp, concatItems, h]
    · rw [if_neg h]
      have hle : n + p.Items.length ≤ maxReadNum := by omega
      rw [← ih (n + p.Items.length) hle]
      have hfun : ((fun q => decide (maxReadNum < n + (concatItems q).length)) ∘
          fun t => p :: t) =
          (fun q => decide (maxReadNum < n + p.Items.length + (concatItems q).length)) := by
        funext q
        simp [Function.comp, concatItems, List.length_append, Nat.add_assoc]
      rw [hfun]
      cases List.find? (fun q => decide (maxReadNum < n + p.Items.length
        + (concatItems q).length)) ps.inits <;> rfl

theorem consumedPages_eq_consumedFrom (pages : List QueryOutput) :
    consumedPages pages = consumedFrom 0 pages := by
  have h := find_inits_eq_consumedFrom pages 0 (Nat.zero_le _)
  simp only [Nat.zero_add] at h
  exact h

theorem consumedFrom_prefix_of_pages (pages : List QueryOutput) :
    ∀ n : Nat, consumedFrom n pages <+: pages := by
  induction pages with
  | nil => intro n; exact List.prefix_refl _
  | cons p ps ih =>
    intro n
    unfold consumedFrom
    split
    · exact ⟨ps, rfl⟩
    · exact (List.prefix_cons_inj p).2 (ih _)

theorem consumedFrom_all_or_exceeds (pages : List QueryOutput) :
    ∀ n : Nat, consumedFrom n pages = pages ∨
      maxReadNum < n + (concatItems (consumedFrom n pages)).length := by
  induction pages with
  | nil => intro n; left; rfl
  | cons p ps ih =>
    intro n
    unfold consumedFrom
    split
    · right; simpa [concatItems] using ‹maxReadNum < n + p.Items.length›
    · rcases ih (n + p.Items.length) with h | h
      · left; rw [h]
      · right
        simp only [concatItems, List.length_append]
        omega

theorem consumedFrom_before_last (pages : List QueryOutput) :
    ∀ (n : Nat) (q : List QueryOutput) (last : QueryOutput), n ≤ maxReadNum →
      consumedFrom n pages = q ++ [last] → n + (concatItems q).length ≤ maxReadNum := by
  induction pages with
  | nil =>
    intro n q last _ h
    simp [consumedFrom] at h
  | cons p ps ih =>
    intro n q last hn h
    unfold consumedFrom at h
    split at h
    · cases q with
      | nil => simpa [concatItems] using hn
      | cons a q' => simp at h
    · rename_i hlt
      cases q with
      | nil =>
        simp only [List.nil_append, List.cons.injEq] at h
        simpa [concatItems] using hn
      | cons a q' =>
        simp only [List.cons_append, List.cons.injEq] at h
        obtain ⟨rfl, h⟩ := h
        have := ih (n + p.Items.length) q' last (by omega) h
        simp only [concatItems, List.length_append]
        omega

/-- C10 (as amended). When the backend delivers the pages `pages` without error,
`queryData` hands to the codec, once, the concatenation in page order of the shortest
prefix of `pages` whose total item count exceeds 500, or of all pages if no prefix exceeds
500, and returns what the codec returns: stopping early is no error. Consequently a page
is left out only once the total exceeds 500, the items taken before the last consumed
page number at most 500, and the result exceeds 500 by at most the size of the last
consumed page. -/
theorem queryData_accumulates_shortest_exceeding_pages {R : Type} (rs : Service R)
    (input : QueryInput) (out : R) (pages : List QueryOutput)
    (h : rs.dynamo.QueryPages input = (pages, none)) :
    maxReadNum = 500 ∧
    (rs.queryData input out).trace =
      [Event.QueryPages input,
        Event.UnmarshalListOfMaps (concatItems (consumedPages pages))] ∧
    (rs.queryData input out).err =
      (rs.codec.UnmarshalListOfMaps (concatItems (consumedPages pages)) out).2 ∧
    (rs.queryData input out).out =
      (rs.codec.UnmarshalListOfMaps (concatItems (consumedPages pages)) out).1 ∧
    consumedPages pages <+: pages ∧
    (consumedPages pages = pages ∨ 500 < (concatItems (consumedPages pages)).length) ∧
    (∀ (q : List QueryOutput) (last : QueryOutput), consumedPages pages = q ++ [last] →
      (concatItems q).length ≤ 500 ∧
      (concatItems (consumedPages pages)).length ≤ 500 + last.Items.length) := by
  have hrun : eachPage queryDataPage pages none [] =
      (concatItems (consumedPages pages), none) := by
    rw [eachPage_queryDataPage pages [] (Nat.zero_le _), consumedPages_eq_consumedFrom]
    rfl
  refine ⟨rfl, ?_, ?_, ?_, ?_, ?_, ?_⟩
  · unfold Service.queryData
    rw [h]
    simp only [hrun]
  · unfold Service.queryData
    rw [h]
    simp only [hrun]
  · unfold Service.queryData
    rw [h]
    simp only [hrun]
  · rw [consumedPages_eq_consumedFrom]
    exact consumedFrom_prefix_of_pages pages 0
  · rw [consumedPages_eq_consumedFrom]
    have := consumedFrom_all_or_exceeds pages 0
    simpa [maxReadNum] using this
  · intro q last hq
    rw [consumedPages_eq_consumedFrom] at hq
    have hb := consumedFrom_before_last pages 0 q last (Nat.zero_le _) hq
    rw [consumedPages_eq_consumedFrom, hq, concatItems_append]
    simp only [maxReadNum, Nat.zero_add] at hb
    simp only [List.length_append, concatItems, List.length_nil, Nat.add_zero]
    omega

/-- C10 as amended, at a concrete input: two pages of one item each are both taken, in
order. -/
theorem queryData_accumulates_shortest_exceeding_pages_witness :
    ((pagedService [{ Items := [PrimaryKey "a" "x"], Count := none },
        { Items := [PrimaryKey "b" "y"], Count := none }]).queryData
      sampleQueryInput []).trace =
      [Event.QueryPages sampleQueryInput,
        Event.UnmarshalListOfMaps (concatItems (consumedPages
          [{ Items := [PrimaryKey "a" "x"], Count := none },
           { Items := [PrimaryKey "b" "y"], Count := none }]))] :=
  (queryData_accumulates_shortest_exceeding_pages
    (pagedService [{ Items := [PrimaryKey "a" "x"], Count := none },
        { Items := [PrimaryKey "b" "y"], Count := none }])
    sampleQueryInput [] _ rfl).2.1

/-- C10 (counterexample to the claim as stated). The backend delivers a page of 500 items and
then two pages of one item each. `queryData` takes the first two pages: after the first
the total is 500, which does not exceed 500, and after the second it is 501. The result
exceeds 500 by 1, which is the size of the last consumed page and not less than it. -/
theorem queryData_excess_equals_last_page :
    (decodedLists ((pagedService boundaryPages).queryData sampleQueryInput []).trace).map
      List.length = [501] ∧
    (consumedPages boundaryPages).map (fun p => p.Items.length) = [500, 1] ∧
    ¬ (501 - maxReadNum < 1) := by
  have hlen : fiveHundredItems.length = 500 := List.length_replicate 500 []
  refine ⟨?_, ?_, by decide⟩
  · have hrun := eachPage_queryDataPage boundaryPages [] (Nat.zero_le _)
    rw [List.length_nil, List.nil_append] at hrun
    have hc : consumedFrom 0 boundaryPages =
        [{ Items := fiveHundredItems, Count := none },
         { Items := [PrimaryKey "a" "x"], Count := none }] := by
      simp [consumedFrom, boundaryPages, maxReadNum, hlen]
    have ht : ((pagedService boundaryPages).queryData sampleQueryInput []).trace =
        [Event.QueryPages sampleQueryInput,
          Event.UnmarshalListOfMaps (concatItems (consumedFrom 0 boundaryPages))] := by
      unfold Service.queryData
      simp only [pagedService, pagedDynamo, hrun]
    rw [ht, hc]
    simp [decodedLists, concatItems, hlen]
  · rw [consumedPages_eq_consumedFrom]
    simp [consumedFrom, boundaryPages, maxReadNum, hlen]

/-! ### PrimaryKey -/

/-- C18. For all strings, `PrimaryKey(pk, sk)` is the attribute map with exactly two
entries, `PK` mapped to the string value `pk` and `SK` mapped to the string value `sk`;
hence two primary keys are equal only if their partition values are equal and their sort
values are equal. -/
theorem PrimaryKey_two_entries (pk sk pk2 sk2 : String) :
    PrimaryKey pk sk = [("PK", AttributeValue.S pk), ("SK", AttributeValue.S sk)] ∧
    (PrimaryKey pk sk).length = 2 ∧
    (PrimaryKey pk sk).lookup "PK" = some (AttributeValue.S pk) ∧
    (PrimaryKey pk sk).lookup "SK" = some (AttributeValue.S sk) ∧
    (∀ name, name ≠ "PK" → name ≠ "SK" → (PrimaryKey pk sk).lookup name = none) ∧
    (PrimaryKey pk sk = PrimaryKey pk2 sk2 → pk = pk2 ∧ sk = sk2) := by
  refine ⟨rfl, rfl, ?_, ?_, ?_, ?_⟩
  · simp [PrimaryKey, tablePK, List.lookup]
  · simp [PrimaryKey, tablePK, tableSK, List.lookup]
  · intro name h1 h2
    have e1 : (name == "PK") = false := by simpa using h1
    have e2 : (name == "SK") = false := by simpa using h2
    simp [PrimaryKey, tablePK, tableSK, List.lookup, e1, e2]
  · intro h
    simp only [PrimaryKey, List.cons.injEq, Prod.mk.injEq, AttributeValue.S.injEq,
      true_and, and_true] at h
    exact h

/-- C18 at a concrete input: the keys `(a, x)` and `(a, y)` differ. -/
theorem PrimaryKey_two_entries_witness : PrimaryKey "a" "x" ≠ PrimaryKey "a" "y" :=
  fun h => absurd ((PrimaryKey_two_entries "a" "x" "a" "y").2.2.2.2.2 h).2 (by decide)

/-! ### BaseSchema -/

/-- C17 (evaluation at the failing inputs). With the clock at instant 50, a record whose
expiry instant is 100, still in the future, is reported expired, and a record whose expiry
instant is 10, already passed, is reported not expired: `Expired` answers
`ExpireTime.After(now)`, the opposite of what its name says. In general `Expired` is true
exactly when the expiry instant is set and lies after `now`. -/
theorem Expired_is_true_before_expiry :
    BaseSchema.Expired { PK := "a", SK := "x", ExpireTime := some 100 } 50 = true ∧
    BaseSchema.Expired { PK := "a", SK := "x", ExpireTime := some 10 } 50 = false ∧
    (∀ (bs : BaseSchema) (now : Time),
      bs.Expired now = true ↔ ∃ t, bs.ExpireTime = some t ∧ now < t) := by
  refine ⟨by decide, by decide, ?_⟩
  intro bs now
  unfold BaseSchema.Expired
  cases bs.ExpireTime with
  | none => simp
  | some t => simp [Time.After]

/-! ### Query -/

theorem queryData_trace {R : Type} (rs : Service R) (input : QueryInput) (out : R) :
    (rs.queryData input out).trace = [Event.QueryPages input] ∨
    ∃ l, (rs.queryData input out).trace =
      [Event.QueryPages input, Event.UnmarshalListOfMaps l] := by
  unfold Service.queryData
  split
  · left; rfl
  · right; exact ⟨_, rfl⟩

theorem Query_unfold {R : Type} (rs : Service R) (keyCond : KeyConditionBuilder) (out : R)
    (opts : List QueryOption) (expr : Expression)
    (hbuild : rs.Build (queryBuilder keyCond opts) = Except.ok expr) :
    rs.Query keyCond out opts =
      (match (applyQueryOptions keyCond opts).selectType with
      | some selectType =>
        if selectType = QuerySelectASC then
          ⟨(rs.queryData
              { rs.queryInput keyCond opts expr with ScanIndexForward := some true } out).err,
            (rs.queryData
              { rs.queryInput keyCond opts expr with ScanIndexForward := some true } out).out,
            Event.Build (queryBuilder keyCond opts) ::
            (rs.queryData
              { rs.queryInput keyCond opts expr with ScanIndexForward := some true }
              out).trace⟩
        else if selectType = QuerySelectDESC then
          ⟨(rs.queryData
              { rs.queryInput keyCond opts expr with ScanIndexForward := some false } out).err,
            (rs.queryData
              { rs.queryInput keyCond opts expr with ScanIndexForward := some false } out).out,
            Event.Build (queryBuilder keyCond opts) ::
            (rs.queryData
              { rs.queryInput keyCond opts expr with ScanIndexForward := some false }
              out).trace⟩
        else if selectType = QuerySelectCount then
          match rs.dynamo.QueryWithContext
              { rs.queryInput keyCond opts expr with Select := some SelectCount } with
          | Except.error err =>
            ⟨some err, out,
              [Event.Build (queryBuilder keyCond opts),
                Event.Query
                  { rs.queryInput keyCond opts expr with Select := some SelectCount }]⟩
          | Except.ok _ =>
            ⟨none, out,
              [Event.Build (queryBuilder keyCond opts),
                Event.Query
                  { rs.queryInput keyCond opts expr with Select := some SelectCount }]⟩
        else ⟨some Error.ErrInput, out, [Event.Build (queryBuilder keyCond opts)]⟩
      | none =>
        ⟨(rs.queryData (rs.queryInput keyCond opts expr) out).err,
          (rs.queryData (rs.queryInput keyCond opts expr) out).out,
          Event.Build (queryBuilder keyCond opts) ::
          (rs.queryData (rs.queryInput keyCond opts expr) out).trace⟩) := by
  unfold Service.Query
  simp only []
  have hb : rs.Build ((match (List.foldl (fun (options : QueryOptions) (opt : QueryOption) =>
      opt options) (defaultQueryOptions keyCond) opts).builder with
      | none => NewBuilder
      | some b => b).WithKeyCondition keyCond) = Except.ok expr := hbuild
  rw [hb]
  simp only [applyQueryOptions, queryBuilder, Service.queryCount, List.singleton_append,
    Service.queryInput]
  split
  · repeat' split
    all_goals simp_all
  · rfl

/-- C13. For every `Query` call whose expression compiles and whose effective select mode is
the string `s`: if `s` is none of `QuerySelectASC`, `QuerySelectDESC`, `QuerySelectCount`
the call returns `ErrInput`, leaves the destination and issues no backend call; if `s`
is `QuerySelectASC` its one backend request is a paged query with `ScanIndexForward`
true, and if `s` is `QuerySelectDESC` a paged query with `ScanIndexForward` false, the
call returning what `queryData` returns for that request. -/
theorem Query_select_mode {R : Type} (rs : Service R) (keyCond : KeyConditionBuilder)
    (out : R) (opts : List QueryOption) (s : String) (expr : Expression)
    (hsel : (applyQueryOptions keyCond opts).selectType = some s)
    (hbuild : rs.Build (queryBuilder keyCond opts) = Except.ok expr) :
    ((s ≠ QuerySelectASC ∧ s ≠ QuerySelectDESC ∧ s ≠ QuerySelectCount) →
      (rs.Query keyCond out opts).err = some Error.ErrInput ∧
      (rs.Query keyCond out opts).out = out ∧
      ∀ x ∈ (rs.Query keyCond out opts).trace, x.isBackend = false) ∧
    (s = QuerySelectASC →
      ∃ input : QueryInput, input.ScanIndexForward = some true ∧
        Event.QueryPages input ∈ (rs.Query keyCond out opts).trace ∧
        (∀ x ∈ (rs.Query keyCond out opts).trace, x.isBackend = true →
          x = Event.QueryPages input) ∧
        (rs.Query keyCond out opts).err = (rs.queryData input out).err ∧
        (rs.Query keyCond out opts).out = (rs.queryData input out).out) ∧
    (s = QuerySelectDESC →
      ∃ input : QueryInput, input.ScanIndexForward = some false ∧
        Event.QueryPages input ∈ (rs.Query keyCond out opts).trace ∧
        (∀ x ∈ (rs.Query keyCond out opts).trace, x.isBackend = true →
          x = Event.QueryPages input) ∧
        (rs.Query keyCond out opts).err = (rs.queryData input out).err ∧
        (rs.Query keyCond out opts).out = (rs.queryData input out).out) := by
  rw [Query_unfold rs keyCond out opts expr hbuild, hsel]
  simp only []
  refine ⟨?_, ?_, ?_⟩
  · rintro ⟨h1, h2, h3⟩
    rw [if_neg h1, if_neg h2, if_neg h3]
    simp [Event.isBackend]
  · intro h1
    rw [if_pos h1]
    refine ⟨_, rfl, ?_, ?_, rfl, rfl⟩
    · rcases queryData_trace rs
        { rs.queryInput keyCond opts expr with ScanIndexForward := some true } out
        with h | ⟨l, h⟩ <;> simp [h]
    · rcases queryData_trace rs
        { rs.queryInput keyCond opts expr with ScanIndexForward := some true } out
        with h | ⟨l, h⟩ <;> simp [h, Event.isBackend]
  · intro h2
    have h1 : s ≠ QuerySelectASC := by rw [h2]; decide
    rw [if_neg h1, if_pos h2]
    refine ⟨_, rfl, ?_, ?_, rfl, rfl⟩
    · rcases queryData_trace rs
        { rs.queryInput keyCond opts expr with ScanIndexForward := some false } out
        with h | ⟨l, h⟩ <;> simp [h]
    · rcases queryData_trace rs
        { rs.queryInput keyCond opts expr with ScanIndexForward := some false } out
        with h | ⟨l, h⟩ <;> simp [h, Event.isBackend]

/-- C13 at concrete inputs, on the sample service: the select mode `bogus` is rejected with
`ErrInput`, and the select mode `QuerySelectDESC` dispatches a paged query. -/
theorem Query_select_mode_witness :
    (sampleService.Query (KeyConditionBuilder.KeyEqual "PK" "a") []
      [QuerySelectType "bogus"]).err = some Error.ErrInput ∧
    (∃ input : QueryInput, input.ScanIndexForward = some false ∧
      Event.QueryPages input ∈ (sampleService.Query (KeyConditionBuilder.KeyEqual "PK" "a") []
        [QuerySelectType QuerySelectDESC]).trace) :=
  ⟨((Query_select_mode sampleService (KeyConditionBuilder.KeyEqual "PK" "a") []
      [QuerySelectType "bogus"] "bogus" _ rfl rfl).1
      ⟨by decide, by decide, by decide⟩).1,
   let ⟨input, h1, h2, _⟩ := (Query_select_mode sampleService
      (KeyConditionBuilder.KeyEqual "PK" "a") []
      [QuerySelectType QuerySelectDESC] QuerySelectDESC _ rfl rfl).2.2 rfl
   ⟨input, h1, h2⟩⟩

/-- C11 (what the code does). For every `Query` call whose effective select mode is
`QuerySelectCount`, whose expression compiles and whose count request the backend
answers successfully, with whatever count: the call returns nil and calls no codec, and
the destination after the call is the destination before the call. The count is assigned
to the method's own parameter and reaches nothing the caller can observe. -/
theorem Query_count_leaves_destination {R : Type} (rs : Service R)
    (keyCond : KeyConditionBuilder) (out : R) (opts : List QueryOption) (expr : Expression)
    (ret : QueryOutput)
    (hsel : (applyQueryOptions keyCond opts).selectType = some QuerySelectCount)
    (hbuild : rs.Build (queryBuilder keyCond opts) = Except.ok expr)
    (hback : rs.dynamo.QueryWithContext
      { rs.queryInput keyCond opts expr with Select := some SelectCount } = Except.ok ret) :
    (rs.Query keyCond out opts).err = none ∧
    (∀ x ∈ (rs.Query keyCond out opts).trace, x.isCodec = false) ∧
    (rs.Query keyCond out opts).out = out ∧
    (rs.Query keyCond out opts).trace =
      [Event.Build (queryBuilder keyCond opts),
        Event.Query { rs.queryInput keyCond opts expr with Select := some SelectCount }] := by
  rw [Query_unfold rs keyCond out opts expr hbuild, hsel]
  have h1 : QuerySelectCount ≠ QuerySelectASC := by decide
  have h2 : QuerySelectCount ≠ QuerySelectDESC := by decide
  simp only [] at hback
  simp [h1, h2, hback, Event.isCodec]

/-- C11 at the failing input: on a backend that answers the count 7, a `Query` in count mode
with the empty record as destination returns nil and the destination is still the empty
record. -/
theorem Query_count_leaves_destination_witness :
    ((countingService 7).Query (KeyConditionBuilder.KeyEqual "PK" "a") []
      [QuerySelectType QuerySelectCount]).err = none ∧
    ((countingService 7).Query (KeyConditionBuilder.KeyEqual "PK" "a") []
      [QuerySelectType QuerySelectCount]).out = [] :=
  ⟨(Query_count_leaves_destination (countingService 7)
      (KeyConditionBuilder.KeyEqual "PK" "a") [] [QuerySelectType QuerySelectCount]
      _ { Items := [], Count := some 7 } rfl rfl rfl).1,
   (Query_count_leaves_destination (countingService 7)
      (KeyConditionBuilder.KeyEqual "PK" "a") [] [QuerySelectType QuerySelectCount]
      _ { Items := [], Count := some 7 } rfl rfl rfl).2.2.1⟩

/-- C12 (what the code does). For every `Query` call whose expression compiles to `expr`,
the projection expression of every request the call dispatches is the condition clause
`expr.Condition()` of the compiled expression, not its projection clause
`expr.Projection()`. -/
theorem Query_projection_is_condition_clause {R : Type} (rs : Service R)
    (keyCond : KeyConditionBuilder) (out : R) (opts : List QueryOption) (expr : Expression)
    (hbuild : rs.Build (queryBuilder keyCond opts) = Except.ok expr) :
    ∀ input : QueryInput,
      (Event.QueryPages input ∈ (rs.Query keyCond out opts).trace ∨
        Event.Query input ∈ (rs.Query keyCond out opts).trace) →
      input.ProjectionExpression = expr.Condition := by
  intro input
  rw [Query_unfold rs keyCond out opts expr hbuild]
  split
  · split
    · rcases queryData_trace rs
        { rs.queryInput keyCond opts expr with ScanIndexForward := some true } out
        with h | ⟨l, h⟩ <;> simp only [h] <;> rintro (h | h) <;>
        simp at h <;> rw [h] <;> rfl
    · split
      · rcases queryData_trace rs
          { rs.queryInput keyCond opts expr with ScanIndexForward := some false } out
          with h | ⟨l, h⟩ <;> simp only [h] <;> rintro (h | h) <;>
          simp at h <;> rw [h] <;> rfl
      · split
        · split <;> rintro (h | h) <;> simp at h <;> rw [h] <;> rfl
        · rintro (h | h) <;> simp at h
  · rcases queryData_trace rs (rs.queryInput keyCond opts expr) out
      with h | ⟨l, h⟩ <;> simp only [h] <;> rintro (h | h) <;>
      simp at h <;> rw [h] <;> rfl

/-- C12 at the failing input, on the sample service: for a `Query` with the option
`QueryProjection` of the attribute `TestV`, the compiled expression has the projection
clause `TestV`, and the request dispatched has no projection expression. -/
theorem Query_projection_is_condition_clause_witness :
    (∃ expr, sampleBuild (queryBuilder (KeyConditionBuilder.KeyEqual "PK" "a")
        [QueryProjection ⟨["TestV"]⟩]) = Except.ok expr ∧
      expr.Projection = some "TestV") ∧
    (∀ input : QueryInput,
      Event.QueryPages input ∈ (sampleService.Query (KeyConditionBuilder.KeyEqual "PK" "a") []
        [QueryProjection ⟨["TestV"]⟩]).trace →
      input.ProjectionExpression = none) ∧
    (sampleService.Query (KeyConditionBuilder.KeyEqual "PK" "a") []
        [QueryProjection ⟨["TestV"]⟩]).trace =
      [Event.Build
        { keyCondition := some (KeyConditionBuilder.KeyEqual "PK" "a")
          projection := some ⟨["TestV"]⟩ },
       Event.QueryPages
        { TableName := some "T"
          IndexName := none
          KeyConditionExpression := some "PK = a"
          ExpressionAttributeNames := none
          ExpressionAttributeValues := none
          FilterExpression := none
          ProjectionExpression := none
          ConsistentRead := none },
       Event.UnmarshalListOfMaps []] :=
  ⟨⟨_, rfl, rfl⟩,
   fun input h => Query_projection_is_condition_clause sampleService
    (KeyConditionBuilder.KeyEqual "PK" "a") [] [QueryProjection ⟨["TestV"]⟩] _ rfl input
    (Or.inl h),
   rfl⟩

/-! ### GetBatch: pages -/

theorem eachPage_getBatchPage_processed {R : Type} (rs : Service R)
    (pages : List BatchGetItemOutput) (final : Option Error)
    (h : ∀ p ∈ pages, p.UnprocessedKeys = []) :
    ∀ (pageErr : Option Error) (acc : List AttributeMap),
      eachPage rs.getBatchPage pages final (pageErr, acc) =
        ((pageErr, acc ++ concatTableItems rs.TableName pages), final) := by
  induction pages with
  | nil => intro pageErr acc; simp [eachPage, concatTableItems]
  | cons p ps ih =>
    intro pageErr acc
    have hp : p.UnprocessedKeys = [] := h p (List.mem_cons_self _ _)
    have hps : ∀ q ∈ ps, q.UnprocessedKeys = [] := fun q hq => h q (List.mem_cons_of_mem _ hq)
    rw [eachPage]
    cases hl : p.Responses.lookup rs.TableName with
    | none =>
      have hq : ∀ flag, rs.getBatchPage (pageErr, acc) p flag = ((pageErr, acc), true) := by
        intro flag; simp [Service.getBatchPage, hp, hl]
      rw [hq]
      simp only []
      rw [ih hps]
      simp [concatTableItems, tableItems, hl]
    | some items =>
      have hq : ∀ flag, rs.getBatchPage (pageErr, acc) p flag =
          ((pageErr, acc ++ items), true) := by
        intro flag; simp [Service.getBatchPage, hp, hl]
      rw [hq]
      simp only []
      rw [ih hps]
      simp [concatTableItems, tableItems, hl]

theorem eachPage_getBatchPage_unprocessed {R : Type} (rs : Service R)
    (pages : List BatchGetItemOutput) (final : Option Error)
    (h : ∃ p ∈ pages, p.UnprocessedKeys ≠ []) :
    ∀ (pageErr : Option Error) (acc : List AttributeMap),
      ∃ acc2, eachPage rs.getBatchPage pages final (pageErr, acc) =
        ((some Error.ErrBatchGetPage, acc2), none) := by
  induction pages with
  | nil => obtain ⟨p, hp, _⟩ := h; simp at hp
  | cons p ps ih =>
    intro pageErr acc
    rw [eachPage]
    by_cases hp : p.UnprocessedKeys = []
    · have hps : ∃ q ∈ ps, q.UnprocessedKeys ≠ [] := by
        obtain ⟨q, hq, hne⟩ := h
        rcases List.mem_cons.1 hq with rfl | hq
        · exact absurd hp hne
        · exact ⟨q, hq, hne⟩
      cases hl : p.Responses.lookup rs.TableName with
      | none =>
        have hq : ∀ flag, rs.getBatchPage (pageErr, acc) p flag = ((pageErr, acc), true) := by
          intro flag; simp [Service.getBatchPage, hp, hl]
        rw [hq]
        exact ih hps _ _
      | some items =>
        have hq : ∀ flag, rs.getBatchPage (pageErr, acc) p flag =
            ((pageErr, acc ++ items), true) := by
          intro flag; simp [Service.getBatchPage, hp, hl]
        rw [hq]
        exact ih hps _ _
    · have hlen : p.UnprocessedKeys.length > 0 := List.length_pos.2 hp
      have hq : ∀ flag, rs.getBatchPage (pageErr, acc) p flag =
          ((some Error.ErrBatchGetPage, acc), false) := by
        intro flag; simp [Service.getBatchPage, hlen]
      rw [hq]
      exact ⟨acc, rfl⟩

theorem eachPage_getBatchPage_stops {R : Type} (rs : Service R)
    (pre post : List BatchGetItemOutput) (p : BatchGetItemOutput) (final : Option Error)
    (hp : p.UnprocessedKeys ≠ []) :
    ∀ s : Option Error × List AttributeMap,
      eachPage rs.getBatchPage (pre ++ p :: post) final s =
        eachPage rs.getBatchPage (pre ++ [p]) none s := by
  have hlen : p.UnprocessedKeys.length > 0 := List.length_pos.2 hp
  induction pre with
  | nil =>
    intro s
    obtain ⟨pageErr, acc⟩ := s
    have hq : ∀ flag, rs.getBatchPage (pageErr, acc) p flag =
        ((some Error.ErrBatchGetPage, acc), false) := by
      intro flag; simp [Service.getBatchPage, hlen]
    simp only [List.nil_append]
    rw [eachPage, eachPage, hq, hq]
  | cons q qs ih =>
    intro s
    simp only [List.cons_append]
    rw [eachPage, eachPage]
    have hflag : ∀ flag, (rs.getBatchPage s q flag) = rs.getBatchPage s q true := by
      intro flag
      obtain ⟨pageErr, acc⟩ := s
      rfl
    rw [hflag, hflag ((qs ++ [p]).isEmpty && (none : Option Error).isNone)]
    cases hr : rs.getBatchPage s q true with
    | mk s1 cont =>
      cases cont with
      | true => exact ih s1
      | false => rfl

theorem GetBatch_after_read {R : Type} (rs : Service R) (keys : List PrimaryKeyType)
    (out : R) (opts : List GetOption) (input : BatchGetItemInput)
    (pages : List BatchGetItemOutput) (final : Option Error)
    (hmem : Event.BatchGetItemPages input ∈ (rs.GetBatch keys out opts).trace)
    (hback : rs.dynamo.BatchGetItemPages input = (pages, final)) :
    (∀ s err, eachPage rs.getBatchPage pages final (none, []) = (s, some err) →
      (rs.GetBatch keys out opts).err = some err ∧
      (rs.GetBatch keys out opts).out = out ∧
      ∀ x ∈ (rs.GetBatch keys out opts).trace, x.isCodec = false) ∧
    (∀ pageErr all, eachPage rs.getBatchPage pages final (none, []) =
        ((some pageErr, all), none) →
      (rs.GetBatch keys out opts).err = some pageErr ∧
      (rs.GetBatch keys out opts).out = out ∧
      ∀ x ∈ (rs.GetBatch keys out opts).trace, x.isCodec = false) ∧
    (∀ all, eachPage rs.getBatchPage pages final (none, []) = ((none, all), none) →
      (rs.GetBatch keys out opts).err = (rs.codec.UnmarshalListOfMaps all out).2 ∧
      (rs.GetBatch keys out opts).out = (rs.codec.UnmarshalListOfMaps all out).1 ∧
      decodedLists (rs.GetBatch keys out opts).trace = [all]) := by
  revert hmem
  unfold Service.GetBatch Service.buildIfSet
  split
  · simp
  · simp only []
    generalize (List.foldl (fun options opt => opt options) defaultGetOptions opts) = options
    cases options.builder <;> simp only []
    all_goals repeat' split
    all_goals intro hmem
    all_goals try simp only [Prod.mk.injEq] at *
    all_goals try casesm* _ ∧ _
    all_goals subst_vars
    all_goals simp_all [Event.isCodec, decodedLists]

/-- C14. When the paged read that `GetBatch` dispatched is answered with the pages `pages`:
if some page reports a non-empty set of unprocessed keys, `GetBatch` returns
`ErrBatchGetPage`, leaves the destination and calls no codec, and the pages after the
first such page play no part (the paging stops there); if no page reports unprocessed
keys and the paging ends without error, the one list handed to the codec is the
concatenation in page order of every page's items for this service's table, and
`GetBatch` returns what the codec returns for it. -/
theorem GetBatch_pages {R : Type} (rs : Service R) (keys : List PrimaryKeyType)
    (out : R) (opts : List GetOption) (input : BatchGetItemInput)
    (pages : List BatchGetItemOutput) (final : Option Error)
    (hmem : Event.BatchGetItemPages input ∈ (rs.GetBatch keys out opts).trace)
    (hback : rs.dynamo.BatchGetItemPages input = (pages, final)) :
    ((∃ p ∈ pages, p.UnprocessedKeys ≠ []) →
      (rs.GetBatch keys out opts).err = some Error.ErrBatchGetPage ∧
      (rs.GetBatch keys out opts).out = out ∧
      ∀ x ∈ (rs.GetBatch keys out opts).trace, x.isCodec = false) ∧
    (∀ (pre post : List BatchGetItemOutput) (p : BatchGetItemOutput),
      pages = pre ++ p :: post → p.UnprocessedKeys ≠ [] →
      eachPage rs.getBatchPage pages final (none, []) =
        eachPage rs.getBatchPage (pre ++ [p]) none (none, [])) ∧
    ((∀ p ∈ pages, p.UnprocessedKeys = []) → final = none →
      (rs.GetBatch keys out opts).err =
        (rs.codec.UnmarshalListOfMaps (concatTableItems rs.TableName pages) out).2 ∧
      (rs.GetBatch keys out opts).out =
        (rs.codec.UnmarshalListOfMaps (concatTableItems rs.TableName pages) out).1 ∧
      decodedLists (rs.GetBatch keys out opts).trace =
        [concatTableItems rs.TableName pages]) := by
  have hcases := GetBatch_after_read rs keys out opts input pages final hmem hback
  refine ⟨?_, ?_, ?_⟩
  · intro hun
    obtain ⟨acc2, hrun⟩ := eachPage_getBatchPage_unprocessed rs pages final hun none []
    exact hcases.2.1 _ _ hrun
  · intro pre post p hpages hp
    rw [hpages]
    exact eachPage_getBatchPage_stops rs pre post p final hp _
  · intro hall hfinal
    have hrun := eachPage_getBatchPage_processed rs pages final hall none []
    rw [hfinal, List.nil_append] at hrun
    rw [hfinal] at hcases
    exact hcases.2.2 _ hrun

/-- C14 at concrete inputs, on the sample service with table `T`: when the second of three
pages reports an unprocessed key, `GetBatch` returns `ErrBatchGetPage` and the
destination is untouched; when two pages are fully processed, the list handed to the
codec holds their items in page order. -/
theorem GetBatch_pages_witness :
    ((batchPagedService [processedPage "a", unprocessedPage "b", processedPage "c"]).GetBatch
        [PrimaryKey "a" "x"] [] []).err = some Error.ErrBatchGetPage ∧
    ((batchPagedService [processedPage "a", unprocessedPage "b", processedPage "c"]).GetBatch
        [PrimaryKey "a" "x"] [] []).out = [] ∧
    decodedLists ((batchPagedService [processedPage "a", processedPage "b"]).GetBatch
        [PrimaryKey "a" "x"] [] []).trace = [[PrimaryKey "a" "x", PrimaryKey "b" "x"]] :=
  ⟨((GetBatch_pages (batchPagedService [processedPage "a", unprocessedPage "b",
        processedPage "c"]) [PrimaryKey "a" "x"] [] [] _ _ none (List.Mem.head _) rfl).1
      ⟨unprocessedPage "b", List.Mem.tail _ (List.Mem.head _), by
        simp [unprocessedPage]⟩).1,
   ((GetBatch_pages (batchPagedService [processedPage "a", unprocessedPage "b",
        processedPage "c"]) [PrimaryKey "a" "x"] [] [] _ _ none (List.Mem.head _) rfl).1
      ⟨unprocessedPage "b", List.Mem.tail _ (List.Mem.head _), by
        simp [unprocessedPage]⟩).2.1,
   ((GetBatch_pages (batchPagedService [processedPage "a", processedPage "b"])
        [PrimaryKey "a" "x"] [] [] _ _ none (List.Mem.head _) rfl).2.2
      (by simp [processedPage]) rfl).2.2⟩

/-! ### Transact: failing steps -/

theorem buildIfSet_error_fails {R : Type} (rs : Service R) (b : Option Builder)
    (e : Error) (ev : List (Event R))
    (h : rs.buildIfSet b = (Except.error e, ev)) : CompileFails rs b e := by
  cases b with
  | none => simp [Service.buildIfSet] at h
  | some b =>
    simp only [Service.buildIfSet, Prod.mk.injEq] at h
    exact ⟨b, rfl, h.1⟩

theorem buildIfSet_ok_not_fails {R : Type} (rs : Service R) (b : Option Builder)
    (expr : Expression) (ev : List (Event R))
    (h : rs.buildIfSet b = (Except.ok expr, ev)) : ∀ e, ¬ CompileFails rs b e := by
  rintro e ⟨bb, rfl, hb⟩
  simp only [Service.buildIfSet, Prod.mk.injEq] at h
  rw [hb] at h
  exact Except.noConfusion h.1

theorem transactUpdateLoop_error_fails {R : Type} (rs : Service R)
    (l : List TransactUpdateItem) :
    ∀ (i : Nat) (inItems : List (Option TransactWriteItem)) (e : Error)
      (ev : List (Event R)),
      rs.transactUpdateLoop i l inItems = (Except.error e, ev) →
      ∃ u ∈ l, CompileFails rs u.Builder e := by
  induction l with
  | nil => intro i inItems e ev h; simp [Service.transactUpdateLoop] at h
  | cons update rest ih =>
    intro i inItems e ev h
    unfold Service.transactUpdateLoop at h
    split at h
    · rename_i e1 ev1 hb
      simp only [Prod.mk.injEq, Except.error.injEq] at h
      rw [← h.1]
      exact ⟨update, List.mem_cons_self _ _, buildIfSet_error_fails rs _ _ _ hb⟩
    · split at h
      rename_i r ev2 hr
      simp only [Prod.mk.injEq] at h
      rw [h.1] at hr
      obtain ⟨u, hu, hf⟩ := ih _ _ _ _ hr
      exact ⟨u, List.mem_cons_of_mem _ hu, hf⟩

theorem transactUpdateLoop_ok_not_fails {R : Type} (rs : Service R)
    (l : List TransactUpdateItem) :
    ∀ (i : Nat) (inItems items : List (Option TransactWriteItem)) (ev : List (Event R)),
      rs.transactUpdateLoop i l inItems = (Except.ok items, ev) →
      ∀ u ∈ l, ∀ e, ¬ CompileFails rs u.Builder e := by
  induction l with
  | nil => intro i inItems items ev _ u hu; simp at hu
  | cons update rest ih =>
    intro i inItems items ev h u hu
    unfold Service.transactUpdateLoop at h
    split at h
    · simp at h
    · rename_i expr ev1 hb
      split at h
      rename_i r ev2 hr
      simp only [Prod.mk.injEq] at h
      rw [h.1] at hr
      rcases List.mem_cons.1 hu with rfl | hu
      · exact buildIfSet_ok_not_fails rs _ _ _ hb
      · exact ih _ _ _ _ hr u hu

theorem transactDeleteLoop_error_fails {R : Type} (rs : Service R)
    (l : List TransactDeleteItem) :
    ∀ (i : Nat) (inItems : List (Option TransactWriteItem)) (e : Error)
      (ev : List (Event R)),
      rs.transactDeleteLoop i l inItems = (Except.error e, ev) →
      ∃ d ∈ l, CompileFails rs d.Builder e := by
  induction l with
  | nil => intro i inItems e ev h; simp [Service.transactDeleteLoop] at h
  | cons delete rest ih =>
    intro i inItems e ev h
    unfold Service.transactDeleteLoop at h
    split at h
    · rename_i e1 ev1 hb
      simp only [Prod.mk.injEq, Except.error.injEq] at h
      rw [← h.1]
      exact ⟨delete, List.mem_cons_self _ _, buildIfSet_error_fails rs _ _ _ hb⟩
    · split at h
      rename_i r ev2 hr
      simp only [Prod.mk.injEq] at h
      rw [h.1] at hr
      obtain ⟨u, hu, hf⟩ := ih _ _ _ _ hr
      exact ⟨u, List.mem_cons_of_mem _ hu, hf⟩

theorem transactDeleteLoop_ok_not_fails {R : Type} (rs : Service R)
    (l : List TransactDeleteItem) :
    ∀ (i : Nat) (inItems items : List (Option TransactWriteItem)) (ev : List (Event R)),
      rs.transactDeleteLoop i l inItems = (Except.ok items, ev) →
      ∀ d ∈ l, ∀ e, ¬ CompileFails rs d.Builder e := by
  induction l with
  | nil => intro i inItems items ev _ u hu; simp at hu
  | cons delete rest ih =>
    intro i inItems items ev h u hu
    unfold Service.transactDeleteLoop at h
    split at h
    · simp at h
    · rename_i expr ev1 hb
      split at h
      rename_i r ev2 hr
      simp only [Prod.mk.injEq] at h
      rw [h.1] at hr
      rcases List.mem_cons.1 hu with rfl | hu
      · exact buildIfSet_ok_not_fails rs _ _ _ hb
      · exact ih _ _ _ _ hr u hu

theorem transactPutLoop_error_fails {R : Type} (rs : Service R)
    (l : List (TransactPutItem R)) :
    ∀ (i : Nat) (inItems : List (Option TransactWriteItem)) (e : Error)
      (ev : List (Event R)),
      rs.transactPutLoop i l inItems = (Except.error e, ev) →
      ∃ p ∈ l, CompileFails rs p.Builder e ∨ (rs.codec.MarshalMap p.Item).2 = some e := by
  induction l with
  | nil => intro i inItems e ev h; simp [Service.transactPutLoop] at h
  | cons put rest ih =>
    intro i inItems e ev h
    unfold Service.transactPutLoop at h
    split at h
    · rename_i e1 ev1 hb
      simp only [Prod.mk.injEq, Except.error.injEq] at h
      rw [← h.1]
      exact ⟨put, List.mem_cons_self _ _, Or.inl (buildIfSet_error_fails rs _ _ _ hb)⟩
    · split at h
      · rename_i x fst e2 hm
        simp only [Prod.mk.injEq, Except.error.injEq] at h
        rw [← h.1]
        exact ⟨put, List.mem_cons_self _ _, Or.inr (by rw [hm])⟩
      · split at h
        rename_i r ev2 hr
        simp only [Prod.mk.injEq] at h
        rw [h.1] at hr
        obtain ⟨u, hu, hf⟩ := ih _ _ _ _ hr
        exact ⟨u, List.mem_cons_of_mem _ hu, hf⟩

theorem transactPutLoop_ok_not_fails {R : Type} (rs : Service R)
    (l : List (TransactPutItem R)) :
    ∀ (i : Nat) (inItems items : List (Option TransactWriteItem)) (ev : List (Event R)),
      rs.transactPutLoop i l inItems = (Except.ok items, ev) →
      ∀ p ∈ l, ∀ e,
        ¬ (CompileFails rs p.Builder e ∨ (rs.codec.MarshalMap p.Item).2 = some e) := by
  induction l with
  | nil => intro i inItems items ev _ u hu; simp at hu
  | cons put rest ih =>
    intro i inItems items ev h u hu
    unfold Service.transactPutLoop at h
    split at h
    · simp at h
    · rename_i expr ev1 hb
      split at h
      · simp at h
      · rename_i x item hm
        split at h
        rename_i r ev2 hr
        simp only [Prod.mk.injEq] at h
        rw [h.1] at hr
        rcases List.mem_cons.1 hu with rfl | hu
        · intro e hf
          rcases hf with hf | hf
          · exact buildIfSet_ok_not_fails rs _ _ _ hb e hf
          · rw [hm] at hf
            exact Option.noConfusion hf
        · exact ih _ _ _ _ hr u hu

theorem submittedEntries_of_not_backend {R : Type} (tr : List (Event R))
    (h : ∀ x ∈ tr, x.isBackend = false) : submittedEntries tr = [] := by
  induction tr with
  | nil => rfl
  | cons x rest ih =>
    have hx := h x (List.mem_cons_self _ _)
    have hrest : ∀ y ∈ rest, y.isBackend = false := fun y hy => h y (List.mem_cons_of_mem _ hy)
    cases x <;> simp [Event.isBackend] at hx <;> simp [submittedEntries, ih hrest]

/-- C16. For every `Transact` call with a valid total count in which some step of the
assembly fails (the compilation of the expression of an update, put or delete, or the
encoding of the record of a put), `Transact` returns the error of a failing step, issues
no backend call and submits no write group. -/
theorem Transact_failing_step_aborts {R : Type} (rs : Service R)
    (opts : List (TransactOption R))
    (hvalid : 1 ≤ (applyTransactOptions opts).UpdateItems.length
        + (applyTransactOptions opts).PutItems.length
        + (applyTransactOptions opts).DeleteItems.length ∧
      (applyTransactOptions opts).UpdateItems.length
        + (applyTransactOptions opts).PutItems.length
        + (applyTransactOptions opts).DeleteItems.length ≤ 25)
    (hfail : ∃ e, StepFails rs (applyTransactOptions opts) e) :
    (∃ e, StepFails rs (applyTransactOptions opts) e ∧ (rs.Transact opts).err = some e) ∧
    (∀ x ∈ (rs.Transact opts).trace, x.isBackend = false) ∧
    submittedEntries (rs.Transact opts).trace = [] := by
  have key : (∃ e, StepFails rs (applyTransactOptions opts) e ∧
      (rs.Transact opts).err = some e) ∧
      (∀ x ∈ (rs.Transact opts).trace, x.isBackend = false) := by
    revert hvalid hfail
    unfold Service.Transact applyTransactOptions
    simp only []
    generalize (List.foldl (fun options opt => opt options) defaultTransactOptions opts)
      = options
    intro hvalid hfail
    have h0 : ¬ (options.UpdateItems.length + options.PutItems.length
        + options.DeleteItems.length = 0) := by omega
    have h1 : ¬ (options.UpdateItems.length + options.PutItems.length
        + options.DeleteItems.length > maxWriteNum) := by
      simp only [maxWriteNum]; omega
    rw [if_neg h0, if_neg h1]
    split
    · rename_i e1 ev1 hu
      obtain ⟨u, hmem, hf⟩ := transactUpdateLoop_error_fails rs _ _ _ _ _ hu
      exact ⟨⟨e1, Or.inl ⟨u, hmem, hf⟩, rfl⟩,
        transactUpdateLoop_not_backend rs _ _ _ _ _ hu⟩
    · rename_i items1 ev1 hu
      have hnu := transactUpdateLoop_ok_not_fails rs _ _ _ _ _ hu
      have hbu := transactUpdateLoop_not_backend rs _ _ _ _ _ hu
      split
      · rename_i e2 ev2 hp
        obtain ⟨p, hmem, hf⟩ := transactPutLoop_error_fails rs _ _ _ _ _ hp
        have hbp := transactPutLoop_not_backend rs _ _ _ _ _ hp
        refine ⟨⟨e2, Or.inr (Or.inl ⟨p, hmem, hf⟩), rfl⟩, ?_⟩
        intro x hx
        rcases List.mem_append.1 hx with hx | hx
        · exact hbu x hx
        · exact hbp x hx
      · rename_i items2 ev2 hp
        have hnp := transactPutLoop_ok_not_fails rs _ _ _ _ _ hp
        have hbp := transactPutLoop_not_backend rs _ _ _ _ _ hp
        split
        · rename_i e3 ev3 hd
          obtain ⟨d, hmem, hf⟩ := transactDeleteLoop_error_fails rs _ _ _ _ _ hd
          have hbd := transactDeleteLoop_not_backend rs _ _ _ _ _ hd
          refine ⟨⟨e3, Or.inr (Or.inr ⟨d, hmem, hf⟩), rfl⟩, ?_⟩
          intro x hx
          rcases List.mem_append.1 hx with hx | hx
          · rcases List.mem_append.1 hx with hx | hx
            · exact hbu x hx
            · exact hbp x hx
          · exact hbd x hx
        · rename_i items3 ev3 hd
          have hnd := transactDeleteLoop_ok_not_fails rs _ _ _ _ _ hd
          exfalso
          obtain ⟨e, hf⟩ := hfail
          rcases hf with ⟨u, hmem, hf⟩ | ⟨p, hmem, hf⟩ | ⟨d, hmem, hf⟩
          · exact hnu u hmem e hf
          · exact hnp p hmem e hf
          · exact hnd d hmem e hf
  exact ⟨key.1, key.2, submittedEntries_of_not_backend _ key.2⟩

/-- C16 at concrete inputs: on the service whose codec cannot encode, a `Transact` of one
update and one put returns the encoding error; on the sample service, whose compiler
rejects an empty builder, a `Transact` of one update, one put and one delete with an
empty builder returns the compiler's error; neither submits a write group. -/
theorem Transact_failing_step_aborts_witness :
    ((unencodableService (Error.other "cannot encode")).Transact [sampleUpdateAndPut]).err
      = some (Error.other "cannot encode") ∧
    submittedEntries ((unencodableService (Error.other "cannot encode")).Transact
      [sampleUpdateAndPut]).trace = [] ∧
    (sampleService.Transact [sampleUpdateAndPut, sampleDeleteEmptyBuilder]).err
      = some (Error.other "unset parameter: Builder") ∧
    submittedEntries (sampleService.Transact
      [sampleUpdateAndPut, sampleDeleteEmptyBuilder]).trace = [] :=
  ⟨rfl,
   (Transact_failing_step_aborts (unencodableService (Error.other "cannot encode"))
      [sampleUpdateAndPut] ⟨by decide, by decide⟩
      ⟨Error.other "cannot encode",
        Or.inr (Or.inl ⟨{ Item := PrimaryKey "b" "y" }, List.Mem.head _, Or.inr rfl⟩)⟩).2.2,
   rfl,
   (Transact_failing_step_aborts sampleService [sampleUpdateAndPut, sampleDeleteEmptyBuilder]
      ⟨by decide, by decide⟩
      ⟨Error.other "unset parameter: Builder",
        Or.inr (Or.inr ⟨{ Key := PrimaryKey "c" "z", Builder := some {} }, List.Mem.head _,
          ⟨{}, rfl, rfl⟩⟩)⟩).2.2⟩

/-! ### Slots of a write group -/

theorem overlay_nil {α : Type} (ys : List α) : overlay ([] : List (Option α)) ys = [] := by
  cases ys <;> rfl

theorem overlay_empty {α : Type} (xs : List (Option α)) : overlay xs ([] : List α) = xs := by
  cases xs <;> rfl

theorem overlay_length {α : Type} (xs : List (Option α)) :
    ∀ ys : List α, (overlay xs ys).length = xs.length := by
  induction xs with
  | nil => intro ys; rw [overlay_nil]
  | cons x xs ih =>
    intro ys
    cases ys with
    | nil => rfl
    | cons y ys => simp [overlay, ih]

theorem overlay_replicate {α : Type} (ys : List α) :
    overlay (List.replicate ys.length (none : Option α)) ys = ys.map some := by
  induction ys with
  | nil => rfl
  | cons y ys ih => simp [List.replicate, overlay, ih]

theorem overlay_getElem? {α : Type} (xs : List (Option α)) :
    ∀ (ys : List α) (i : Nat),
      (overlay xs ys)[i]? =
        if i < xs.length ∧ i < ys.length then (ys[i]?).map some else xs[i]? := by
  induction xs with
  | nil => intro ys i; rw [overlay_nil]; simp
  | cons x xs ih =>
    intro ys i
    cases ys with
    | nil => simp [overlay]
    | cons y ys =>
      cases i with
      | zero => simp [overlay]
      | succ i =>
        simp only [overlay, List.getElem?_cons_succ, List.length_cons, Nat.add_lt_add_iff_right]
        exact ih ys i

theorem set_after_prefix {α : Type} (pre : List α) (x y : α) (rest : List α) :
    (pre ++ x :: rest).set pre.length y = (pre ++ [y]) ++ rest := by
  induction pre with
  | nil => rfl
  | cons a pre ih => simp [List.set, ih]

theorem deleteBatchLoop_overlay {R : Type} (rs : Service R) (expr : Expression)
    (keys : List PrimaryKeyType) :
    ∀ pre rest : List (Option TransactWriteItem), keys.length ≤ rest.length →
      rs.deleteBatchLoop expr pre.length keys (pre ++ rest) =
        pre ++ overlay rest (keys.map (rs.deleteBatchEntry expr)) := by
  induction keys with
  | nil => intro pre rest _; simp [Service.deleteBatchLoop, overlay_empty]
  | cons key keys ih =>
    intro pre rest hlen
    cases rest with
    | nil => simp at hlen
    | cons x rest =>
      rw [Service.deleteBatchLoop, set_after_prefix]
      have h := ih (pre ++ [some (rs.deleteBatchEntry expr key)]) rest
        (by simpa using hlen)
      simp only [List.length_append, List.length_singleton] at h
      rw [Service.deleteBatchEntry] at h
      rw [h]
      simp [overlay, Service.deleteBatchEntry]

theorem updateBatchLoop_overlay {R : Type} (rs : Service R) (expr : Expression)
    (keys : List PrimaryKeyType) :
    ∀ pre rest : List (Option TransactWriteItem), keys.length ≤ rest.length →
      rs.updateBatchLoop expr pre.length keys (pre ++ rest) =
        pre ++ overlay rest (keys.map (rs.updateBatchEntry expr)) := by
  induction keys with
  | nil => intro pre rest _; simp [Service.updateBatchLoop, overlay_empty]
  | cons key keys ih =>
    intro pre rest hlen
    cases rest with
    | nil => simp at hlen
    | cons x rest =>
      rw [Service.updateBatchLoop, set_after_prefix]
      have h := ih (pre ++ [some (rs.updateBatchEntry expr key)]) rest
        (by simpa using hlen)
      simp only [List.length_append, List.length_singleton] at h
      rw [Service.updateBatchEntry] at h
      rw [h]
      simp [overlay, Service.updateBatchEntry]

theorem putBatchLoop_overlay {R : Type} (rs : Service R) (expr : Expression)
    (ins : List R) :
    ∀ (pre rest items : List (Option TransactWriteItem)) (ev : List (Event R)),
      ins.length ≤ rest.length →
      rs.putBatchLoop expr pre.length ins (pre ++ rest) = (Except.ok items, ev) →
      items = pre ++ overlay rest (ins.map (rs.putBatchEntry expr)) := by
  induction ins with
  | nil =>
    intro pre rest items ev _ h
    simp only [Service.putBatchLoop, Prod.mk.injEq, Except.ok.injEq] at h
    rw [← h.1]; simp [overlay_empty]
  | cons v ins ih =>
    intro pre rest items ev hlen h
    cases rest with
    | nil => simp at hlen
    | cons x rest =>
      rw [Service.putBatchLoop] at h
      split at h
      · simp at h
      · rename_i y item hm
        split at h
        rename_i r ev1 hr
        simp only [Prod.mk.injEq] at h
        rw [h.1, set_after_prefix] at hr
        have hi := ih (pre ++ [some (rs.putBatchEntry expr v)]) rest items ev1
          (by simpa using hlen)
        simp only [List.length_append, List.length_singleton] at hi
        rw [Service.putBatchEntry, hm] at hi
        rw [hi hr]
        simp [overlay, Service.putBatchEntry, hm]

theorem putBatchLoop_ok {R : Type} (rs : Service R) (expr : Expression) (ins : List R)
    (henc : ∀ v ∈ ins, (rs.codec.MarshalMap v).2 = none) :
    ∀ (i : Nat) (inItems : List (Option TransactWriteItem)),
      ∃ items, rs.putBatchLoop expr i ins inItems =
        (Except.ok items, ins.map (fun v => Event.MarshalMap v)) := by
  induction ins with
  | nil => intro i inItems; exact ⟨inItems, rfl⟩
  | cons v ins ih =>
    intro i inItems
    have hv := henc v (List.mem_cons_self _ _)
    have hrest : ∀ w ∈ ins, (rs.codec.MarshalMap w).2 = none :=
      fun w hw => henc w (List.mem_cons_of_mem _ hw)
    rw [Service.putBatchLoop]
    cases hm : rs.codec.MarshalMap v with
    | mk item merr =>
      rw [hm] at hv
      simp only [] at hv
      subst hv
      simp only []
      obtain ⟨items, hi⟩ := ih hrest (i + 1) (inItems.set i (some
        { Put := some
            { TableName := rs.tableName
              Item := item
              ConditionExpression := expr.Condition
              ExpressionAttributeNames := expr.Names
              ExpressionAttributeValues := expr.Values } }))
      exact ⟨items, by rw [hi]; rfl⟩

/-! ### Batch writes: the write group -/

theorem DeleteBatch_group {R : Type} (rs : Service R) (keys : List PrimaryKeyType)
    (opts : List DeleteOption) (expr : Expression)
    (hvalid : 1 ≤ keys.length ∧ keys.length ≤ 25)
    (hbuild : (rs.buildIfSet (applyDeleteOptions opts).builder).1 = Except.ok expr) :
    ∃ ev : List (Event R), (∀ x ∈ ev, x.isBackend = false) ∧
      (rs.DeleteBatch keys opts).trace = ev ++ [Event.TransactWriteItems
        { TransactItems := keys.map (fun key => some (rs.deleteBatchEntry expr key)) }] := by
  have hloop := deleteBatchLoop_overlay rs expr keys []
    (List.replicate keys.length none) (by simp)
  rw [← List.length_map keys (rs.deleteBatchEntry expr), overlay_replicate,
    List.length_map, List.map_map] at hloop
  simp only [List.length_nil, List.nil_append] at hloop
  revert hbuild
  unfold Service.DeleteBatch applyDeleteOptions
  have hv : ¬ (keys.length = 0 ∨ keys.length > maxWriteNum) := by
    simp only [maxWriteNum]; omega
  rw [if_neg hv]
  simp only []
  generalize (List.foldl (fun options opt => opt options) defaultDeleteOptions opts).builder
    = ob
  cases hb : rs.buildIfSet ob with
  | mk r ev =>
    intro hbuild
    simp only [] at hbuild
    subst hbuild
    simp only [hloop]
    refine ⟨ev, buildIfSet_not_backend rs _ _ _ hb, ?_⟩
    split <;> rfl

theorem UpdateBatch_group {R : Type} (rs : Service R) (keys : List PrimaryKeyType)
    (update : UpdateBuilder) (opts : List UpdateOption) (expr : Expression)
    (hvalid : 1 ≤ keys.length ∧ keys.length ≤ 25)
    (hbuild : rs.Build (updateBatchBuilder update opts) = Except.ok expr) :
    (rs.UpdateBatch keys update opts).trace =
      [Event.Build (updateBatchBuilder update opts),
        Event.TransactWriteItems
          { TransactItems := keys.map (fun key => some (rs.updateBatchEntry expr key)) }] := by
  have hloop := updateBatchLoop_overlay rs expr keys []
    (List.replicate keys.length none) (by simp)
  rw [← List.length_map keys (rs.updateBatchEntry expr), overlay_replicate,
    List.length_map, List.map_map] at hloop
  simp only [List.length_nil, List.nil_append] at hloop
  have hb : rs.Build ((match (List.foldl (fun (options : UpdateOptions)
      (opt : UpdateOption) => opt options) defaultUpdateOptions opts).builder with
      | none => NewBuilder
      | some b => b).WithUpdate update) = Except.ok expr := hbuild
  unfold Service.UpdateBatch
  have hv : ¬ (keys.length = 0 ∨ keys.length > maxWriteNum) := by
    simp only [maxWriteNum]; omega
  rw [if_neg hv]
  simp only []
  rw [hb]
  simp only [hloop]
  split <;> rfl

theorem PutBatch_group {R : Type} (rs : Service R) (ins : List R)
    (opts : List PutOption) (expr : Expression)
    (hvalid : 1 ≤ ins.length ∧ ins.length ≤ 25)
    (hbuild : (rs.buildIfSet (applyPutOptions opts).builder).1 = Except.ok expr)
    (henc : ∀ v ∈ ins, (rs.codec.MarshalMap v).2 = none) :
    ∃ ev : List (Event R), (∀ x ∈ ev, x.isBackend = false) ∧
      (rs.PutBatch ins opts).trace = ev ++ [Event.TransactWriteItems
        { TransactItems := ins.map (fun v => some (rs.putBatchEntry expr v)) }] := by
  obtain ⟨items, hok⟩ := putBatchLoop_ok rs expr ins henc 0 (List.replicate ins.length none)
  have hitems := putBatchLoop_overlay rs expr ins [] (List.replicate ins.length none)
    items _ (by simp) hok
  rw [← List.length_map ins (rs.putBatchEntry expr), overlay_replicate,
    List.map_map, List.nil_append] at hitems
  revert hbuild
  unfold Service.PutBatch applyPutOptions
  have hv : ¬ (ins.length = 0 ∨ ins.length > maxWriteNum) := by
    simp only [maxWriteNum]; omega
  rw [if_neg hv]
  simp only []
  generalize (List.foldl (fun options opt => opt options) defaultPutOptions opts).builder
    = ob
  cases hb : rs.buildIfSet ob with
  | mk r ev =>
    intro hbuild
    simp only [] at hbuild
    subst hbuild
    simp only [hok, hitems]
    refine ⟨ev ++ ins.map (fun v => Event.MarshalMap v), ?_, ?_⟩
    · intro x hx
      rcases List.mem_append.1 hx with hx | hx
      · exact buildIfSet_not_backend rs _ _ _ hb x hx
      · obtain ⟨v, _, rfl⟩ := List.mem_map.1 hx
        rfl
    · split <;> rfl

/-- C15 (as amended). For every valid input list (1 to 25 entries) of `DeleteBatch`,
`PutBatch` or `UpdateBatch` on which compilation and encoding succeed, the call issues
exactly one backend request, a transact-write whose entry list has one entry per input,
the i-th being the delete, put or update of the i-th input key or encoded record on this
service's table, every entry carrying the condition expression, name map and value map
of the one compiled expression. In `DeleteBatch` and `PutBatch` without option the three
are absent in all entries; `UpdateBatch` always compiles its update clause and its
entries carry what that compilation returns. -/
theorem batch_writes_submit_one_group {R : Type} (rs : Service R) :
    (∀ (keys : List PrimaryKeyType) (opts : List DeleteOption) (expr : Expression),
      (1 ≤ keys.length ∧ keys.length ≤ 25) →
      (rs.buildIfSet (applyDeleteOptions opts).builder).1 = Except.ok expr →
      ∃ ev : List (Event R), (∀ x ∈ ev, x.isBackend = false) ∧
        (rs.DeleteBatch keys opts).trace = ev ++ [Event.TransactWriteItems
          { TransactItems := keys.map (fun key => some (rs.deleteBatchEntry expr key)) }]) ∧
    (∀ (ins : List R) (opts : List PutOption) (expr : Expression),
      (1 ≤ ins.length ∧ ins.length ≤ 25) →
      (rs.buildIfSet (applyPutOptions opts).builder).1 = Except.ok expr →
      (∀ v ∈ ins, (rs.codec.MarshalMap v).2 = none) →
      ∃ ev : List (Event R), (∀ x ∈ ev, x.isBackend = false) ∧
        (rs.PutBatch ins opts).trace = ev ++ [Event.TransactWriteItems
          { TransactItems := ins.map (fun v => some (rs.putBatchEntry expr v)) }]) ∧
    (∀ (keys : List PrimaryKeyType) (update : UpdateBuilder) (opts : List UpdateOption)
        (expr : Expression),
      (1 ≤ keys.length ∧ keys.length ≤ 25) →
      rs.Build (updateBatchBuilder update opts) = Except.ok expr →
      (rs.UpdateBatch keys update opts).trace =
        [Event.Build (updateBatchBuilder update opts),
          Event.TransactWriteItems
            { TransactItems :=
                keys.map (fun key => some (rs.updateBatchEntry expr key)) }]) ∧
    (∀ keys : List PrimaryKeyType, (1 ≤ keys.length ∧ keys.length ≤ 25) →
      (rs.DeleteBatch keys []).trace = [Event.TransactWriteItems
        { TransactItems := keys.map (fun key => some
            { Delete := some
                { TableName := rs.tableName
                  Key := key
                  ConditionExpression := none
                  ExpressionAttributeNames := none
                  ExpressionAttributeValues := none } }) }]) ∧
    (∀ ins : List R, (1 ≤ ins.length ∧ ins.length ≤ 25) →
      (∀ v ∈ ins, (rs.codec.MarshalMap v).2 = none) →
      submittedEntries (rs.PutBatch ins []).trace =
        [ins.map (fun v => some
          { Put := some
              { TableName := rs.tableName
                Item := (rs.codec.MarshalMap v).1
                ConditionExpression := none
                ExpressionAttributeNames := none
                ExpressionAttributeValues := none } })]) := by
  refine ⟨fun keys opts expr hv hb => DeleteBatch_group rs keys opts expr hv hb,
    fun ins opts expr hv hb he => PutBatch_group rs ins opts expr hv hb he,
    fun keys update opts expr hv hb => UpdateBatch_group rs keys update opts expr hv hb,
    ?_, ?_⟩
  · intro keys hv
    have hloop := deleteBatchLoop_overlay rs {} keys []
      (List.replicate keys.length none) (by simp)
    rw [← List.length_map keys (rs.deleteBatchEntry {}), overlay_replicate,
      List.length_map, List.map_map] at hloop
    simp only [List.length_nil, List.nil_append] at hloop
    unfold Service.DeleteBatch
    have hv2 : ¬ (keys.length = 0 ∨ keys.length > maxWriteNum) := by
      simp only [maxWriteNum]; omega
    rw [if_neg hv2]
    simp only [List.foldl_nil, defaultDeleteOptions, Service.buildIfSet, hloop,
      List.nil_append]
    split <;> rfl
  · intro ins hv he
    obtain ⟨ev, hev, ht⟩ := PutBatch_group rs ins [] {} hv rfl he
    rw [ht]
    have hsub : ∀ (tr : List (Event R)) (input : TransactWriteItemsInput),
        (∀ x ∈ tr, x.isBackend = false) →
        submittedEntries (tr ++ [Event.TransactWriteItems input])
          = [input.TransactItems] := by
      intro tr input
      induction tr with
      | nil => intro _; rfl
      | cons x rest ih =>
        intro h
        have hx := h x (List.mem_cons_self _ _)
        have hrest : ∀ y ∈ rest, y.isBackend = false :=
          fun y hy => h y (List.mem_cons_of_mem _ hy)
        cases x <;> simp [Event.isBackend] at hx <;>
          simp [submittedEntries, ih hrest]
    rw [hsub ev _ hev]
    rfl

/-- C15 as amended, at concrete inputs, on the sample service: a `DeleteBatch` of two keys
without option submits one write group of two deletes, in input order, without condition
expression, name map or value map. -/
theorem batch_writes_submit_one_group_witness :
    (sampleService.DeleteBatch [PrimaryKey "a" "x", PrimaryKey "b" "y"] []).trace =
      [Event.TransactWriteItems
        { TransactItems :=
            [some { Delete := some
                      { TableName := some "T"
                        Key := PrimaryKey "a" "x"
                        ConditionExpression := none
                        ExpressionAttributeNames := none
                        ExpressionAttributeValues := none } },
             some { Delete := some
                      { TableName := some "T"
                        Key := PrimaryKey "b" "y"
                        ConditionExpression := none
                        ExpressionAttributeNames := none
                        ExpressionAttributeValues := none } }] }] :=
  (batch_writes_submit_one_group sampleService).2.2.2.1
    [PrimaryKey "a" "x", PrimaryKey "b" "y"] ⟨by decide, by decide⟩

/-- C15 (counterexample to the claim as stated). On the service whose compiler returns the
placeholder maps of an update clause, as the SDK does, an `UpdateBatch` of one key with
the update `TestV = v3` and no condition option submits an entry that has no condition
expression but carries a name map and a value map: they are not absent although no
condition option was supplied. -/
theorem UpdateBatch_without_condition_carries_maps :
    submittedEntries (aliasingService.UpdateBatch [PrimaryKey "a" "x"]
        ⟨[("TestV", "v3")]⟩ []).trace =
      [[some { Update := some
                { TableName := some "T"
                  Key := PrimaryKey "a" "x"
                  UpdateExpression := some "SET #TestV = :TestV"
                  ConditionExpression := none
                  ExpressionAttributeNames := some [("#TestV", "TestV")]
                  ExpressionAttributeValues := some [(":TestV", AttributeValue.S "v3")] } }]] ∧
    (some [("#TestV", "TestV")] : Option (List (String × String))) ≠ none := by
  refine ⟨rfl, by simp⟩

/-! ### Transact: the slot layout -/

theorem transactUpdateLoop_overlay {R : Type} (rs : Service R)
    (l : List TransactUpdateItem) :
    ∀ (pre rest items : List (Option TransactWriteItem)) (ev : List (Event R)),
      l.length ≤ rest.length →
      rs.transactUpdateLoop pre.length l (pre ++ rest) = (Except.ok items, ev) →
      items = pre ++ overlay rest (l.map rs.transactUpdateEntry) := by
  induction l with
  | nil =>
    intro pre rest items ev _ h
    simp only [Service.transactUpdateLoop, Prod.mk.injEq, Except.ok.injEq] at h
    rw [← h.1]; simp [overlay_empty]
  | cons update l ih =>
    intro pre rest items ev hlen h
    cases rest with
    | nil => simp at hlen
    | cons x rest =>
      rw [Service.transactUpdateLoop] at h
      split at h
      · simp at h
      · rename_i expr ev1 hb
        split at h
        rename_i r ev2 hr
        simp only [Prod.mk.injEq] at h
        rw [h.1, set_after_prefix] at hr
        have hi := ih (pre ++ [some (rs.transactUpdateEntry update)]) rest items ev2
          (by simpa using hlen)
        simp only [List.length_append, List.length_singleton] at hi
        rw [Service.transactUpdateEntry, Service.exprOf, hb] at hi
        rw [hi hr]
        simp [overlay, Service.transactUpdateEntry, Service.exprOf, hb]

theorem transactPutLoop_overlay {R : Type} (rs : Service R)
    (l : List (TransactPutItem R)) :
    ∀ (pre rest items : List (Option TransactWriteItem)) (ev : List (Event R)),
      l.length ≤ rest.length →
      rs.transactPutLoop pre.length l (pre ++ rest) = (Except.ok items, ev) →
      items = pre ++ overlay rest (l.map rs.transactPutEntry) := by
  induction l with
  | nil =>
    intro pre rest items ev _ h
    simp only [Service.transactPutLoop, Prod.mk.injEq, Except.ok.injEq] at h
    rw [← h.1]; simp [overlay_empty]
  | cons put l ih =>
    intro pre rest items ev hlen h
    cases rest with
    | nil => simp at hlen
    | cons x rest =>
      rw [Service.transactPutLoop] at h
      split at h
      · simp at h
      · rename_i expr ev1 hb
        split at h
        · simp at h
        · rename_i y item hm
          split at h
          rename_i r ev2 hr
          simp only [Prod.mk.injEq] at h
          rw [h.1, set_after_prefix] at hr
          have hi := ih (pre ++ [some (rs.transactPutEntry put)]) rest items ev2
            (by simpa using hlen)
          simp only [List.length_append, List.length_singleton] at hi
          rw [Service.transactPutEntry, Service.exprOf, hb, hm] at hi
          rw [hi hr]
          simp [overlay, Service.transactPutEntry, Service.exprOf, hb, hm]

theorem transactDeleteLoop_overlay {R : Type} (rs : Service R)
    (l : List TransactDeleteItem) :
    ∀ (pre rest items : List (Option TransactWriteItem)) (ev : List (Event R)),
      l.length ≤ rest.length →
      rs.transactDeleteLoop pre.length l (pre ++ rest) = (Except.ok items, ev) →
      items = pre ++ overlay rest (l.map rs.transactDeleteEntry) := by
  induction l with
  | nil =>
    intro pre rest items ev _ h
    simp only [Service.transactDeleteLoop, Prod.mk.injEq, Except.ok.injEq] at h
    rw [← h.1]; simp [overlay_empty]
  | cons delete l ih =>
    intro pre rest items ev hlen h
    cases rest with
    | nil => simp at hlen
    | cons x rest =>
      rw [Service.transactDeleteLoop] at h
      split at h
      · simp at h
      · rename_i expr ev1 hb
        split at h
        rename_i r ev2 hr
        simp only [Prod.mk.injEq] at h
        rw [h.1, set_after_prefix] at hr
        have hi := ih (pre ++ [some (rs.transactDeleteEntry delete)]) rest items ev2
          (by simpa using hlen)
        simp only [List.length_append, List.length_singleton] at hi
        rw [Service.transactDeleteEntry, Service.exprOf, hb] at hi
        rw [hi hr]
        simp [overlay, Service.transactDeleteEntry, Service.exprOf, hb]

theorem submittedEntries_append_single {R : Type} (tr : List (Event R))
    (input : TransactWriteItemsInput) (h : ∀ x ∈ tr, x.isBackend = false) :
    submittedEntries (tr ++ [Event.TransactWriteItems input]) = [input.TransactItems] := by
  induction tr with
  | nil => rfl
  | cons x rest ih =>
    have hx := h x (List.mem_cons_self _ _)
    have hrest : ∀ y ∈ rest, y.isBackend = false :=
      fun y hy => h y (List.mem_cons_of_mem _ hy)
    cases x <;> simp [Event.isBackend] at hx <;> simp [submittedEntries, ih hrest]

theorem countP_lt_range (m : Nat) :
    ∀ n : Nat, (List.range n).countP (fun i => decide (i < m)) = min m n := by
  intro n
  induction n with
  | zero => simp
  | succ n ih =>
    rw [List.range_succ, List.countP_append, ih]
    by_cases h : n < m
    · simp [List.countP_cons, h]; omega
    · simp [List.countP_cons, h]; omega

theorem transactLayout_eq_overlay {R : Type} (rs : Service R) (options : TransactOptions R) :
    overlay (overlay (overlay
        (List.replicate (options.UpdateItems.length + options.PutItems.length
          + options.DeleteItems.length) none)
        (options.UpdateItems.map rs.transactUpdateEntry))
        (options.PutItems.map rs.transactPutEntry))
        (options.DeleteItems.map rs.transactDeleteEntry) = rs.transactLayout options := by
  apply List.ext_getElem?
  intro i
  rw [overlay_getElem?, overlay_getElem?, overlay_getElem?]
  simp only [overlay_length, List.length_replicate, List.length_map, List.getElem?_map,
    Service.transactLayout]
  by_cases hi : i < options.UpdateItems.length + options.PutItems.length
      + options.DeleteItems.length
  · rw [List.getElem?_range hi]
    simp only [Option.map_some', hi, true_and]
    by_cases hd : i < options.DeleteItems.length
    · simp [hd, List.getElem?_eq_getElem hd]
    · by_cases hp : i < options.PutItems.length
      · simp [hd, hp, List.getElem?_eq_getElem hp]
      · by_cases hu : i < options.UpdateItems.length
        · simp [hd, hp, hu, List.getElem?_eq_getElem hu]
        · simp [hd, hp, hu, hi]
  · have hd : ¬ i < options.DeleteItems.length := by omega
    have hp : ¬ i < options.PutItems.length := by omega
    have hu : ¬ i < options.UpdateItems.length := by omega
    have hr : (List.range (options.UpdateItems.length + options.PutItems.length
        + options.DeleteItems.length))[i]? = none :=
      List.getElem?_eq_none (by simpa using Nat.le_of_not_lt hi)
    simp [hi, hd, hp, hu, hr]
    omega

theorem Transact_assembled {R : Type} (rs : Service R) (opts : List (TransactOption R))
    (hvalid : 1 ≤ (applyTransactOptions opts).UpdateItems.length
        + (applyTransactOptions opts).PutItems.length
        + (applyTransactOptions opts).DeleteItems.length ∧
      (applyTransactOptions opts).UpdateItems.length
        + (applyTransactOptions opts).PutItems.length
        + (applyTransactOptions opts).DeleteItems.length ≤ 25)
    (hsteps : ∀ e, ¬ StepFails rs (applyTransactOptions opts) e) :
    ∃ ev : List (Event R), (∀ x ∈ ev, x.isBackend = false) ∧
      (rs.Transact opts).trace = ev ++ [Event.TransactWriteItems
        { TransactItems := rs.transactLayout (applyTransactOptions opts) }] := by
  rw [← transactLayout_eq_overlay]
  revert hvalid hsteps
  unfold Service.Transact applyTransactOptions
  simp only []
  generalize (List.foldl (fun options opt => opt options) defaultTransactOptions opts)
    = options
  intro hvalid hsteps
  have h0 : ¬ (options.UpdateItems.length + options.PutItems.length
      + options.DeleteItems.length = 0) := by omega
  have h1 : ¬ (options.UpdateItems.length + options.PutItems.length
      + options.DeleteItems.length > maxWriteNum) := by
    simp only [maxWriteNum]; omega
  rw [if_neg h0, if_neg h1]
  cases hU : rs.transactUpdateLoop 0 options.UpdateItems
      (List.replicate (options.UpdateItems.length + options.PutItems.length
        + options.DeleteItems.length) none) with
  | mk r1 ev1 =>
    cases r1 with
    | error e =>
      obtain ⟨u, hmem, hf⟩ := transactUpdateLoop_error_fails rs _ _ _ _ _ hU
      exact absurd (Or.inl ⟨u, hmem, hf⟩) (hsteps e)
    | ok items1 =>
      have hi1 := transactUpdateLoop_overlay rs options.UpdateItems []
        (List.replicate (options.UpdateItems.length + options.PutItems.length
          + options.DeleteItems.length) none) items1 ev1
        (by rw [List.length_replicate]; omega) hU
      rw [List.nil_append] at hi1
      have hb1 := transactUpdateLoop_not_backend rs _ _ _ _ _ hU
      have hl1 : items1.length = options.UpdateItems.length + options.PutItems.length
          + options.DeleteItems.length := by
        rw [hi1, overlay_length, List.length_replicate]
      simp only []
      cases hP : rs.transactPutLoop 0 options.PutItems items1 with
      | mk r2 ev2 =>
        cases r2 with
        | error e =>
          obtain ⟨p, hmem, hf⟩ := transactPutLoop_error_fails rs _ _ _ _ _ hP
          exact absurd (Or.inr (Or.inl ⟨p, hmem, hf⟩)) (hsteps e)
        | ok items2 =>
          have hi2 := transactPutLoop_overlay rs options.PutItems [] items1 items2 ev2
            (by rw [hl1]; omega) hP
          rw [List.nil_append] at hi2
          have hb2 := transactPutLoop_not_backend rs _ _ _ _ _ hP
          have hl2 : items2.length = options.UpdateItems.length + options.PutItems.length
              + options.DeleteItems.length := by
            rw [hi2, overlay_length, hl1]
          simp only []
          cases hD : rs.transactDeleteLoop 0 options.DeleteItems items2 with
          | mk r3 ev3 =>
            cases r3 with
            | error e =>
              obtain ⟨d, hmem, hf⟩ := transactDeleteLoop_error_fails rs _ _ _ _ _ hD
              exact absurd (Or.inr (Or.inr ⟨d, hmem, hf⟩)) (hsteps e)
            | ok items3 =>
              have hi3 := transactDeleteLoop_overlay rs options.DeleteItems [] items2 items3
                ev3 (by rw [hl2]; omega) hD
              rw [List.nil_append] at hi3
              have hb3 := transactDeleteLoop_not_backend rs _ _ _ _ _ hD
              simp only []
              refine ⟨ev1 ++ ev2 ++ ev3, ?_, ?_⟩
              · intro x hx
                rcases List.mem_append.1 hx with hx | hx
                · rcases List.mem_append.1 hx with hx | hx
                  · exact hb1 x hx
                  · exact hb2 x hx
                · exact hb3 x hx
              · rw [← hi1, ← hi2, ← hi3]
                split <;> rfl

theorem transactLayout_filled {R : Type} (rs : Service R) (options : TransactOptions R) :
    (rs.transactLayout options).countP Option.isSome =
      max options.UpdateItems.length
        (max options.PutItems.length options.DeleteItems.length) := by
  unfold Service.transactLayout
  rw [List.countP_map]
  rw [List.countP_congr (q := fun i => decide (i < max options.UpdateItems.length
    (max options.PutItems.length options.DeleteItems.length)))]
  · rw [countP_lt_range]
    omega
  · intro i _
    simp only [Function.comp, decide_eq_true_eq]
    by_cases hd : i < options.DeleteItems.length
    · simp only [hd, if_true, List.getElem?_eq_getElem hd, Option.map_some',
        Option.isSome_some, true_iff]
      omega
    · by_cases hp : i < options.PutItems.length
      · simp only [hd, hp, if_true, if_false, List.getElem?_eq_getElem hp, Option.map_some',
          Option.isSome_some, true_iff]
        omega
      · by_cases hu : i < options.UpdateItems.length
        · simp only [hd, hp, hu, if_true, if_false, List.getElem?_eq_getElem hu,
            Option.map_some', Option.isSome_some, true_iff]
          omega
        · simp only [hd, hp, hu, if_false, Option.isSome_none, Bool.false_eq_true,
            false_iff]
          omega

theorem transactLayout_single_kind {R : Type} (rs : Service R) (options : TransactOptions R) :
    (options.PutItems = [] → options.DeleteItems = [] →
      rs.transactLayout options =
        options.UpdateItems.map (fun u => some (rs.transactUpdateEntry u))) ∧
    (options.UpdateItems = [] → options.DeleteItems = [] →
      rs.transactLayout options =
        options.PutItems.map (fun p => some (rs.transactPutEntry p))) ∧
    (options.UpdateItems = [] → options.PutItems = [] →
      rs.transactLayout options =
        options.DeleteItems.map (fun d => some (rs.transactDeleteEntry d))) := by
  refine ⟨?_, ?_, ?_⟩
  · intro hp hd
    rw [← transactLayout_eq_overlay, hp, hd]
    simp only [List.length_nil, Nat.add_zero, List.map_nil, overlay_empty]
    rw [← List.length_map options.UpdateItems rs.transactUpdateEntry, overlay_replicate,
      List.map_map]
    rfl
  · intro hu hd
    rw [← transactLayout_eq_overlay, hu, hd]
    simp only [List.length_nil, Nat.add_zero, Nat.zero_add, List.map_nil, overlay_empty]
    rw [← List.length_map options.PutItems rs.transactPutEntry, overlay_replicate,
      List.map_map]
    rfl
  · intro hu hp
    rw [← transactLayout_eq_overlay, hu, hp]
    simp only [List.length_nil, Nat.add_zero, Nat.zero_add, List.map_nil, overlay_empty]
    rw [← List.length_map options.DeleteItems rs.transactDeleteEntry, overlay_replicate,
      List.map_map]
    rfl

/-- C19. For every `Transact` call with `u` updates, `p` puts and `d` deletes,
`1 ≤ u + p + d ≤ 25`, in which no compile or encode step fails, the call submits one
write group of `u + p + d` slots whose slot `i` holds the i-th delete if `i < d`,
otherwise the i-th put if `i < p`, otherwise the i-th update if `i < u`, otherwise nil;
exactly `max(u, p, d)` slots are filled; and when one kind only is present the group is
that kind's sub-operations in input order. -/
theorem Transact_slot_layout {R : Type} (rs : Service R) (opts : List (TransactOption R))
    (hvalid : 1 ≤ (applyTransactOptions opts).UpdateItems.length
        + (applyTransactOptions opts).PutItems.length
        + (applyTransactOptions opts).DeleteItems.length ∧
      (applyTransactOptions opts).UpdateItems.length
        + (applyTransactOptions opts).PutItems.length
        + (applyTransactOptions opts).DeleteItems.length ≤ 25)
    (hsteps : ∀ e, ¬ StepFails rs (applyTransactOptions opts) e) :
    submittedEntries (rs.Transact opts).trace =
      [rs.transactLayout (applyTransactOptions opts)] ∧
    (rs.transactLayout (applyTransactOptions opts)).length =
      (applyTransactOptions opts).UpdateItems.length
        + (applyTransactOptions opts).PutItems.length
        + (applyTransactOptions opts).DeleteItems.length ∧
    (∀ i, i < (applyTransactOptions opts).UpdateItems.length
        + (applyTransactOptions opts).PutItems.length
        + (applyTransactOptions opts).DeleteItems.length →
      (rs.transactLayout (applyTransactOptions opts))[i]? = some
        (if i < (applyTransactOptions opts).DeleteItems.length then
          ((applyTransactOptions opts).DeleteItems[i]?).map rs.transactDeleteEntry
        else if i < (applyTransactOptions opts).PutItems.length then
          ((applyTransactOptions opts).PutItems[i]?).map rs.transactPutEntry
        else if i < (applyTransactOptions opts).UpdateItems.length then
          ((applyTransactOptions opts).UpdateItems[i]?).map rs.transactUpdateEntry
        else none)) ∧
    (rs.transactLayout (applyTransactOptions opts)).countP Option.isSome =
      max (applyTransactOptions opts).UpdateItems.length
        (max (applyTransactOptions opts).PutItems.length
          (applyTransactOptions opts).DeleteItems.length) ∧
    ((applyTransactOptions opts).PutItems = [] → (applyTransactOptions opts).DeleteItems = [] →
      rs.transactLayout (applyTransactOptions opts) =
        (applyTransactOptions opts).UpdateItems.map
          (fun u => some (rs.transactUpdateEntry u))) ∧
    ((applyTransactOptions opts).UpdateItems = [] →
      (applyTransactOptions opts).DeleteItems = [] →
      rs.transactLayout (applyTransactOptions opts) =
        (applyTransactOptions opts).PutItems.map (fun p => some (rs.transactPutEntry p))) ∧
    ((applyTransactOptions opts).UpdateItems = [] → (applyTransactOptions opts).PutItems = [] →
      rs.transactLayout (applyTransactOptions opts) =
        (applyTransactOptions opts).DeleteItems.map
          (fun d => some (rs.transactDeleteEntry d))) := by
  obtain ⟨ev, hev, ht⟩ := Transact_assembled rs opts hvalid hsteps
  refine ⟨?_, ?_, ?_, transactLayout_filled rs _,
    (transactLayout_single_kind rs _).1, (transactLayout_single_kind rs _).2.1,
    (transactLayout_single_kind rs _).2.2⟩
  · rw [ht, submittedEntries_append_single ev _ hev]
  · simp [Service.transactLayout]
  · intro i hi
    simp only [Service.transactLayout, List.getElem?_map, List.getElem?_range hi,
      Option.map_some']

/-- C19 at concrete inputs, on the sample service: a `Transact` of three updates, one put
and no delete (the options add one update and one put, then two more updates) submits
four slots, the put, the second update, the third update and nil; a `Transact` of two
updates alone submits the two updates in input order. -/
theorem Transact_slot_layout_witness :
    submittedEntries (sampleService.Transact [sampleUpdateAndPut, sampleTwoUpdates]).trace =
      [[some { Put := some
                { TableName := some "T"
                  Item := PrimaryKey "b" "y"
                  ConditionExpression := none
                  ExpressionAttributeNames := none
                  ExpressionAttributeValues := none } },
        some { Update := some
                { TableName := some "T"
                  Key := PrimaryKey "u1" "x"
                  UpdateExpression := none
                  ConditionExpression := none
                  ExpressionAttributeNames := none
                  ExpressionAttributeValues := none } },
        some { Update := some
                { TableName := some "T"
                  Key := PrimaryKey "u2" "x"
                  UpdateExpression := none
                  ConditionExpression := none
                  ExpressionAttributeNames := none
                  ExpressionAttributeValues := none } },
        none]] ∧
    submittedEntries (sampleService.Transact [sampleTwoUpdates]).trace =
      [[some { Update := some
                { TableName := some "T"
                  Key := PrimaryKey "u1" "x"
                  UpdateExpression := none
                  ConditionExpression := none
                  ExpressionAttributeNames := none
                  ExpressionAttributeValues := none } },
        some { Update := some
                { TableName := some "T"
                  Key := PrimaryKey "u2" "x"
                  UpdateExpression := none
                  ConditionExpression := none
                  ExpressionAttributeNames := none
                  ExpressionAttributeValues := none } }]] :=
  ⟨(Transact_slot_layout sampleService [sampleUpdateAndPut, sampleTwoUpdates]
      ⟨by decide, by decide⟩ (by
        intro e h
        rcases h with ⟨u, hu, b, hb, _⟩ | ⟨p, hp, (⟨b, hb, _⟩ | hm)⟩ | ⟨d, hd, _⟩
        · simp [applyTransactOptions, sampleUpdateAndPut, sampleTwoUpdates,
            defaultTransactOptions] at hu
          rcases hu with rfl | rfl | rfl <;> simp at hb
        · simp [applyTransactOptions, sampleUpdateAndPut, sampleTwoUpdates,
            defaultTransactOptions] at hp
          subst hp
          simp at hb
        · simp [applyTransactOptions, sampleUpdateAndPut, sampleTwoUpdates,
            defaultTransactOptions] at hp
          subst hp
          simp [sampleService, sampleCodec, Codec.MarshalMap] at hm
        · simp [applyTransactOptions, sampleUpdateAndPut, sampleTwoUpdates,
            defaultTransactOptions] at hd)).1,
   (Transact_slot_layout sampleService [sampleTwoUpdates]
      ⟨by decide, by decide⟩ (by
        intro e h
        rcases h with ⟨u, hu, b, hb, _⟩ | ⟨p, hp, _⟩ | ⟨d, hd, _⟩
        · simp [applyTransactOptions, sampleTwoUpdates, defaultTransactOptions] at hu
          rcases hu with rfl | rfl <;> simp at hb
        · simp [applyTransactOptions, sampleTwoUpdates, defaultTransactOptions] at hp
        · simp [applyTransactOptions, sampleTwoUpdates, defaultTransactOptions] at hd)).1⟩

/-! ### Translation of backend errors -/

theorem Put_dispatches {R : Type} (rs : Service R) (v : R) (opts : List PutOption)
    (expr : Expression)
    (hb : (rs.buildIfSet (applyPutOptions opts).builder).1 = Except.ok expr)
    (hm : (rs.codec.MarshalMap v).2 = none) :
    Event.PutItem (rs.putInput expr v ReturnValueNone) ∈ (rs.Put v opts).trace := by
  revert hb
  unfold Service.Put applyPutOptions Service.putInput
  simp only []
  generalize (List.foldl (fun options opt => opt options) defaultPutOptions opts).builder
    = ob
  cases hbb : rs.buildIfSet ob with
  | mk r ev =>
    intro hb
    simp only [] at hb
    subst hb
    cases hmm : rs.codec.MarshalMap v with
    | mk item merr =>
      rw [hmm] at hm
      simp only [] at hm
      subst hm
      simp only []
      split <;> simp

theorem PutOut_dispatches {R : Type} (rs : Service R) (v out : R) (opts : List PutOption)
    (expr : Expression)
    (hb : (rs.buildIfSet (applyPutOptions opts).builder).1 = Except.ok expr)
    (hm : (rs.codec.MarshalMap v).2 = none) :
    Event.PutItem (rs.putInput expr v ReturnValueAllOld) ∈ (rs.PutOut v out opts).trace := by
  revert hb
  unfold Service.PutOut applyPutOptions Service.putInput
  simp only []
  generalize (List.foldl (fun options opt => opt options) defaultPutOptions opts).builder
    = ob
  cases hbb : rs.buildIfSet ob with
  | mk r ev =>
    intro hb
    simp only [] at hb
    subst hb
    cases hmm : rs.codec.MarshalMap v with
    | mk item merr =>
      rw [hmm] at hm
      simp only [] at hm
      subst hm
      simp only []
      split <;> simp

theorem Delete_dispatches {R : Type} (rs : Service R) (key : PrimaryKeyType)
    (opts : List DeleteOption) (expr : Expression)
    (hb : (rs.buildIfSet (applyDeleteOptions opts).builder).1 = Except.ok expr) :
    Event.DeleteItem (rs.deleteInput expr key ReturnValueNone) ∈
      (rs.Delete key opts).trace := by
  revert hb
  unfold Service.Delete applyDeleteOptions Service.deleteInput
  simp only []
  generalize (List.foldl (fun options opt => opt options) defaultDeleteOptions opts).builder
    = ob
  cases hbb : rs.buildIfSet ob with
  | mk r ev =>
    intro hb
    simp only [] at hb
    subst hb
    simp only []
    split <;> simp

theorem DeleteOut_dispatches {R : Type} (rs : Service R) (key : PrimaryKeyType) (out : R)
    (opts : List DeleteOption) (expr : Expression)
    (hb : (rs.buildIfSet (applyDeleteOptions opts).builder).1 = Except.ok expr) :
    Event.DeleteItem (rs.deleteInput expr key ReturnValueAllOld) ∈
      (rs.DeleteOut key out opts).trace := by
  revert hb
  unfold Service.DeleteOut applyDeleteOptions Service.deleteInput
  simp only []
  generalize (List.foldl (fun options opt => opt options) defaultDeleteOptions opts).builder
    = ob
  cases hbb : rs.buildIfSet ob with
  | mk r ev =>
    intro hb
    simp only [] at hb
    subst hb
    simp only []
    split <;> simp

theorem Update_dispatches {R : Type} (rs : Service R) (key : PrimaryKeyType)
    (update : UpdateBuilder) (opts : List UpdateOption) (expr : Expression)
    (hrv : (applyUpdateOptions { returnValue := some UpdateReturnValueNone }
      opts).returnValue = some "NONE")
    (hb : rs.Build (updateBuilder { returnValue := some UpdateReturnValueNone } update opts)
      = Except.ok expr) :
    Event.UpdateItem (rs.updateInput expr key (some "NONE")) ∈
      (rs.Update key update opts).trace := by
  have hrv2 : (List.foldl (fun (options : UpdateOptions) (opt : UpdateOption) =>
      opt options) { defaultUpdateOptions with returnValue := some UpdateReturnValueNone }
      opts).returnValue = some "NONE" := hrv
  have hb2 : rs.Build ((match (List.foldl (fun (options : UpdateOptions)
      (opt : UpdateOption) => opt options)
      { defaultUpdateOptions with returnValue := some UpdateReturnValueNone }
      opts).builder with
      | none => NewBuilder
      | some b => b).WithUpdate update) = Except.ok expr := hb
  unfold Service.Update Service.updateInput
  simp only []
  rw [hrv2]
  rw [if_neg (by simp [StringValue, UpdateReturnValueNone, ReturnValueNone])]
  try simp only []
  rw [hb2]
  try simp only []
  split <;> simp

theorem UpdateOut_dispatches {R : Type} (rs : Service R) (key : PrimaryKeyType)
    (update : UpdateBuilder) (out : R) (opts : List UpdateOption) (expr : Expression)
    (hrv : StringValue (applyUpdateOptions { returnValue := some UpdateReturnValueUpdatedNew }
      opts).returnValue ≠ "NONE")
    (hb : rs.Build (updateBuilder { returnValue := some UpdateReturnValueUpdatedNew }
      update opts) = Except.ok expr) :
    Event.UpdateItem (rs.updateInput expr key
        (applyUpdateOptions { returnValue := some UpdateReturnValueUpdatedNew }
          opts).returnValue) ∈
      (rs.UpdateOut key update out opts).trace := by
  have hrv2 : ¬ StringValue (List.foldl (fun (options : UpdateOptions)
      (opt : UpdateOption) => opt options)
      { defaultUpdateOptions with returnValue := some UpdateReturnValueUpdatedNew }
      opts).returnValue = UpdateReturnValueNone := hrv
  have hb2 : rs.Build ((match (List.foldl (fun (options : UpdateOptions)
      (opt : UpdateOption) => opt options)
      { defaultUpdateOptions with returnValue := some UpdateReturnValueUpdatedNew }
      opts).builder with
      | none => NewBuilder
      | some b => b).WithUpdate update) = Except.ok expr := hb
  unfold Service.UpdateOut Service.updateInput
  simp only []
  rw [if_neg hrv2]
  try simp only []
  rw [hb2]
  try simp only []
  split <;> simp [applyUpdateOptions, defaultUpdateOptions]

theorem PutBatch_dispatches {R : Type} (rs : Service R) (ins : List R)
    (opts : List PutOption) (expr : Expression)
    (hvalid : 1 ≤ ins.length ∧ ins.length ≤ 25)
    (hb : (rs.buildIfSet (applyPutOptions opts).builder).1 = Except.ok expr)
    (hm : ∀ v ∈ ins, (rs.codec.MarshalMap v).2 = none) :
    Event.TransactWriteItems
        { TransactItems := ins.map (fun v => some (rs.putBatchEntry expr v)) } ∈
      (rs.PutBatch ins opts).trace := by
  obtain ⟨ev, _, ht⟩ := PutBatch_group rs ins opts expr hvalid hb hm
  rw [ht]
  simp

theorem UpdateBatch_dispatches {R : Type} (rs : Service R) (keys : List PrimaryKeyType)
    (update : UpdateBuilder) (opts : List UpdateOption) (expr : Expression)
    (hvalid : 1 ≤ keys.length ∧ keys.length ≤ 25)
    (hb : rs.Build (updateBatchBuilder update opts) = Except.ok expr) :
    Event.TransactWriteItems
        { TransactItems := keys.map (fun key => some (rs.updateBatchEntry expr key)) } ∈
      (rs.UpdateBatch keys update opts).trace := by
  rw [UpdateBatch_group rs keys update opts expr hvalid hb]
  simp

theorem DeleteBatch_dispatches {R : Type} (rs : Service R) (keys : List PrimaryKeyType)
    (opts : List DeleteOption) (expr : Expression)
    (hvalid : 1 ≤ keys.length ∧ keys.length ≤ 25)
    (hb : (rs.buildIfSet (applyDeleteOptions opts).builder).1 = Except.ok expr) :
    Event.TransactWriteItems
        { TransactItems := keys.map (fun key => some (rs.deleteBatchEntry expr key)) } ∈
      (rs.DeleteBatch keys opts).trace := by
  obtain ⟨ev, _, ht⟩ := DeleteBatch_group rs keys opts expr hvalid hb
  rw [ht]
  simp

theorem Transact_dispatches {R : Type} (rs : Service R) (opts : List (TransactOption R))
    (hvalid : 1 ≤ (applyTransactOptions opts).UpdateItems.length
        + (applyTransactOptions opts).PutItems.length
        + (applyTransactOptions opts).DeleteItems.length ∧
      (applyTransactOptions opts).UpdateItems.length
        + (applyTransactOptions opts).PutItems.length
        + (applyTransactOptions opts).DeleteItems.length ≤ 25)
    (hsteps : ∀ e, ¬ StepFails rs (applyTransactOptions opts) e) :
    Event.TransactWriteItems
        { TransactItems := rs.transactLayout (applyTransactOptions opts) } ∈
      (rs.Transact opts).trace := by
  obtain ⟨ev, _, ht⟩ := Transact_assembled rs opts hvalid hsteps
  rw [ht]
  simp

theorem failingService_steps_succeed (e : Error) :
    ∀ e0, ¬ StepFails (failingService e) (applyTransactOptions [sampleUpdateAndPut]) e0 := by
  intro e0 h
  rcases h with ⟨u, hu, b, hb, _⟩ | ⟨p, hp, (⟨b, hb, _⟩ | hm)⟩ | ⟨d, hd, _⟩
  · simp [applyTransactOptions, sampleUpdateAndPut, defaultTransactOptions] at hu
    subst hu
    simp at hb
  · simp [applyTransactOptions, sampleUpdateAndPut, defaultTransactOptions] at hp
    subst hp
    simp at hb
  · simp [applyTransactOptions, sampleUpdateAndPut, defaultTransactOptions] at hp
    subst hp
    simp [failingService, sampleService, sampleCodec, Codec.MarshalMap] at hm
  · simp [applyTransactOptions, sampleUpdateAndPut, defaultTransactOptions] at hd

/-- C5. Each write entry point (`Put`, `PutOut`, `Update`, `UpdateOut`, `Delete`,
`DeleteOut`, `PutBatch`, `UpdateBatch`, `DeleteBatch`, `Transact`) translates a backend
error, in two parts. First, whenever a request the call dispatched is answered by the
backend with an error `e`, the call returns `ErrConditionalCheck` if `e` is a
backend-coded error with the conditional-check-failed code, and `e` itself, unchanged,
otherwise. Second, the call does dispatch its request: when the steps before the backend
call succeed (the expression compiles, the record or records encode, the return-value
policy of `Update` and `UpdateOut` admits the effective value, the size of a batch or of
a transact group is 1 to 25), the request assembled from the arguments is in the trace of
the call, and if the backend answers that request with `e` the call returns the
translation of `e`. -/
theorem write_entry_points_translate_backend_error {R : Type} (rs : Service R) (e : Error) :
    ((∀ (v : R) (opts : List PutOption) (input : PutItemInput),
      Event.PutItem input ∈ (rs.Put v opts).trace →
      rs.dynamo.PutItemWithContext input = Except.error e →
      TranslatedFrom e (rs.Put v opts).err) ∧
    (∀ (v out : R) (opts : List PutOption) (input : PutItemInput),
      Event.PutItem input ∈ (rs.PutOut v out opts).trace →
      rs.dynamo.PutItemWithContext input = Except.error e →
      TranslatedFrom e (rs.PutOut v out opts).err) ∧
    (∀ (key : PrimaryKeyType) (update : UpdateBuilder) (opts : List UpdateOption)
        (input : UpdateItemInput),
      Event.UpdateItem input ∈ (rs.Update key update opts).trace →
      rs.dynamo.UpdateItemWithContext input = Except.error e →
      TranslatedFrom e (rs.Update key update opts).err) ∧
    (∀ (key : PrimaryKeyType) (update : UpdateBuilder) (out : R) (opts : List UpdateOption)
        (input : UpdateItemInput),
      Event.UpdateItem input ∈ (rs.UpdateOut key update out opts).trace →
      rs.dynamo.UpdateItemWithContext input = Except.error e →
      TranslatedFrom e (rs.UpdateOut key update out opts).err) ∧
    (∀ (key : PrimaryKeyType) (opts : List DeleteOption) (input : DeleteItemInput),
      Event.DeleteItem input ∈ (rs.Delete key opts).trace →
      rs.dynamo.DeleteItemWithContext input = Except.error e →
      TranslatedFrom e (rs.Delete key opts).err) ∧
    (∀ (key : PrimaryKeyType) (out : R) (opts : List DeleteOption) (input : DeleteItemInput),
      Event.DeleteItem input ∈ (rs.DeleteOut key out opts).trace →
      rs.dynamo.DeleteItemWithContext input = Except.error e →
      TranslatedFrom e (rs.DeleteOut key out opts).err) ∧
    (∀ (ins : List R) (opts : List PutOption) (input : TransactWriteItemsInput),
      Event.TransactWriteItems input ∈ (rs.PutBatch ins opts).trace →
      rs.dynamo.TransactWriteItemsWithContext input = some e →
      TranslatedFrom e (rs.PutBatch ins opts).err) ∧
    (∀ (keys : List PrimaryKeyType) (update : UpdateBuilder) (opts : List UpdateOption)
        (input : TransactWriteItemsInput),
      Event.TransactWriteItems input ∈ (rs.UpdateBatch keys update opts).trace →
      rs.dynamo.TransactWriteItemsWithContext input = some e →
      TranslatedFrom e (rs.UpdateBatch keys update opts).err) ∧
    (∀ (keys : List PrimaryKeyType) (opts : List DeleteOption)
        (input : TransactWriteItemsInput),
      Event.TransactWriteItems input ∈ (rs.DeleteBatch keys opts).trace →
      rs.dynamo.TransactWriteItemsWithContext input = some e →
      TranslatedFrom e (rs.DeleteBatch keys opts).err) ∧
    (∀ (opts : List (TransactOption R)) (input : TransactWriteItemsInput),
      Event.TransactWriteItems input ∈ (rs.Transact opts).trace →
      rs.dynamo.TransactWriteItemsWithContext input = some e →
      TranslatedFrom e (rs.Transact opts).err)) ∧
    (∀ (v : R) (opts : List PutOption) (expr : Expression),
      (rs.buildIfSet (applyPutOptions opts).builder).1 = Except.ok expr →
      (rs.codec.MarshalMap v).2 = none →
      Event.PutItem (rs.putInput expr v ReturnValueNone) ∈ (rs.Put v opts).trace ∧
      (rs.dynamo.PutItemWithContext (rs.putInput expr v ReturnValueNone) = Except.error e →
        TranslatedFrom e (rs.Put v opts).err)) ∧
    (∀ (v out : R) (opts : List PutOption) (expr : Expression),
      (rs.buildIfSet (applyPutOptions opts).builder).1 = Except.ok expr →
      (rs.codec.MarshalMap v).2 = none →
      Event.PutItem (rs.putInput expr v ReturnValueAllOld) ∈ (rs.PutOut v out opts).trace ∧
      (rs.dynamo.PutItemWithContext (rs.putInput expr v ReturnValueAllOld) = Except.error e →
        TranslatedFrom e (rs.PutOut v out opts).err)) ∧
    (∀ (key : PrimaryKeyType) (update : UpdateBuilder) (opts : List UpdateOption)
        (expr : Expression),
      (applyUpdateOptions { returnValue := some UpdateReturnValueNone } opts).returnValue
        = some "NONE" →
      rs.Build (updateBuilder { returnValue := some UpdateReturnValueNone } update opts)
        = Except.ok expr →
      Event.UpdateItem (rs.updateInput expr key (some "NONE")) ∈
        (rs.Update key update opts).trace ∧
      (rs.dynamo.UpdateItemWithContext (rs.updateInput expr key (some "NONE"))
          = Except.error e →
        TranslatedFrom e (rs.Update key update opts).err)) ∧
    (∀ (key : PrimaryKeyType) (update : UpdateBuilder) (out : R) (opts : List UpdateOption)
        (expr : Expression),
      StringValue (applyUpdateOptions { returnValue := some UpdateReturnValueUpdatedNew }
        opts).returnValue ≠ "NONE" →
      rs.Build (updateBuilder { returnValue := some UpdateReturnValueUpdatedNew } update opts)
        = Except.ok expr →
      Event.UpdateItem (rs.updateInput expr key
          (applyUpdateOptions { returnValue := some UpdateReturnValueUpdatedNew }
            opts).returnValue) ∈ (rs.UpdateOut key update out opts).trace ∧
      (rs.dynamo.UpdateItemWithContext (rs.updateInput expr key
          (applyUpdateOptions { returnValue := some UpdateReturnValueUpdatedNew }
            opts).returnValue) = Except.error e →
        TranslatedFrom e (rs.UpdateOut key update out opts).err)) ∧
    (∀ (key : PrimaryKeyType) (opts : List DeleteOption) (expr : Expression),
      (rs.buildIfSet (applyDeleteOptions opts).builder).1 = Except.ok expr →
      Event.DeleteItem (rs.deleteInput expr key ReturnValueNone) ∈
        (rs.Delete key opts).trace ∧
      (rs.dynamo.DeleteItemWithContext (rs.deleteInput expr key ReturnValueNone)
          = Except.error e →
        TranslatedFrom e (rs.Delete key opts).err)) ∧
    (∀ (key : PrimaryKeyType) (out : R) (opts : List DeleteOption) (expr : Expression),
      (rs.buildIfSet (applyDeleteOptions opts).builder).1 = Except.ok expr →
      Event.DeleteItem (rs.deleteInput expr key ReturnValueAllOld) ∈
        (rs.DeleteOut key out opts).trace ∧
      (rs.dynamo.DeleteItemWithContext (rs.deleteInput expr key ReturnValueAllOld)
          = Except.error e →
        TranslatedFrom e (rs.DeleteOut key out opts).err)) ∧
    (∀ (ins : List R) (opts : List PutOption) (expr : Expression),
      1 ≤ ins.length ∧ ins.length ≤ 25 →
      (rs.buildIfSet (applyPutOptions opts).builder).1 = Except.ok expr →
      (∀ v ∈ ins, (rs.codec.MarshalMap v).2 = none) →
      Event.TransactWriteItems
          { TransactItems := ins.map (fun v => some (rs.putBatchEntry expr v)) } ∈
        (rs.PutBatch ins opts).trace ∧
      (rs.dynamo.TransactWriteItemsWithContext
          { TransactItems := ins.map (fun v => some (rs.putBatchEntry expr v)) } = some e →
        TranslatedFrom e (rs.PutBatch ins opts).err)) ∧
    (∀ (keys : List PrimaryKeyType) (update : UpdateBuilder) (opts : List UpdateOption)
        (expr : Expression),
      1 ≤ keys.length ∧ keys.length ≤ 25 →
      rs.Build (updateBatchBuilder update opts) = Except.ok expr →
      Event.TransactWriteItems
          { TransactItems := keys.map (fun key => some (rs.updateBatchEntry expr key)) } ∈
        (rs.UpdateBatch keys update opts).trace ∧
      (rs.dynamo.TransactWriteItemsWithContext
          { TransactItems := keys.map (fun key => some (rs.updateBatchEntry expr key)) }
          = some e →
        TranslatedFrom e (rs.UpdateBatch keys update opts).err)) ∧
    (∀ (keys : List PrimaryKeyType) (opts : List DeleteOption) (expr : Expression),
      1 ≤ keys.length ∧ keys.length ≤ 25 →
      (rs.buildIfSet (applyDeleteOptions opts).builder).1 = Except.ok expr →
      Event.TransactWriteItems
          { TransactItems := keys.map (fun key => some (rs.deleteBatchEntry expr key)) } ∈
        (rs.DeleteBatch keys opts).trace ∧
      (rs.dynamo.TransactWriteItemsWithContext
          { TransactItems := keys.map (fun key => some (rs.deleteBatchEntry expr key)) }
          = some e →
        TranslatedFrom e (rs.DeleteBatch keys opts).err)) ∧
    (∀ (opts : List (TransactOption R)),
      1 ≤ (applyTransactOptions opts).UpdateItems.length
          + (applyTransactOptions opts).PutItems.length
          + (applyTransactOptions opts).DeleteItems.length ∧
        (applyTransactOptions opts).UpdateItems.length
          + (applyTransactOptions opts).PutItems.length
          + (applyTransactOptions opts).DeleteItems.length ≤ 25 →
      (∀ e0, ¬ StepFails rs (applyTransactOptions opts) e0) →
      Event.TransactWriteItems
          { TransactItems := rs.transactLayout (applyTransactOptions opts) } ∈
        (rs.Transact opts).trace ∧
      (rs.dynamo.TransactWriteItemsWithContext
          { TransactItems := rs.transactLayout (applyTransactOptions opts) } = some e →
        TranslatedFrom e (rs.Transact opts).err)) :=
  ⟨⟨fun v opts input => Put_backend_error rs v opts input e,
    fun v out opts input => PutOut_backend_error rs v out opts input e,
    fun key update opts input => Update_backend_error rs key update opts input e,
    fun key update out opts input => UpdateOut_backend_error rs key update out opts input e,
    fun key opts input => Delete_backend_error rs key opts input e,
    fun key out opts input => DeleteOut_backend_error rs key out opts input e,
    fun ins opts input => PutBatch_backend_error rs ins opts input e,
    fun keys update opts input => UpdateBatch_backend_error rs keys update opts input e,
    fun keys opts input => DeleteBatch_backend_error rs keys opts input e,
    fun opts input => Transact_backend_error rs opts input e⟩,
   fun v opts expr hb hm =>
    ⟨Put_dispatches rs v opts expr hb hm,
     Put_backend_error rs v opts _ e (Put_dispatches rs v opts expr hb hm)⟩,
   fun v out opts expr hb hm =>
    ⟨PutOut_dispatches rs v out opts expr hb hm,
     PutOut_backend_error rs v out opts _ e (PutOut_dispatches rs v out opts expr hb hm)⟩,
   fun key update opts expr hrv hb =>
    ⟨Update_dispatches rs key update opts expr hrv hb,
     Update_backend_error rs key update opts _ e
      (Update_dispatches rs key update opts expr hrv hb)⟩,
   fun key update out opts expr hrv hb =>
    ⟨UpdateOut_dispatches rs key update out opts expr hrv hb,
     UpdateOut_backend_error rs key update out opts _ e
      (UpdateOut_dispatches rs key update out opts expr hrv hb)⟩,
   fun key opts expr hb =>
    ⟨Delete_dispatches rs key opts expr hb,
     Delete_backend_error rs key opts _ e (Delete_dispatches rs key opts expr hb)⟩,
   fun key out opts expr hb =>
    ⟨DeleteOut_dispatches rs key out opts expr hb,
     DeleteOut_backend_error rs key out opts _ e
      (DeleteOut_dispatches rs key out opts expr hb)⟩,
   fun ins opts expr hvalid hb hm =>
    ⟨PutBatch_dispatches rs ins opts expr hvalid hb hm,
     PutBatch_backend_error rs ins opts _ e
      (PutBatch_dispatches rs ins opts expr hvalid hb hm)⟩,
   fun keys update opts expr hvalid hb =>
    ⟨UpdateBatch_dispatches rs keys update opts expr hvalid hb,
     UpdateBatch_backend_error rs keys update opts _ e
      (UpdateBatch_dispatches rs keys update opts expr hvalid hb)⟩,
   fun keys opts expr hvalid hb =>
    ⟨DeleteBatch_dispatches rs keys opts expr hvalid hb,
     DeleteBatch_backend_error rs keys opts _ e
      (DeleteBatch_dispatches rs keys opts expr hvalid hb)⟩,
   fun opts hvalid hsteps =>
    ⟨Transact_dispatches rs opts hvalid hsteps,
     Transact_backend_error rs opts _ e (Transact_dispatches rs opts hvalid hsteps)⟩⟩

/-- C5 at concrete inputs: on a backend that answers every write request with the
conditional-check-failed code, each of the ten write entry points (among them a `Put` and
a `Delete` with a condition option) returns `ErrConditionalCheck`; on a backend that
answers every write request with an uncoded error, each of the ten returns that error. -/
theorem write_entry_points_translate_backend_error_witness :
    ((failingService (Error.awserr "ConditionalCheckFailedException" "m")).Put (PrimaryKey "a" "x") [PutCondition ConditionItemExist]).err
      = some Error.ErrConditionalCheck ∧
    ((failingService (Error.awserr "ConditionalCheckFailedException" "m")).PutOut (PrimaryKey "a" "x") [] []).err
      = some Error.ErrConditionalCheck ∧
    ((failingService (Error.awserr "ConditionalCheckFailedException" "m")).Update (PrimaryKey "a" "x") ⟨[("TestV", "v2")]⟩ []).err
      = some Error.ErrConditionalCheck ∧
    ((failingService (Error.awserr "ConditionalCheckFailedException" "m")).UpdateOut (PrimaryKey "a" "x") ⟨[("TestV", "v2")]⟩ []
        [UpdateReturnValue "ALL_OLD"]).err
      = some Error.ErrConditionalCheck ∧
    ((failingService (Error.awserr "ConditionalCheckFailedException" "m")).Delete (PrimaryKey "a" "x") [DeleteCondition ConditionItemExist]).err
      = some Error.ErrConditionalCheck ∧
    ((failingService (Error.awserr "ConditionalCheckFailedException" "m")).DeleteOut (PrimaryKey "a" "x") [] []).err
      = some Error.ErrConditionalCheck ∧
    ((failingService (Error.awserr "ConditionalCheckFailedException" "m")).PutBatch [PrimaryKey "a" "x", PrimaryKey "b" "y"] []).err
      = some Error.ErrConditionalCheck ∧
    ((failingService (Error.awserr "ConditionalCheckFailedException" "m")).UpdateBatch [PrimaryKey "a" "x", PrimaryKey "b" "y"]
        ⟨[("TestV", "v2")]⟩ []).err
      = some Error.ErrConditionalCheck ∧
    ((failingService (Error.awserr "ConditionalCheckFailedException" "m")).DeleteBatch [PrimaryKey "a" "x", PrimaryKey "b" "y"] []).err
      = some Error.ErrConditionalCheck ∧
    ((failingService (Error.awserr "ConditionalCheckFailedException" "m")).Transact [sampleUpdateAndPut]).err
      = some Error.ErrConditionalCheck ∧
    ((failingService (Error.other "timeout")).Put (PrimaryKey "a" "x") [PutCondition ConditionItemExist]).err
      = some (Error.other "timeout") ∧
    ((failingService (Error.other "timeout")).PutOut (PrimaryKey "a" "x") [] []).err
      = some (Error.other "timeout") ∧
    ((failingService (Error.other "timeout")).Update (PrimaryKey "a" "x") ⟨[("TestV", "v2")]⟩ []).err
      = some (Error.other "timeout") ∧
    ((failingService (Error.other "timeout")).UpdateOut (PrimaryKey "a" "x") ⟨[("TestV", "v2")]⟩ []
        [UpdateReturnValue "ALL_OLD"]).err
      = some (Error.other "timeout") ∧
    ((failingService (Error.other "timeout")).Delete (PrimaryKey "a" "x") [DeleteCondition ConditionItemExist]).err
      = some (Error.other "timeout") ∧
    ((failingService (Error.other "timeout")).DeleteOut (PrimaryKey "a" "x") [] []).err
      = some (Error.other "timeout") ∧
    ((failingService (Error.other "timeout")).PutBatch [PrimaryKey "a" "x", PrimaryKey "b" "y"] []).err
      = some (Error.other "timeout") ∧
    ((failingService (Error.other "timeout")).UpdateBatch [PrimaryKey "a" "x", PrimaryKey "b" "y"]
        ⟨[("TestV", "v2")]⟩ []).err
      = some (Error.other "timeout") ∧
    ((failingService (Error.other "timeout")).DeleteBatch [PrimaryKey "a" "x", PrimaryKey "b" "y"] []).err
      = some (Error.other "timeout") ∧
    ((failingService (Error.other "timeout")).Transact [sampleUpdateAndPut]).err
      = some (Error.other "timeout") :=
  ⟨((((write_entry_points_translate_backend_error
        (failingService (Error.awserr "ConditionalCheckFailedException" "m"))
        (Error.awserr "ConditionalCheckFailedException" "m")).2.1
      (PrimaryKey "a" "x") [PutCondition ConditionItemExist] _ rfl rfl).2 rfl).1 ⟨"m", rfl⟩),
   ((((write_entry_points_translate_backend_error
        (failingService (Error.awserr "ConditionalCheckFailedException" "m"))
        (Error.awserr "ConditionalCheckFailedException" "m")).2.2.1
      (PrimaryKey "a" "x") [] [] _ rfl rfl).2 rfl).1 ⟨"m", rfl⟩),
   ((((write_entry_points_translate_backend_error
        (failingService (Error.awserr "ConditionalCheckFailedException" "m"))
        (Error.awserr "ConditionalCheckFailedException" "m")).2.2.2.1
      (PrimaryKey "a" "x") ⟨[("TestV", "v2")]⟩ [] _ rfl rfl).2 rfl).1 ⟨"m", rfl⟩),
   ((((write_entry_points_translate_backend_error
        (failingService (Error.awserr "ConditionalCheckFailedException" "m"))
        (Error.awserr "ConditionalCheckFailedException" "m")).2.2.2.2.1
      (PrimaryKey "a" "x") ⟨[("TestV", "v2")]⟩ []
      [UpdateReturnValue "ALL_OLD"] _ (by decide) rfl).2 rfl).1 ⟨"m", rfl⟩),
   ((((write_entry_points_translate_backend_error
        (failingService (Error.awserr "ConditionalCheckFailedException" "m"))
        (Error.awserr "ConditionalCheckFailedException" "m")).2.2.2.2.2.1
      (PrimaryKey "a" "x") [DeleteCondition ConditionItemExist] _ rfl).2 rfl).1 ⟨"m", rfl⟩),
   ((((write_entry_points_translate_backend_error
        (failingService (Error.awserr "ConditionalCheckFailedException" "m"))
        (Error.awserr "ConditionalCheckFailedException" "m")).2.2.2.2.2.2.1
      (PrimaryKey "a" "x") [] [] _ rfl).2 rfl).1 ⟨"m", rfl⟩),
   ((((write_entry_points_translate_backend_error
        (failingService (Error.awserr "ConditionalCheckFailedException" "m"))
        (Error.awserr "ConditionalCheckFailedException" "m")).2.2.2.2.2.2.2.1
      [PrimaryKey "a" "x", PrimaryKey "b" "y"] [] _
      ⟨by decide, by decide⟩ rfl (fun _ _ => rfl)).2 rfl).1 ⟨"m", rfl⟩),
   ((((write_entry_points_translate_backend_error
        (failingService (Error.awserr "ConditionalCheckFailedException" "m"))
        (Error.awserr "ConditionalCheckFailedException" "m")).2.2.2.2.2.2.2.2.1
      [PrimaryKey "a" "x", PrimaryKey "b" "y"] ⟨[("TestV", "v2")]⟩ [] _
      ⟨by decide, by decide⟩ rfl).2 rfl).1 ⟨"m", rfl⟩),
   ((((write_entry_points_translate_backend_error
        (failingService (Error.awserr "ConditionalCheckFailedException" "m"))
        (Error.awserr "ConditionalCheckFailedException" "m")).2.2.2.2.2.2.2.2.2.1
      [PrimaryKey "a" "x", PrimaryKey "b" "y"] [] _
      ⟨by decide, by decide⟩ rfl).2 rfl).1 ⟨"m", rfl⟩),
   ((((write_entry_points_translate_backend_error
        (failingService (Error.awserr "ConditionalCheckFailedException" "m"))
        (Error.awserr "ConditionalCheckFailedException" "m")).2.2.2.2.2.2.2.2.2.2
      [sampleUpdateAndPut]
      ⟨by decide, by decide⟩ (failingService_steps_succeed _)).2 rfl).1 ⟨"m", rfl⟩),
   ((((write_entry_points_translate_backend_error
        (failingService (Error.other "timeout"))
        (Error.other "timeout")).2.1
      (PrimaryKey "a" "x") [PutCondition ConditionItemExist] _ rfl rfl).2 rfl).2
      (fun _ h => Error.noConfusion h)),
   ((((write_entry_points_translate_backend_error
        (failingService (Error.other "timeout"))
        (Error.other "timeout")).2.2.1
      (PrimaryKey "a" "x") [] [] _ rfl rfl).2 rfl).2
      (fun _ h => Error.noConfusion h)),
   ((((write_entry_points_translate_backend_error
        (failingService (Error.other "timeout"))
        (Error.other "timeout")).2.2.2.1
      (PrimaryKey "a" "x") ⟨[("TestV", "v2")]⟩ [] _ rfl rfl).2 rfl).2
      (fun _ h => Error.noConfusion h)),
   ((((write_entry_points_translate_backend_error
        (failingService (Error.other "timeout"))
        (Error.other "timeout")).2.2.2.2.1
      (PrimaryKey "a" "x") ⟨[("TestV", "v2")]⟩ []
      [UpdateReturnValue "ALL_OLD"] _ (by decide) rfl).2 rfl).2
      (fun _ h => Error.noConfusion h)),
   ((((write_entry_points_translate_backend_error
        (failingService (Error.other "timeout"))
        (Error.other "timeout")).2.2.2.2.2.1
      (PrimaryKey "a" "x") [DeleteCondition ConditionItemExist] _ rfl).2 rfl).2
      (fun _ h => Error.noConfusion h)),
   ((((write_entry_points_translate_backend_error
        (failingService (Error.other "timeout"))
        (Error.other "timeout")).2.2.2.2.2.2.1
      (PrimaryKey "a" "x") [] [] _ rfl).2 rfl).2
      (fun _ h => Error.noConfusion h)),
   ((((write_entry_points_translate_backend_error
        (failingService (Error.other "timeout"))
        (Error.other "timeout")).2.2.2.2.2.2.2.1
      [PrimaryKey "a" "x", PrimaryKey "b" "y"] [] _
      ⟨by decide, by decide⟩ rfl (fun _ _ => rfl)).2 rfl).2
      (fun _ h => Error.noConfusion h)),
   ((((write_entry_points_translate_backend_error
        (failingService (Error.other "timeout"))
        (Error.other "timeout")).2.2.2.2.2.2.2.2.1
      [PrimaryKey "a" "x", PrimaryKey "b" "y"] ⟨[("TestV", "v2")]⟩ [] _
      ⟨by decide, by decide⟩ rfl).2 rfl).2
      (fun _ h => Error.noConfusion h)),
   ((((write_entry_points_translate_backend_error
        (failingService (Error.other "timeout"))
        (Error.other "timeout")).2.2.2.2.2.2.2.2.2.1
      [PrimaryKey "a" "x", PrimaryKey "b" "y"] [] _
      ⟨by decide, by decide⟩ rfl).2 rfl).2
      (fun _ h => Error.noConfusion h)),
   ((((write_entry_points_translate_backend_error
        (failingService (Error.other "timeout"))
        (Error.other "timeout")).2.2.2.2.2.2.2.2.2.2
      [sampleUpdateAndPut]
      ⟨by decide, by decide⟩ (failingService_steps_succeed _)).2 rfl).2
      (fun _ h => Error.noConfusion h))⟩
end Rotor
